import Mathlib

/-!
# hn-bot: the dedup / posting pipeline

A shallow embedding of `src/storage.go` and of the delivery and orchestration
functions of `src/main.go`.

* Go `string` values are Lean `String`s; scanning code works on their character lists.
* Go `int` values are Lean `Int`s; `isInt` is the 64-bit range of the Go type.
* `error` results are `Option Err` (`none` is Go's `nil`).
* The file system, the SQL table and the network are explicit states that are
  passed through every call. The storage is behind the interface `Storage`, the network
  behind `Net`: the orchestration is proved for every implementation of them.
* Every function of a run also returns the trace of what it did, so that statements about
  deliveries, sends, waits and storage calls can be made.
* Logging, the JSON encoding of the payload and the scheduling loop of `main` are not
  modelled.
-/

namespace HnBot

/-! ## Library functions used by the source -/

/-- Go `error` values are represented by their message. -/
abbrev Err := String

/-- Range of the Go type `int` on the 64-bit platforms the bot is built for. -/
def isInt (i : Int) : Prop := -(2 : Int) ^ 63 ≤ i ∧ i < (2 : Int) ^ 63

instance (i : Int) : Decidable (isInt i) := by unfold isInt; infer_instance

/-- Go `strconv.Itoa`: decimal digits, with a leading minus sign for negative numbers. -/
def Itoa (i : Int) : String :=
  match i with
  | Int.ofNat m => Nat.repr m
  | Int.negSucc m => "-" ++ Nat.repr (m + 1)

/-- Go `unicode.IsSpace`, on the code point of the character. -/
def isSpace (c : Char) : Bool :=
  let n := c.toNat
  n == 9 || n == 10 || n == 11 || n == 12 || n == 13 || n == 32 ||
  n == 0x85 || n == 0xA0 || n == 0x1680 || (0x2000 ≤ n && n ≤ 0x200a) ||
  n == 0x2028 || n == 0x2029 || n == 0x202f || n == 0x205f || n == 0x3000

/-- Go `strings.TrimSpace`: leading and trailing white space removed. -/
def TrimSpace (s : List Char) : List Char :=
  ((s.dropWhile isSpace).reverse.dropWhile isSpace).reverse

/-- The function `dropCR` of Go `bufio`: one trailing carriage return is removed. -/
def dropCR (data : List Char) : List Char :=
  match data.reverse with
  | c :: rest => if c.toNat = 13 then rest.reverse else data
  | [] => data

/-- Go `bufio.ScanLines` iterated over the whole input: the input is cut at every line feed,
the line feeds are removed, and a final line without line feed is a line of its own unless it
is empty. The lines still carry their carriage return. -/
def scanLines : List Char → List (List Char)
  | [] => []
  | c :: cs =>
    if c.toNat = 10 then [] :: scanLines cs
    else
      match scanLines cs with
      | [] => [[c]]
      | l :: ls => (c :: l) :: ls

/-- Go `bufio.MaxScanTokenSize`: a line that does not fit the scanner's buffer stops the scan
with `bufio.ErrTooLong`. -/
def maxScanTokenSize : Nat := 64 * 1024

/-- Message of Go `bufio.ErrTooLong`. -/
def errTooLong : Err := "bufio.Scanner: token too long"

/-! ## `storage.go`: FileStorage -/

/-- File system: the content of every path, `none` for a file that does not exist.
Opening and writing a file succeed in this model. -/
abbrev Files := String → Option String

/-- The file system with no file at all. -/
def emptyFiles : Files := fun _ => none

/-- `FileStorage` of `main.go`: the paths of the two logs. -/
structure FileStorage where
  discordFile : String
  slackFile : String
  deriving DecidableEq, Repr

/-- The `FileStorage` that `NewStorage` builds. -/
def newFileStorage : FileStorage :=
  { discordFile := "discord_posted_stories.txt", slackFile := "slack_posted_stories.txt" }

/-- `FileStorage.getFilePath`. -/
def FileStorage.getFilePath (fs : FileStorage) (platform : String) : String :=
  if platform = "discord" then fs.discordFile else fs.slackFile

/-- `os.OpenFile` with `O_CREATE`: a missing file is created empty. -/
def openCreate (files : Files) (path : String) : Files :=
  match files path with
  | some _ => files
  | none => Function.update files path (some "")

/-- Content of a file, empty for a missing file. -/
def content (files : Files) (path : String) : String := (files path).getD ""

/-- `FileStorage.SavePostedStory`: the file is opened for appending (created when missing) and
`storyID` followed by a line feed is written at its end. -/
def FileStorage.SavePostedStory (fs : FileStorage) (files : Files) (platform storyID : String) :
    Option Err × Files :=
  let path := fs.getFilePath platform
  (none, Function.update files path (some (content files path ++ (storyID ++ "\n"))))

/-- The loop `for scanner.Scan()` of `FileStorage.IsStoryPosted` over the lines still to read,
followed by `return false, scanner.Err()`. -/
def scanFor (storyID : String) : List (List Char) → Bool × Option Err
  | [] => (false, none)
  | raw :: rest =>
    if maxScanTokenSize ≤ raw.length then (false, some errTooLong)
    else if TrimSpace (dropCR raw) = storyID.data then (true, none)
    else scanFor storyID rest

/-- `FileStorage.IsStoryPosted`: the file is opened for reading (created when missing) and
scanned line by line. -/
def FileStorage.IsStoryPosted (fs : FileStorage) (files : Files) (platform storyID : String) :
    (Bool × Option Err) × Files :=
  let path := fs.getFilePath platform
  let files1 := openCreate files path
  (scanFor storyID (scanLines (content files1 path).data), files1)

/-! ## `storage.go`: DBStorage -/

/-- Rows `(story_id, platform)` of the table `posted_stories`. Statements succeed in this
model. -/
abbrev Table := List (String × String)

/-- `DBStorage.SavePostedStory`: `INSERT OR IGNORE` leaves the table alone when the primary
key `(story_id, platform)` is already there. -/
def DBStorage.SavePostedStory (db : Table) (platform storyID : String) : Option Err × Table :=
  if (storyID, platform) ∈ db then (none, db) else (none, db ++ [(storyID, platform)])

/-- `DBStorage.IsStoryPosted`: `SELECT COUNT(*)` over the rows with this key, then
`count > 0`. -/
def DBStorage.IsStoryPosted (db : Table) (platform storyID : String) :
    (Bool × Option Err) × Table :=
  let count := (db.filter (fun r => r.1 = storyID ∧ r.2 = platform)).length
  ((decide (count > 0), none), db)

/-! ## The `Storage` interface -/

/-- The interface `Storage` of `main.go`, over a backend state `σ`. -/
structure Storage (σ : Type) where
  SavePostedStory : σ → String → String → Option Err × σ
  IsStoryPosted : σ → String → String → (Bool × Option Err) × σ

/-- `FileStorage` as a `Storage`. -/
def fileStorage (fs : FileStorage) : Storage Files :=
  { SavePostedStory := fs.SavePostedStory, IsStoryPosted := fs.IsStoryPosted }

/-- `DBStorage` as a `Storage`. -/
def dbStorage : Storage Table :=
  { SavePostedStory := DBStorage.SavePostedStory, IsStoryPosted := DBStorage.IsStoryPosted }

/-- The two channel names of `fetchAndPostNews`. -/
def channels : List String := ["discord", "slack"]

/-- A sequence of `SavePostedStory` calls, with the story IDs passed through `Itoa`. -/
def saveAll {σ : Type} (st : Storage σ) (s : σ) : List (String × Int) → σ
  | [] => s
  | (c, id) :: rest => saveAll st (st.SavePostedStory s c (Itoa id)).2 rest

/-! ## `main.go`: data model and external collaborators -/

/-- `Story` of `main.go`. -/
structure Story where
  ID : Int
  Title : String
  URL : String
  deriving DecidableEq, Repr

/-- `Config` of `main.go`. -/
structure Config where
  DiscordWebhookURL : String
  SlackWebhookURL : String
  SchedulePeriod : Int
  FetchTopStoriesAmount : Int
  StorageType : String
  DBPath : String
  deriving DecidableEq, Repr

/-- The `map[string]interface{}` that `postToWebhook` marshals: its fields, in the order of
their keys (the order `json.Marshal` writes them in). -/
abbrev Payload := List (String × String)

/-- Outcome of a call that returns a value or an error. -/
inductive Res (α : Type) where
  | ok (a : α)
  | error (e : Err)
  deriving DecidableEq, Repr

/-- The network as seen by the bot, over a world state `ω`: the two Hacker News endpoints
(`fetchTopStories`, `fetchStoryDetails`), `http.Post` to a webhook, which answers with a status
code or fails with a transport error, and what `time.Sleep(time.Minute)` does to the world. -/
structure Net (ω : Type) where
  fetchTopStories : ω → Res (List Int) × ω
  fetchStoryDetails : ω → Int → Res Story × ω
  httpPost : ω → String → Payload → Res Nat × ω
  sleepMinute : ω → ω

/-- What a run does, in order: every call that leaves the process, with its result, and the
return of every `postToWebhook` call. -/
inductive Event where
  | topStories (res : Res (List Int))
  | isPosted (platform : String) (storyID : Int) (posted : Bool) (err : Option Err)
  | details (storyID : Int) (res : Res Story)
  | send (webhookURL : String) (payload : Payload) (res : Res Nat)
  | sleep
  | post (platform : String) (storyID : Int) (err : Option Err)
  | save (platform : String) (storyID : Int) (err : Option Err)
  deriving DecidableEq, Repr

/-- `http.StatusTooManyRequests`. -/
def StatusTooManyRequests : Nat := 429

/-- `http.StatusOK`. -/
def StatusOK : Nat := 200

/-- `http.StatusNoContent`. -/
def StatusNoContent : Nat := 204

/-! ## `main.go`: postToWebhook -/

/-- The payload that `postToWebhook` builds for a platform and a message. -/
def webhookPayload (platform message : String) : Payload :=
  if platform = "discord" then
    [("content", message), ("username", "Hacker News Bot")]
  else
    [("text", message)]

/-- Result of `postToWebhook`: the returned error, the world afterwards, and the sends and
cooldown waits it made. -/
structure PostResult (ω : Type) where
  err : Option Err
  w : ω
  trace : List Event

/-- The loop `for attempts := 0; attempts < 3; attempts++` of `postToWebhook`, with
`remaining = 3 - attempts` iterations still allowed, and the `return` after the loop. -/
def postAttempts {ω : Type} (net : Net ω) (webhookURL : String) (payload : Payload) :
    Nat → ω → PostResult ω
  | 0, w => ⟨some "failed to post to webhook after multiple attempts", w, []⟩
  | remaining + 1, w =>
    match net.httpPost w webhookURL payload with
    | (Res.error e, w1) => ⟨some e, w1, [Event.send webhookURL payload (Res.error e)]⟩
    | (Res.ok status, w1) =>
      if status = StatusTooManyRequests then
        let r := postAttempts net webhookURL payload remaining (net.sleepMinute w1)
        ⟨r.err, r.w, Event.send webhookURL payload (Res.ok status) :: Event.sleep :: r.trace⟩
      else if status ≠ StatusOK ∧ status ≠ StatusNoContent then
        ⟨some ("webhook request failed with status: " ++ toString status), w1,
          [Event.send webhookURL payload (Res.ok status)]⟩
      else
        ⟨none, w1, [Event.send webhookURL payload (Res.ok status)]⟩

/-- `postToWebhook`. -/
def postToWebhook {ω : Type} (net : Net ω) (platform webhookURL message : String) (w : ω) :
    PostResult ω :=
  postAttempts net webhookURL (webhookPayload platform message) 3 w

/-! ## `main.go`: fetchAndPostNews -/

/-- The message that `fetchAndPostNews` formats for a story. -/
def formatMessage (platform : String) (story : Story) : String :=
  if platform = "discord" then
    "[**" ++ story.Title ++ "**](" ++ story.URL ++ ")    [(comment)](" ++
      ("https://news.ycombinator.com/item?id=" ++ Itoa story.ID) ++ ")"
  else
    story.Title ++ "\n" ++ story.URL

/-- How one iteration of the loop over the story IDs ends. -/
inductive Ctl where
  | skipped
  | announced
  | abort (e : Err)
  deriving DecidableEq, Repr

/-- Result of one iteration of the loop over the story IDs. -/
structure StepResult (ω σ : Type) where
  ctl : Ctl
  w : ω
  s : σ
  trace : List Event

/-- The body of the loop over the story IDs, after the quota test: `skipped` is `continue`,
`announced` is the end of the body with `newStoriesFound++`, `abort` is `return err`. -/
def processStory {ω σ : Type} (net : Net ω) (st : Storage σ) (platform webhookURL : String)
    (storyID : Int) (w : ω) (s : σ) : StepResult ω σ :=
  match st.IsStoryPosted s platform (Itoa storyID) with
  | ((posted, some e), s1) =>
    ⟨Ctl.skipped, w, s1, [Event.isPosted platform storyID posted (some e)]⟩
  | ((true, none), s1) => ⟨Ctl.skipped, w, s1, [Event.isPosted platform storyID true none]⟩
  | ((false, none), s1) =>
    match net.fetchStoryDetails w storyID with
    | (Res.error e, w1) =>
      ⟨Ctl.skipped, w1, s1,
        [Event.isPosted platform storyID false none, Event.details storyID (Res.error e)]⟩
    | (Res.ok story, w1) =>
      if story.URL = "" then
        ⟨Ctl.skipped, w1, s1,
          [Event.isPosted platform storyID false none, Event.details storyID (Res.ok story)]⟩
      else
        let p := postToWebhook net platform webhookURL (formatMessage platform story) w1
        match p.err with
        | some e =>
          ⟨Ctl.abort e, p.w, s1,
            [Event.isPosted platform storyID false none, Event.details storyID (Res.ok story)]
              ++ p.trace ++ [Event.post platform storyID (some e)]⟩
        | none =>
          let sv := st.SavePostedStory s1 platform (Itoa storyID)
          ⟨Ctl.announced, p.w, sv.2,
            [Event.isPosted platform storyID false none, Event.details storyID (Res.ok story)]
              ++ p.trace ++ [Event.post platform storyID none, Event.save platform storyID sv.1]⟩

/-- Result of a run, or of a part of it: the returned error, the world and the storage
afterwards, and what was done. -/
structure Run (ω σ : Type) where
  err : Option Err
  w : ω
  s : σ
  trace : List Event

/-- The loop `for _, storyID := range topStories` for one platform, entered with
`newStoriesFound = found`. `err` is set when the body returned from `fetchAndPostNews`. -/
def storyLoop {ω σ : Type} (net : Net ω) (st : Storage σ) (quota : Int)
    (platform webhookURL : String) : List Int → Int → ω → σ → Run ω σ
  | [], _, w, s => ⟨none, w, s, []⟩
  | storyID :: rest, found, w, s =>
    if found ≥ quota then ⟨none, w, s, []⟩
    else
      let r := processStory net st platform webhookURL storyID w s
      match r.ctl with
      | Ctl.abort e => ⟨some e, r.w, r.s, r.trace⟩
      | Ctl.skipped =>
        let t := storyLoop net st quota platform webhookURL rest found r.w r.s
        ⟨t.err, t.w, t.s, r.trace ++ t.trace⟩
      | Ctl.announced =>
        let t := storyLoop net st quota platform webhookURL rest (found + 1) r.w r.s
        ⟨t.err, t.w, t.s, r.trace ++ t.trace⟩

/-- The loop `for platform, webhookURL := range platforms` over the entries of the map in the
order the iteration visits them. -/
def platformLoop {ω σ : Type} (net : Net ω) (st : Storage σ) (quota : Int)
    (topStories : List Int) : List (String × String) → ω → σ → Run ω σ
  | [], w, s => ⟨none, w, s, []⟩
  | (platform, webhookURL) :: rest, w, s =>
    if webhookURL = "" then platformLoop net st quota topStories rest w s
    else
      let r := storyLoop net st quota platform webhookURL topStories 0 w s
      match r.err with
      | some e => ⟨some e, r.w, r.s, r.trace⟩
      | none =>
        let t := platformLoop net st quota topStories rest r.w r.s
        ⟨t.err, t.w, t.s, r.trace ++ t.trace⟩

/-- The map `platforms` of `fetchAndPostNews`. Go does not fix the order in which `range`
visits a map: `discordFirst` chooses between the two orders. -/
def platforms (config : Config) (discordFirst : Bool) : List (String × String) :=
  if discordFirst then
    [("discord", config.DiscordWebhookURL), ("slack", config.SlackWebhookURL)]
  else
    [("slack", config.SlackWebhookURL), ("discord", config.DiscordWebhookURL)]

/-- `fetchAndPostNews`. -/
def fetchAndPostNews {ω σ : Type} (net : Net ω) (st : Storage σ) (config : Config)
    (discordFirst : Bool) (w : ω) (s : σ) : Run ω σ :=
  match net.fetchTopStories w with
  | (Res.error e, w1) =>
    ⟨some ("failed to fetch top stories: " ++ e), w1, s, [Event.topStories (Res.error e)]⟩
  | (Res.ok topStories, w1) =>
    let r := platformLoop net st config.FetchTopStoriesAmount topStories
      (platforms config discordFirst) w1 s
    ⟨r.err, r.w, r.s, Event.topStories (Res.ok topStories) :: r.trace⟩

/-! ## Outcomes of the sends of a delivery -/

/-- Outcome of send number `i` (counted from 0) of a `postToWebhook` call that starts in the
world `w`, when each earlier send was followed by a cooldown wait; and the world after it. -/
def nthSend {ω : Type} (net : Net ω) (webhookURL : String) (payload : Payload) :
    Nat → ω → Res Nat × ω
  | 0, w => net.httpPost w webhookURL payload
  | i + 1, w =>
    nthSend net webhookURL payload i (net.sleepMinute (net.httpPost w webhookURL payload).2)

/-- The send was answered with status 200 or 204. -/
def isSuccess (r : Res Nat) : Prop := r = Res.ok StatusOK ∨ r = Res.ok StatusNoContent

instance (r : Res Nat) : Decidable (isSuccess r) := by unfold isSuccess; infer_instance

/-- The send was answered with status 429. -/
def isRateLimited (r : Res Nat) : Prop := r = Res.ok StatusTooManyRequests

instance (r : Res Nat) : Decidable (isRateLimited r) := by unfold isRateLimited; infer_instance

/-! ## Reading a trace -/

/-- The delivery that an event stands for: a `postToWebhook` call that returned `nil`. -/
def deliveryOf : Event → Option (String × Int)
  | Event.post platform storyID none => some (platform, storyID)
  | _ => none

/-- The deliveries of a trace, in order: the `(platform, storyID)` of every `postToWebhook`
call that returned `nil`. -/
def delivered (t : List Event) : List (String × Int) := t.filterMap deliveryOf

/-- The record that an event stands for: a `SavePostedStory` call that returned `nil`. -/
def recordOf : Event → Option (String × Int)
  | Event.save platform storyID none => some (platform, storyID)
  | _ => none

/-- The records of a trace, in order: the `(platform, storyID)` of every `SavePostedStory`
call that returned `nil`. -/
def recorded (t : List Event) : List (String × Int) := t.filterMap recordOf

/-- The event is an `http.Post` call. -/
def isSend : Event → Bool
  | Event.send _ _ _ => true
  | _ => false

/-- The event is a cooldown wait. -/
def isSleep : Event → Bool
  | Event.sleep => true
  | _ => false

/-- Number of `http.Post` calls in a trace. -/
def sends (t : List Event) : Nat := t.countP isSend

/-- Number of cooldown waits in a trace. -/
def sleeps (t : List Event) : Nat := t.countP isSleep

/-- The story IDs of the deliveries of a trace to one platform, in order. -/
def deliveredTo (platform : String) (t : List Event) : List Int :=
  ((delivered t).filter (fun x => x.1 = platform)).map Prod.snd

/-- The story IDs of the records of a trace for one platform, in order. -/
def recordedFor (platform : String) (t : List Event) : List Int :=
  ((recorded t).filter (fun x => x.1 = platform)).map Prod.snd

/-- The calls of the trace, made in this order from the world `w` and the storage `s`, return
the results that the trace records and leave the world `w1` and the storage `s1`. -/
def Replays {ω σ : Type} (net : Net ω) (st : Storage σ) :
    ω → σ → List Event → ω → σ → Prop
  | w, s, [], w1, s1 => w1 = w ∧ s1 = s
  | w, s, Event.topStories res :: rest, w1, s1 =>
    (net.fetchTopStories w).1 = res ∧ Replays net st (net.fetchTopStories w).2 s rest w1 s1
  | w, s, Event.isPosted platform storyID posted err :: rest, w1, s1 =>
    (st.IsStoryPosted s platform (Itoa storyID)).1 = (posted, err) ∧
      Replays net st w (st.IsStoryPosted s platform (Itoa storyID)).2 rest w1 s1
  | w, s, Event.details storyID res :: rest, w1, s1 =>
    (net.fetchStoryDetails w storyID).1 = res ∧
      Replays net st (net.fetchStoryDetails w storyID).2 s rest w1 s1
  | w, s, Event.send webhookURL payload res :: rest, w1, s1 =>
    (net.httpPost w webhookURL payload).1 = res ∧
      Replays net st (net.httpPost w webhookURL payload).2 s rest w1 s1
  | w, s, Event.sleep :: rest, w1, s1 => Replays net st (net.sleepMinute w) s rest w1 s1
  | w, s, Event.post _ _ _ :: rest, w1, s1 => Replays net st w s rest w1 s1
  | w, s, Event.save platform storyID err :: rest, w1, s1 =>
    (st.SavePostedStory s platform (Itoa storyID)).1 = err ∧
      Replays net st w (st.SavePostedStory s platform (Itoa storyID)).2 rest w1 s1

/-- The event is a membership test. -/
def isCheck : Event → Prop
  | Event.isPosted _ _ _ _ => True
  | _ => False

/-- What may come right after an event in the trace of a run. -/
def Follows : Event → Event → Prop
  | Event.topStories (Res.ok _), Event.isPosted _ _ _ _ => True
  | Event.isPosted _ _ _ (some _), Event.isPosted _ _ _ _ => True
  | Event.isPosted _ _ true none, Event.isPosted _ _ _ _ => True
  | Event.isPosted _ storyID false none, Event.details storyID1 _ => storyID1 = storyID
  | Event.details _ (Res.error _), Event.isPosted _ _ _ _ => True
  | Event.details _ (Res.ok story), Event.isPosted _ _ _ _ => story.URL = ""
  | Event.details _ (Res.ok story), Event.send _ _ _ => story.URL ≠ ""
  | Event.send _ _ res, Event.sleep => isRateLimited res
  | Event.send _ _ res, Event.post _ _ _ => ¬ isRateLimited res
  | Event.sleep, Event.send _ _ _ => True
  | Event.sleep, Event.post _ _ (some _) => True
  | Event.post platform storyID none, Event.save platform1 storyID1 _ =>
    platform1 = platform ∧ storyID1 = storyID
  | Event.save _ _ _, Event.isPosted _ _ _ _ => True
  | _, _ => False

/-! ## Test doubles -/

/-- A network whose webhook answers with the status codes of a script, one per send, and with
200 once the script is used up. The world state is the rest of the script. -/
def scriptedNet (top : Res (List Int)) (details : Int → Res Story) : Net (List (Res Nat)) :=
  { fetchTopStories := fun w => (top, w)
    fetchStoryDetails := fun w id => (details id, w)
    httpPost := fun w _ _ =>
      match w with
      | [] => (Res.ok 200, [])
      | r :: rest => (r, rest)
    sleepMinute := fun w => w }

/-- A network whose webhooks answer every send with status 200. -/
def reliableNet (top : Res (List Int)) (details : Int → Res Story) : Net Unit :=
  { fetchTopStories := fun w => (top, w)
    fetchStoryDetails := fun w id => (details id, w)
    httpPost := fun w _ _ => (Res.ok 200, w)
    sleepMinute := fun w => w }

/-- A configuration with both channels enabled and the default quota of 5. -/
def bothChannels : Config :=
  { DiscordWebhookURL := "https://discord.example/hook"
    SlackWebhookURL := "https://slack.example/hook"
    SchedulePeriod := 60
    FetchTopStoriesAmount := 5
    StorageType := "local"
    DBPath := "/app/data/posted_stories.db" }

/-- A configuration with both channels enabled and a quota of 2. -/
def quotaTwo : Config :=
  { DiscordWebhookURL := "https://discord.example/hook"
    SlackWebhookURL := "https://slack.example/hook"
    SchedulePeriod := 60
    FetchTopStoriesAmount := 2
    StorageType := "local"
    DBPath := "/app/data/posted_stories.db" }

/-- A configuration with the channel `discord` only and the default quota of 5. -/
def discordOnly : Config :=
  { DiscordWebhookURL := "https://discord.example/hook"
    SlackWebhookURL := ""
    SchedulePeriod := 60
    FetchTopStoriesAmount := 5
    StorageType := "local"
    DBPath := "/app/data/posted_stories.db" }

/-- Story details of the scenario of the specification: story 1 has the URL `http://a`,
story 2 has no URL, story 3 has the URL `http://b`; every other story has a URL too. -/
def scenarioDetails (id : Int) : Res Story :=
  if id = 1 then Res.ok ⟨1, "A", "http://a"⟩
  else if id = 2 then Res.ok ⟨2, "B", ""⟩
  else if id = 3 then Res.ok ⟨3, "C", "http://b"⟩
  else Res.ok ⟨id, "T", "http://t"⟩

/-- A storage whose first membership test fails and whose later tests answer "not posted";
saves succeed. The state counts the membership tests made. -/
def flakyStorage : Storage Nat :=
  { SavePostedStory := fun n _ _ => (none, n)
    IsStoryPosted := fun n _ _ =>
      if n = 0 then ((false, some "database is locked"), 1) else ((false, none), n + 1) }

/-! ## Notions used in the statements -/

/-- Decimal value of a string of digits. -/
def digitsVal (cs : List Char) : Nat := cs.foldl (fun a c => a * 10 + (c.toNat - 48)) 0

/-- The character is one of `0` to `9`. -/
def isDigit (c : Char) : Prop := 48 ≤ c.toNat ∧ c.toNat ≤ 57

/-- Text of a log that holds the given story IDs, one per line. -/
def logText : List Int → List Char
  | [] => []
  | id :: rest => (Itoa id).data ++ Char.ofNat 10 :: logText rest

/-- Every file is missing, empty, or a log of Go `int`s written by `SavePostedStory`. -/
def FileInv (files : Files) : Prop :=
  ∀ path : String, ∃ ids : List Int,
    (∀ id ∈ ids, isInt id) ∧ (content files path).data = logText ids

/-- A storage that keeps the `Storage` contract on the keys that `fetchAndPostNews` uses (a
channel name and the decimal string of a Go `int`), in every state that satisfies `Inv`.
`posted s p id` says whether the story is recorded for the platform in the state `s`: a
membership test that does not fail returns it and changes it for no key, and a save does not
fail, makes it true for its own key and changes it for no other key. -/
structure Lawful {σ : Type} (st : Storage σ) (Inv : σ → Prop)
    (posted : σ → String → Int → Bool) : Prop where
  read_inv : ∀ s p id, Inv s → p ∈ channels → isInt id →
    Inv (st.IsStoryPosted s p (Itoa id)).2
  save_inv : ∀ s p id, Inv s → p ∈ channels → isInt id →
    Inv (st.SavePostedStory s p (Itoa id)).2
  read_sound : ∀ s p id, Inv s → p ∈ channels → isInt id →
    (st.IsStoryPosted s p (Itoa id)).1.2 = none →
    (st.IsStoryPosted s p (Itoa id)).1.1 = posted s p id
  read_posted : ∀ s p id p1 id1, Inv s → p ∈ channels → isInt id → p1 ∈ channels → isInt id1 →
    posted (st.IsStoryPosted s p (Itoa id)).2 p1 id1 = posted s p1 id1
  save_ok : ∀ s p id, Inv s → p ∈ channels → isInt id →
    (st.SavePostedStory s p (Itoa id)).1 = none
  save_posted : ∀ s p id p1 id1, Inv s → p ∈ channels → isInt id → p1 ∈ channels → isInt id1 →
    posted (st.SavePostedStory s p (Itoa id)).2 p1 id1
      = (posted s p1 id1 || decide (p1 = p ∧ id1 = id))

/-- No membership test fails, on the keys that `fetchAndPostNews` uses and in the states
that satisfy `Inv`. -/
def ReadsSucceed {σ : Type} (st : Storage σ) (Inv : σ → Prop) : Prop :=
  ∀ s p id, Inv s → p ∈ channels → isInt id → (st.IsStoryPosted s p (Itoa id)).1.2 = none

/-- Whether FileStorage holds the story for the platform: the answer of its membership
test. -/
def filePosted (files : Files) (platform : String) (id : Int) : Bool :=
  (newFileStorage.IsStoryPosted files platform (Itoa id)).1.1

/-- Whether DBStorage holds the story for the platform: the answer of its membership test. -/
def dbPosted (db : Table) (platform : String) (id : Int) : Bool :=
  (DBStorage.IsStoryPosted db platform (Itoa id)).1.1

/-- What the contract asks of two successive saves of one key in the state `s0`: neither save
fails, the key is posted afterwards, and the second save changes the answer of no membership
test. -/
def SaveTwice {σ : Type} (st : Storage σ) (s0 : σ) (c : String) (id : Int) : Prop :=
  (st.SavePostedStory s0 c (Itoa id)).1 = none ∧
  (st.SavePostedStory (st.SavePostedStory s0 c (Itoa id)).2 c (Itoa id)).1 = none ∧
  (st.IsStoryPosted (st.SavePostedStory (st.SavePostedStory s0 c (Itoa id)).2 c (Itoa id)).2
    c (Itoa id)).1 = (true, none) ∧
  ∀ p q : String,
    (st.IsStoryPosted (st.SavePostedStory (st.SavePostedStory s0 c (Itoa id)).2 c (Itoa id)).2
      p q).1 = (st.IsStoryPosted (st.SavePostedStory s0 c (Itoa id)).2 p q).1

/-- The trace is empty or starts with a membership test. -/
def StartsWithCheck (t : List Event) : Prop := ∀ y ∈ t.head?, isCheck y

/-- A membership test may follow the last event of the trace. -/
def EndsOpen (t : List Event) : Prop := ∀ x ∈ t.getLast?, ∀ y, isCheck y → Follows x y

/-- Shape of the trace of a loop that ended with `err`: every event is followed by an event
that `Follows` allows, the trace starts with a membership test, a loop that ended without
error leaves a trace that the next iteration can extend, and a loop that ended with an error
leaves a trace whose last event is the failed delivery. -/
def Shape (t : List Event) (err : Option Err) : Prop :=
  List.Chain' Follows t ∧ StartsWithCheck t ∧ (err = none → EndsOpen t) ∧
    ∀ e, err = some e → ∃ p id pre, t = pre ++ [Event.post p id (some e)]

/-- The error that `fetchAndPostNews` returns when the body of the loop ends with `ctl`. -/
def ctlErr : Ctl → Option Err
  | Ctl.abort e => some e
  | _ => none

/-- The platform and story ID that a storage call or the return of a delivery is about. -/
def eventKey : Event → Option (String × Int)
  | Event.isPosted platform storyID _ _ => some (platform, storyID)
  | Event.post platform storyID _ => some (platform, storyID)
  | Event.save platform storyID _ => some (platform, storyID)
  | _ => none

/-- The event is a send of this payload to this URL, or a cooldown wait. -/
def isAttemptOf (webhookURL : String) (payload : Payload) : Event → Prop
  | Event.send u pl _ => u = webhookURL ∧ pl = payload
  | Event.sleep => True
  | _ => False

/-- The deliveries `D` made so far are pairwise different, and each of them is recorded in
the storage state `s`. -/
def Good {σ : Type} (Inv : σ → Prop) (posted : σ → String → Int → Bool) (s : σ)
    (D : List (String × Int)) : Prop :=
  Inv s ∧ D.Nodup ∧ ∀ x ∈ D, x.1 ∈ channels ∧ isInt x.2 ∧ posted s x.1 x.2 = true

/-- The detail fetch of the story succeeds and the story has a URL. -/
def hasURL (det : Int → Res Story) (id : Int) : Bool :=
  match det id with
  | Res.ok story => decide (story.URL ≠ "")
  | Res.error _ => false

/-- The story is a postable new story for the platform in the storage state `s`: it is not
posted to the platform yet, its detail fetch succeeds and its URL is not empty. -/
def postable {σ : Type} (posted : σ → String → Int → Bool) (det : Int → Res Story) (s : σ)
    (platform : String) (id : Int) : Bool :=
  !posted s platform id && hasURL det id

/-- The first `quota` postable new stories of the list for the platform, in the order of the
list. -/
def firstPostable {σ : Type} (posted : σ → String → Int → Bool) (det : Int → Res Story)
    (quota : Int) (ids : List Int) (s : σ) (platform : String) : List Int :=
  (ids.filter (postable posted det s platform)).take quota.toNat

/-- The platform has an entry with a webhook URL in the list. -/
def isEnabled (plats : List (String × String)) (platform : String) : Bool :=
  plats.any (fun x => decide (x.1 = platform) && decide (x.2 ≠ ""))

/-- The event is the return of a `postToWebhook` call that failed. -/
def isFailedPost : Event → Bool
  | Event.post _ _ (some _) => true
  | _ => false

/-- The events `before` end with the fetch of the details of the story `id`, which returned a
story with a URL, and the sends of the `postToWebhook` call for the platform `p` and the
webhook URL `u`: sends of the payload of the platform for that story and cooldown waits, the
last of them a send that was answered with 200 or 204. -/
def SentBefore (p u : String) (id : Int) (before : List Event) : Prop :=
  ∃ (story : Story) (pre attempts : List Event) (r : Res Nat),
    before = pre ++ Event.details id (Res.ok story) ::
      (attempts ++ [Event.send u (webhookPayload p (formatMessage p story)) r]) ∧
    story.URL ≠ "" ∧ isSuccess r ∧
    ∀ e ∈ attempts, isAttemptOf u (webhookPayload p (formatMessage p story)) e

/-- `DBStorage` behind a connection whose first query fails: the first membership test
returns an error and leaves the table alone, and every other call is the call of `DBStorage`
on the table. The state counts the membership tests made and holds the table. -/
def flakyDB : Storage (Nat × Table) :=
  { SavePostedStory := fun s platform storyID =>
      ((DBStorage.SavePostedStory s.2 platform storyID).1,
        (s.1, (DBStorage.SavePostedStory s.2 platform storyID).2))
    IsStoryPosted := fun s platform storyID =>
      if s.1 = 0 then ((false, some "database is locked"), (1, s.2))
      else ((DBStorage.IsStoryPosted s.2 platform storyID).1,
        (s.1 + 1, (DBStorage.IsStoryPosted s.2 platform storyID).2)) }

/-- Whether `flakyDB` holds the story for the platform: whether its table does. -/
def flakyPosted (s : Nat × Table) (platform : String) (id : Int) : Bool :=
  dbPosted s.2 platform id

/-- A network whose second detail fetch times out and whose webhooks answer every send with
status 204. The world counts the detail fetches made. -/
def hiccupNet (top : Res (List Int)) (details : Int → Res Story) : Net Nat :=
  { fetchTopStories := fun w => (top, w)
    fetchStoryDetails := fun w id => (if w = 1 then Res.error "timeout" else details id, w + 1)
    httpPost := fun w _ _ => (Res.ok 204, w)
    sleepMinute := fun w => w }

/-- The event is a membership test for the platform that returned an error. -/
def isFailedCheck (platform : String) : Event → Bool
  | Event.isPosted p _ _ (some _) => decide (p = platform)
  | _ => false

/-- The event is a `SavePostedStory` call that returned an error. -/
def isFailedSave : Event → Bool
  | Event.save _ _ (some _) => true
  | _ => false

/-- The detail fetch that the event `e` leads to when the events `rest` come after it: a
membership test for the platform that is followed at once by a detail fetch gives the story
ID and the result of that fetch. -/
def fetchOf (platform : String) : Event → List Event → Option (Int × Res Story)
  | Event.isPosted p _ _ _, Event.details id r :: _ => if p = platform then some (id, r) else none
  | _, _ => none

/-- The detail fetches that a trace makes for a platform, in order: story ID and result of
every `fetchStoryDetails` call that comes right after a membership test for the platform. -/
def fetchesFor (platform : String) : List Event → List (Int × Res Story)
  | [] => []
  | e :: rest => (fetchOf platform e rest).toList ++ fetchesFor platform rest

/-- A storage whose answers can be trusted, on the keys that `fetchAndPostNews` uses (a
channel name and the decimal string of a Go `int`) and in every state that satisfies `Inv`;
its calls may fail. `posted s p id` says whether the story is recorded for the platform in the
state `s`: a membership test that does not fail returns it, a membership test changes it for
no key, whether it fails or not, and a save that does not fail makes it true for its own key
and changes it for no other key. -/
structure Truthful {σ : Type} (st : Storage σ) (Inv : σ → Prop)
    (posted : σ → String → Int → Bool) : Prop where
  read_inv : ∀ s p id, Inv s → p ∈ channels → isInt id →
    Inv (st.IsStoryPosted s p (Itoa id)).2
  read_sound : ∀ s p id, Inv s → p ∈ channels → isInt id →
    (st.IsStoryPosted s p (Itoa id)).1.2 = none →
    (st.IsStoryPosted s p (Itoa id)).1.1 = posted s p id
  read_posted : ∀ s p id p1 id1, Inv s → p ∈ channels → isInt id → p1 ∈ channels → isInt id1 →
    posted (st.IsStoryPosted s p (Itoa id)).2 p1 id1 = posted s p1 id1
  save_inv : ∀ s p id, Inv s → p ∈ channels → isInt id →
    (st.SavePostedStory s p (Itoa id)).1 = none →
    Inv (st.SavePostedStory s p (Itoa id)).2
  save_posted : ∀ s p id p1 id1, Inv s → p ∈ channels → isInt id → p1 ∈ channels → isInt id1 →
    (st.SavePostedStory s p (Itoa id)).1 = none →
    posted (st.SavePostedStory s p (Itoa id)).2 p1 id1
      = (posted s p1 id1 || decide (p1 = p ∧ id1 = id))

/-- In the trace, no membership test for the platform, no delivery and no save failed, and
`det` gives the result of every detail fetch made for the platform. -/
def Clean (platform : String) (det : Int → Res Story) (t : List Event) : Prop :=
  (∀ e ∈ t, isFailedCheck platform e = false) ∧ (∀ e ∈ t, isFailedPost e = false) ∧
    (∀ e ∈ t, isFailedSave e = false) ∧ ∀ x ∈ fetchesFor platform t, x.2 = det x.1

/-! # Theorems -/

/-! ## Decimal strings -/

theorem digitChar_toNat (k : Nat) (hk : k < 10) : (Nat.digitChar k).toNat = 48 + k := by
  interval_cases k <;> rfl

theorem toDigitsCore_append (f : Nat) : ∀ (n : Nat) (ds : List Char),
    Nat.toDigitsCore 10 f n ds = Nat.toDigitsCore 10 f n [] ++ ds := by
  induction f with
  | zero => intro n ds; simp [Nat.toDigitsCore]
  | succ f ih =>
    intro n ds
    simp only [Nat.toDigitsCore]
    by_cases h : n / 10 = 0
    · simp [h]
    · simp only [h, if_false]
      rw [ih (n / 10) (Nat.digitChar (n % 10) :: ds), ih (n / 10) [Nat.digitChar (n % 10)]]
      simp

theorem toDigitsCore_digits (f : Nat) : ∀ (n : Nat) (c : Char),
    c ∈ Nat.toDigitsCore 10 f n [] → isDigit c := by
  induction f with
  | zero => intro n c hc; simp [Nat.toDigitsCore] at hc
  | succ f ih =>
    intro n c hc
    simp only [Nat.toDigitsCore] at hc
    have hd : isDigit (Nat.digitChar (n % 10)) := by
      have := digitChar_toNat (n % 10) (Nat.mod_lt _ (by decide))
      unfold isDigit
      omega
    by_cases h : n / 10 = 0
    · simp only [h, if_true, List.mem_singleton] at hc
      exact hc ▸ hd
    · simp only [h, if_false] at hc
      rw [toDigitsCore_append] at hc
      rcases List.mem_append.1 hc with h1 | h1
      · exact ih _ _ h1
      · rw [List.mem_singleton] at h1
        exact h1 ▸ hd

theorem toDigitsCore_ne_nil (f n : Nat) : Nat.toDigitsCore 10 (f + 1) n [] ≠ [] := by
  simp only [Nat.toDigitsCore]
  by_cases h : n / 10 = 0
  · simp [h]
  · simp only [h, if_false]
    rw [toDigitsCore_append]
    simp

theorem digitsVal_snoc (cs : List Char) (c : Char) :
    digitsVal (cs ++ [c]) = digitsVal cs * 10 + (c.toNat - 48) := by
  simp [digitsVal, List.foldl_append]

theorem digitsVal_toDigitsCore (f : Nat) : ∀ n : Nat, n < f →
    digitsVal (Nat.toDigitsCore 10 f n []) = n := by
  induction f with
  | zero => intro n hn; omega
  | succ f ih =>
    intro n hn
    simp only [Nat.toDigitsCore]
    have hd := digitChar_toNat (n % 10) (Nat.mod_lt _ (by decide))
    by_cases h : n / 10 = 0
    · simp only [h, if_true]
      have : digitsVal [Nat.digitChar (n % 10)] = (Nat.digitChar (n % 10)).toNat - 48 := by
        simp [digitsVal]
      rw [this, hd]
      omega
    · simp only [h, if_false]
      rw [toDigitsCore_append, digitsVal_snoc, ih (n / 10) (by omega), hd]
      omega

theorem repr_data (n : Nat) : (Nat.repr n).data = Nat.toDigitsCore 10 (n + 1) n [] := rfl

theorem repr_injective (a b : Nat) (h : (Nat.repr a).data = (Nat.repr b).data) : a = b := by
  rw [repr_data, repr_data] at h
  have := congrArg digitsVal h
  rwa [digitsVal_toDigitsCore _ _ (Nat.lt_succ_self a),
    digitsVal_toDigitsCore _ _ (Nat.lt_succ_self b)] at this

theorem Itoa_ofNat (m : Nat) : (Itoa (Int.ofNat m)).data = (Nat.repr m).data := rfl

theorem Itoa_negSucc (m : Nat) :
    (Itoa (Int.negSucc m)).data = Char.ofNat 45 :: (Nat.repr (m + 1)).data := rfl

/-- Every character of `Itoa i` is a digit or the minus sign. -/
theorem Itoa_chars (i : Int) (c : Char) (hc : c ∈ (Itoa i).data) :
    isDigit c ∨ c.toNat = 45 := by
  cases i with
  | ofNat m =>
    rw [Itoa_ofNat, repr_data] at hc
    exact Or.inl (toDigitsCore_digits _ _ _ hc)
  | negSucc m =>
    rw [Itoa_negSucc, repr_data] at hc
    rcases List.mem_cons.1 hc with h | h
    · right; rw [h]; rfl
    · exact Or.inl (toDigitsCore_digits _ _ _ h)

/-- `Itoa` is injective: two integers with the same decimal string are equal. -/
theorem Itoa_data_injective (a b : Int) (h : (Itoa a).data = (Itoa b).data) : a = b := by
  cases a with
  | ofNat m =>
    cases b with
    | ofNat k =>
      rw [Itoa_ofNat, Itoa_ofNat] at h
      rw [repr_injective m k h]
    | negSucc k =>
      exfalso
      rw [Itoa_ofNat, Itoa_negSucc, repr_data m] at h
      have hne := toDigitsCore_ne_nil m m
      cases hl : Nat.toDigitsCore 10 (m + 1) m [] with
      | nil => exact hne hl
      | cons c cs =>
        rw [hl] at h
        have hc : isDigit c := toDigitsCore_digits (m + 1) m c (by rw [hl]; simp)
        injection h with h1 _
        rw [h1] at hc
        exact absurd hc (by unfold isDigit; decide)
  | negSucc m =>
    cases b with
    | ofNat k =>
      exfalso
      rw [Itoa_ofNat, Itoa_negSucc, repr_data k] at h
      have hne := toDigitsCore_ne_nil k k
      cases hl : Nat.toDigitsCore 10 (k + 1) k [] with
      | nil => exact hne hl
      | cons c cs =>
        rw [hl] at h
        have hc : isDigit c := toDigitsCore_digits (k + 1) k c (by rw [hl]; simp)
        injection h with h1 _
        rw [← h1] at hc
        exact absurd hc (by unfold isDigit; decide)
    | negSucc k =>
      rw [Itoa_negSucc, Itoa_negSucc] at h
      injection h with _ h2
      have := repr_injective _ _ h2
      have hk : m = k := by omega
      rw [hk]

theorem Itoa_injective (a b : Int) (h : Itoa a = Itoa b) : a = b :=
  Itoa_data_injective a b (congrArg String.data h)

/-- A Go `int` has at most 20 characters in decimal. -/
theorem Itoa_length (i : Int) (hi : isInt i) : (Itoa i).data.length ≤ 20 := by
  unfold isInt at hi
  cases i with
  | ofNat m =>
    rw [Itoa_ofNat]
    have hm : m < 10 ^ 19 := by
      have : (Int.ofNat m) < (2 : Int) ^ 63 := hi.2
      have h2 : (m : Int) < (2 : Int) ^ 63 := this
      norm_num at h2 ⊢
      omega
    have := Nat.repr_length m 19 (by decide) hm
    rw [String.length] at this
    omega
  | negSucc m =>
    rw [Itoa_negSucc]
    have hm : m + 1 < 10 ^ 19 := by
      have h1 : -(2 : Int) ^ 63 ≤ Int.negSucc m := hi.1
      rw [Int.negSucc_eq] at h1
      norm_num at h1 ⊢
      omega
    have := Nat.repr_length (m + 1) 19 (by decide) hm
    rw [String.length] at this
    simp only [List.length_cons]
    omega

/-! ## Scanning a log -/

theorem isSpace_of_Itoa (i : Int) (c : Char) (hc : c ∈ (Itoa i).data) : isSpace c = false := by
  have h := Itoa_chars i c hc
  unfold isDigit at h
  unfold isSpace
  simp only [Bool.or_eq_false_iff, Bool.and_eq_false_iff, beq_eq_false_iff_ne, ne_eq,
    decide_eq_false_iff_not]
  omega

theorem dropWhile_of_head {α : Type} (p : α → Bool) (l : List α) (h : ∀ c ∈ l, p c = false) :
    l.dropWhile p = l := by
  cases l with
  | nil => rfl
  | cons a t => simp [List.dropWhile, h a (List.mem_cons_self a t)]

theorem TrimSpace_of_noSpace (l : List Char) (h : ∀ c ∈ l, isSpace c = false) :
    TrimSpace l = l := by
  unfold TrimSpace
  rw [dropWhile_of_head isSpace l h,
    dropWhile_of_head isSpace l.reverse (fun c hc => h c (List.mem_reverse.1 hc))]
  simp

theorem dropCR_of_noCR (l : List Char) (h : ∀ c ∈ l, c.toNat ≠ 13) : dropCR l = l := by
  unfold dropCR
  cases hr : l.reverse with
  | nil => rfl
  | cons c rest =>
    have hc : c ∈ l := List.mem_reverse.1 (by rw [hr]; exact List.mem_cons_self c rest)
    simp [h c hc]

theorem scanLines_line (l rest : List Char) (h : ∀ c ∈ l, c.toNat ≠ 10) :
    scanLines (l ++ Char.ofNat 10 :: rest) = l :: scanLines rest := by
  induction l with
  | nil =>
    have : (Char.ofNat 10).toNat = 10 := rfl
    simp [scanLines, this]
  | cons a t ih =>
    have ha : a.toNat ≠ 10 := h a (List.mem_cons_self a t)
    have ht := ih (fun c hc => h c (List.mem_cons_of_mem a hc))
    have hs : scanLines (a :: (t ++ Char.ofNat 10 :: rest))
        = match scanLines (t ++ Char.ofNat 10 :: rest) with
          | [] => [[a]]
          | l :: ls => (a :: l) :: ls := by
      simp only [scanLines, ha, if_false]
    rw [List.cons_append, hs, ht]

theorem Itoa_noLF (i : Int) (c : Char) (hc : c ∈ (Itoa i).data) : c.toNat ≠ 10 := by
  have h := Itoa_chars i c hc
  unfold isDigit at h
  omega

theorem Itoa_noCR (i : Int) (c : Char) (hc : c ∈ (Itoa i).data) : c.toNat ≠ 13 := by
  have h := Itoa_chars i c hc
  unfold isDigit at h
  omega

theorem logText_append (a b : List Int) : logText (a ++ b) = logText a ++ logText b := by
  induction a with
  | nil => rfl
  | cons x t ih => simp [logText, ih]

theorem scanLines_logText (ids : List Int) :
    scanLines (logText ids) = ids.map (fun id => (Itoa id).data) := by
  induction ids with
  | nil => rfl
  | cons x t ih =>
    simp only [logText, List.map_cons]
    rw [scanLines_line _ _ (Itoa_noLF x), ih]

/-- Scanning a log of Go `int`s for a string finds it exactly when it is the decimal string of
one of the logged IDs, and never fails. -/
theorem scanFor_log (q : String) (ids : List Int) (h : ∀ id ∈ ids, isInt id) :
    scanFor q (ids.map (fun id => (Itoa id).data)) = (decide (q ∈ ids.map Itoa), none) := by
  induction ids with
  | nil => simp [scanFor]
  | cons x t ih =>
    have hx := Itoa_length x (h x (List.mem_cons_self x t))
    have hlen : ¬ maxScanTokenSize ≤ (Itoa x).data.length := by
      unfold maxScanTokenSize; omega
    have htrim : TrimSpace (dropCR (Itoa x).data) = (Itoa x).data := by
      rw [dropCR_of_noCR _ (Itoa_noCR x), TrimSpace_of_noSpace _ (isSpace_of_Itoa x)]
    simp only [List.map_cons, scanFor, hlen, if_false, htrim]
    by_cases hq : (Itoa x).data = q.data
    · have : q = Itoa x := String.ext hq.symm
      simp [hq, this]
    · have hne : ¬ q = Itoa x := fun e => hq (by rw [e])
      rw [if_neg hq, ih (fun id hid => h id (List.mem_cons_of_mem x hid))]
      simp [hne]

theorem mem_map_Itoa (id : Int) (ids : List Int) : Itoa id ∈ ids.map Itoa ↔ id ∈ ids := by
  constructor
  · intro h
    obtain ⟨x, hx, he⟩ := List.mem_map.1 h
    rw [← Itoa_injective x id he]; exact hx
  · intro h; exact List.mem_map_of_mem Itoa h

/-! ## FileStorage -/

theorem content_update (files : Files) (path : String) (c : String) (q : String) :
    content (Function.update files path (some c)) q = if q = path then c else content files q := by
  unfold content
  by_cases h : q = path
  · subst h; simp
  · simp [Function.update_noteq h, h]

theorem content_openCreate (files : Files) (path q : String) :
    content (openCreate files path) q = content files q := by
  unfold openCreate
  cases h : files path with
  | some c => rfl
  | none =>
    simp only
    rw [content_update]
    by_cases hq : q = path
    · subst hq; simp [content, h]
    · simp [hq]

theorem file_read (fs : FileStorage) (files : Files) (p q : String) :
    (fs.IsStoryPosted files p q).1
      = scanFor q (scanLines (content files (fs.getFilePath p)).data) := by
  simp [FileStorage.IsStoryPosted, content_openCreate]

theorem file_read_content (fs : FileStorage) (files : Files) (p q path : String) :
    content (fs.IsStoryPosted files p q).2 path = content files path := by
  simp [FileStorage.IsStoryPosted, content_openCreate]

theorem file_save_content (fs : FileStorage) (files : Files) (p q path : String) :
    (content (fs.SavePostedStory files p q).2 path).data
      = if path = fs.getFilePath p then (content files path).data ++ (q.data ++ [Char.ofNat 10])
        else (content files path).data := by
  simp only [FileStorage.SavePostedStory, content_update]
  by_cases h : path = fs.getFilePath p
  · subst h
    simp only [if_true, String.data_append]
  · simp [h]

theorem logText_snoc (ids : List Int) (id : Int) :
    logText (ids ++ [id]) = logText ids ++ ((Itoa id).data ++ [Char.ofNat 10]) := by
  rw [logText_append]; simp [logText]

/-- The log of a path after a sequence of saves: what it held before, followed by the IDs that
were saved to this path, in order. -/
theorem content_saveAll (fs : FileStorage) (prior : List (String × Int)) :
    ∀ (files : Files) (path : String),
    (content (saveAll (fileStorage fs) files prior) path).data
      = (content files path).data
        ++ logText ((prior.filter (fun x => fs.getFilePath x.1 = path)).map Prod.snd) := by
  induction prior with
  | nil => intro files path; simp [saveAll, logText]
  | cons x t ih =>
    intro files path
    obtain ⟨c, id⟩ := x
    simp only [saveAll]
    rw [ih]
    simp only [fileStorage]
    rw [file_save_content]
    by_cases h : path = fs.getFilePath c
    · subst h
      simp [List.filter_cons, logText]
    · have h2 : ¬ fs.getFilePath c = path := fun e => h e.symm
      simp [List.filter_cons, h, h2]

theorem content_emptyFiles (path : String) : (content emptyFiles path).data = [] := rfl

theorem FileInv_empty : FileInv emptyFiles := fun _ => ⟨[], by simp, rfl⟩

theorem FileInv_read (fs : FileStorage) (files : Files) (p q : String) (h : FileInv files) :
    FileInv (fs.IsStoryPosted files p q).2 := by
  intro path
  rw [file_read_content]
  exact h path

theorem FileInv_save (fs : FileStorage) (files : Files) (p : String) (id : Int)
    (h : FileInv files) (hid : isInt id) : FileInv (fs.SavePostedStory files p (Itoa id)).2 := by
  intro path
  obtain ⟨ids, hids, hc⟩ := h path
  rw [file_save_content]
  by_cases hp : path = fs.getFilePath p
  · refine ⟨ids ++ [id], ?_, ?_⟩
    · intro x hx
      rcases List.mem_append.1 hx with h1 | h1
      · exact hids x h1
      · rw [List.mem_singleton] at h1; exact h1 ▸ hid
    · rw [if_pos hp, hc, logText_snoc]
  · exact ⟨ids, hids, by rw [if_neg hp, hc]⟩

/-- In a well-formed file system a membership test answers whether the ID is in the log of
the platform, and does not fail. -/
theorem file_read_log (fs : FileStorage) (files : Files) (p q : String) (ids : List Int)
    (hids : ∀ id ∈ ids, isInt id) (hc : (content files (fs.getFilePath p)).data = logText ids) :
    (fs.IsStoryPosted files p q).1 = (decide (q ∈ ids.map Itoa), none) := by
  rw [file_read, hc, scanLines_logText, scanFor_log q ids hids]

theorem getFilePath_new (p p1 : String) (hp : p ∈ channels) (hp1 : p1 ∈ channels) :
    newFileStorage.getFilePath p1 = newFileStorage.getFilePath p ↔ p1 = p := by
  simp only [channels, List.mem_cons, List.mem_singleton, List.not_mem_nil, or_false] at hp hp1
  rcases hp with rfl | rfl <;> rcases hp1 with rfl | rfl <;> decide

theorem fileStorage_reads : ReadsSucceed (fileStorage newFileStorage) FileInv := by
  intro s p id h _ _
  obtain ⟨ids, hids, hc⟩ := h (newFileStorage.getFilePath p)
  show (newFileStorage.IsStoryPosted s p (Itoa id)).1.2 = none
  rw [file_read_log newFileStorage s p (Itoa id) ids hids hc]

theorem fileStorage_lawful : Lawful (fileStorage newFileStorage) FileInv filePosted where
  read_inv := fun s p id h _ _ => FileInv_read newFileStorage s p (Itoa id) h
  save_inv := fun s p id h _ hid => FileInv_save newFileStorage s p id h hid
  read_sound := fun _ _ _ _ _ _ _ => rfl
  save_ok := fun _ _ _ _ _ _ => rfl
  read_posted := by
    intro s p id p1 id1 _ _ _ _ _
    show (newFileStorage.IsStoryPosted (newFileStorage.IsStoryPosted s p (Itoa id)).2 p1
      (Itoa id1)).1.1 = (newFileStorage.IsStoryPosted s p1 (Itoa id1)).1.1
    rw [file_read, file_read, file_read_content]
  save_posted := by
    intro s p id p1 id1 h hp hid hp1 _
    obtain ⟨ids, hids, hc⟩ := h (newFileStorage.getFilePath p1)
    show (newFileStorage.IsStoryPosted (newFileStorage.SavePostedStory s p (Itoa id)).2 p1
      (Itoa id1)).1.1
      = ((newFileStorage.IsStoryPosted s p1 (Itoa id1)).1.1 || decide (p1 = p ∧ id1 = id))
    rw [file_read_log newFileStorage s p1 (Itoa id1) ids hids hc]
    have hc2 := file_save_content newFileStorage s p (Itoa id) (newFileStorage.getFilePath p1)
    by_cases hpp : p1 = p
    · subst hpp
      rw [if_pos rfl, hc, ← logText_snoc] at hc2
      have hids2 : ∀ x ∈ ids ++ [id], isInt x := by
        intro x hx
        rcases List.mem_append.1 hx with h1 | h1
        · exact hids x h1
        · rw [List.mem_singleton] at h1; exact h1 ▸ hid
      rw [file_read_log newFileStorage _ p1 (Itoa id1) (ids ++ [id]) hids2 hc2]
      simp only [mem_map_Itoa, List.mem_append, List.mem_singleton, true_and]
      by_cases h1 : id1 ∈ ids <;> by_cases h3 : id1 = id <;> simp [h1, h3]
    · have hne : ¬ newFileStorage.getFilePath p1 = newFileStorage.getFilePath p :=
        fun e => hpp ((getFilePath_new p p1 hp hp1).1 e)
      rw [if_neg hne, hc] at hc2
      rw [file_read_log newFileStorage _ p1 (Itoa id1) ids hids hc2]
      simp [hpp]

theorem FileInv_saveAll (fs : FileStorage) (prior : List (String × Int))
    (hprior : ∀ x ∈ prior, isInt x.2) :
    ∀ files : Files, FileInv files → FileInv (saveAll (fileStorage fs) files prior) := by
  induction prior with
  | nil => intro files h; exact h
  | cons x t ih =>
    intro files h
    obtain ⟨c, id⟩ := x
    simp only [saveAll]
    exact ih (fun y hy => hprior y (List.mem_cons_of_mem _ hy)) _
      (FileInv_save fs files c id h (hprior (c, id) (List.mem_cons_self _ _)))

theorem file_saveTwice (fs : FileStorage) (s0 : Files) (c : String) (id : Int)
    (h : FileInv s0) (hid : isInt id) : SaveTwice (fileStorage fs) s0 c id := by
  obtain ⟨ids, hids, hc⟩ := h (fs.getFilePath c)
  have hids1 : ∀ x ∈ ids ++ [id], isInt x := by
    intro x hx
    rcases List.mem_append.1 hx with h1 | h1
    · exact hids x h1
    · rw [List.mem_singleton] at h1; exact h1 ▸ hid
  have hids2 : ∀ x ∈ (ids ++ [id]) ++ [id], isInt x := by
    intro x hx
    rcases List.mem_append.1 hx with h1 | h1
    · exact hids1 x h1
    · rw [List.mem_singleton] at h1; exact h1 ▸ hid
  have hc1 : (content (fs.SavePostedStory s0 c (Itoa id)).2 (fs.getFilePath c)).data
      = logText (ids ++ [id]) := by
    rw [file_save_content, if_pos rfl, hc, logText_snoc]
  have hc2 : (content (fs.SavePostedStory (fs.SavePostedStory s0 c (Itoa id)).2 c (Itoa id)).2
      (fs.getFilePath c)).data = logText ((ids ++ [id]) ++ [id]) := by
    rw [file_save_content, if_pos rfl, hc1]
    exact (logText_snoc _ _).symm
  refine ⟨rfl, rfl, ?_, ?_⟩
  · simp only [fileStorage]
    rw [file_read_log fs _ c (Itoa id) _ hids2 hc2]
    simp
  · intro p q
    simp only [fileStorage]
    by_cases hp : fs.getFilePath p = fs.getFilePath c
    · rw [← hp] at hc1 hc2
      rw [file_read_log fs _ p q _ hids2 hc2, file_read_log fs _ p q _ hids1 hc1]
      simp
    · rw [file_read, file_read]
      have := file_save_content fs (fs.SavePostedStory s0 c (Itoa id)).2 c (Itoa id)
        (fs.getFilePath p)
      rw [if_neg hp] at this
      rw [String.ext this]

/-! ## DBStorage -/

theorem db_read (db : Table) (p q : String) :
    (DBStorage.IsStoryPosted db p q).1 = (decide ((q, p) ∈ db), none) := by
  simp only [DBStorage.IsStoryPosted, Prod.mk.injEq, and_true]
  rw [decide_eq_decide, gt_iff_lt, List.length_pos_iff_exists_mem]
  constructor
  · rintro ⟨r, hr⟩
    obtain ⟨hm, he⟩ := List.mem_filter.1 hr
    simp only [decide_eq_true_eq] at he
    obtain ⟨a, b⟩ := r
    simp only at he
    rw [← he.1, ← he.2]; exact hm
  · intro h
    exact ⟨(q, p), List.mem_filter.2 ⟨h, by simp⟩⟩

theorem db_save_ok (db : Table) (p q : String) : (DBStorage.SavePostedStory db p q).1 = none := by
  unfold DBStorage.SavePostedStory
  split <;> rfl

theorem db_save_mem (db : Table) (p q : String) (r : String × String) :
    r ∈ (DBStorage.SavePostedStory db p q).2 ↔ r ∈ db ∨ r = (q, p) := by
  unfold DBStorage.SavePostedStory
  split
  · rename_i h
    constructor
    · exact Or.inl
    · rintro (h1 | h1)
      · exact h1
      · rw [h1]; exact h
  · simp

theorem db_saveTwice (s0 : Table) (c : String) (id : Int) : SaveTwice dbStorage s0 c id := by
  refine ⟨db_save_ok _ _ _, db_save_ok _ _ _, ?_, ?_⟩
  · simp only [dbStorage]
    rw [db_read]
    simp [db_save_mem]
  · intro p q
    simp only [dbStorage]
    rw [db_read, db_read]
    simp only [db_save_mem, Prod.mk.injEq, decide_eq_decide]
    tauto

theorem dbStorage_reads : ReadsSucceed dbStorage (fun _ => True) := by
  intro s p id _ _ _
  show (DBStorage.IsStoryPosted s p (Itoa id)).1.2 = none
  rw [db_read]

theorem dbStorage_lawful : Lawful dbStorage (fun _ => True) dbPosted where
  read_inv := fun _ _ _ _ _ _ => trivial
  save_inv := fun _ _ _ _ _ _ => trivial
  read_sound := fun _ _ _ _ _ _ _ => rfl
  save_ok := fun s p id _ _ _ => db_save_ok s p (Itoa id)
  read_posted := fun _ _ _ _ _ _ _ _ _ _ => rfl
  save_posted := by
    intro s p id p1 id1 _ _ _ _ _
    show (DBStorage.IsStoryPosted (DBStorage.SavePostedStory s p (Itoa id)).2 p1 (Itoa id1)).1.1
      = ((DBStorage.IsStoryPosted s p1 (Itoa id1)).1.1 || decide (p1 = p ∧ id1 = id))
    rw [db_read, db_read]
    simp only [db_save_mem, Prod.mk.injEq]
    by_cases h1 : (Itoa id1, p1) ∈ s <;> by_cases h2 : p1 = p <;> by_cases h3 : id1 = id <;>
      simp [h1, h2, h3]
    · intro e; exact absurd (Itoa_injective _ _ e) h3
    · intro e; exact absurd (Itoa_injective _ _ e) h3

/-! ## C1, C2: the storage contract -/

/-- C1. Idempotent save, for both backends: in every state reached from the empty store by
saves of Go `int` IDs, saving a key twice fails neither time, the key is posted afterwards,
and the second save changes the answer of no `IsStoryPosted` query (whatever platform and
story ID string are asked for). The channel may be any string, `discord` and `slack`
included. -/
theorem idempotent_save (prior : List (String × Int)) (c : String) (id : Int)
    (hprior : ∀ x ∈ prior, isInt x.2) (hid : isInt id) :
    SaveTwice (fileStorage newFileStorage)
        (saveAll (fileStorage newFileStorage) emptyFiles prior) c id ∧
      SaveTwice dbStorage (saveAll dbStorage [] prior) c id :=
  ⟨file_saveTwice newFileStorage _ c id
      (FileInv_saveAll newFileStorage prior hprior emptyFiles FileInv_empty) hid,
    db_saveTwice _ c id⟩

theorem idempotent_save_witness :
    SaveTwice (fileStorage newFileStorage)
        (saveAll (fileStorage newFileStorage) emptyFiles [("discord", 41), ("slack", 42)])
        "discord" 42 ∧
      SaveTwice dbStorage (saveAll dbStorage [] [("discord", 41), ("slack", 42)]) "discord" 42 :=
  idempotent_save [("discord", 41), ("slack", 42)] "discord" 42 (by decide) (by decide)

/-- C2. Fresh pairs are not posted, for FileStorage: after any sequence of saves to the
channels `discord` and `slack` from empty logs, `IsStoryPosted(c, id)` returns `(true, nil)`
when the pair `(c, id)` was saved and `(false, nil)` when it was not, whatever was saved to the
other channel and whatever other IDs were saved. -/
theorem fresh_not_posted (prior : List (String × Int)) (c : String) (id : Int)
    (hprior : ∀ x ∈ prior, x.1 ∈ channels ∧ isInt x.2) (hc : c ∈ channels) :
    ((fileStorage newFileStorage).IsStoryPosted
        (saveAll (fileStorage newFileStorage) emptyFiles prior) c (Itoa id)).1
      = (decide ((c, id) ∈ prior), none) := by
  have hcont := content_saveAll newFileStorage prior emptyFiles (newFileStorage.getFilePath c)
  rw [content_emptyFiles, List.nil_append] at hcont
  show (newFileStorage.IsStoryPosted
    (saveAll (fileStorage newFileStorage) emptyFiles prior) c (Itoa id)).1 = _
  rw [file_read_log newFileStorage _ c (Itoa id) _ ?_ hcont]
  · congr 1
    rw [decide_eq_decide, mem_map_Itoa]
    constructor
    · intro h
      obtain ⟨x, hx, rfl⟩ := List.mem_map.1 h
      obtain ⟨hx1, hp⟩ := List.mem_filter.1 hx
      simp only [decide_eq_true_eq] at hp
      have := (getFilePath_new c x.1 hc (hprior x hx1).1).1 hp
      rw [← this]; exact hx1
    · intro h
      exact List.mem_map.2 ⟨(c, id), List.mem_filter.2 ⟨h, by simp⟩, rfl⟩
  · intro x hx
    obtain ⟨y, hy, rfl⟩ := List.mem_map.1 hx
    exact (hprior y (List.mem_filter.1 hy).1).2

theorem fresh_not_posted_witness :
    ((fileStorage newFileStorage).IsStoryPosted
        (saveAll (fileStorage newFileStorage) emptyFiles [("discord", 123), ("slack", 7)])
        "discord" (Itoa 12)).1 = (decide (("discord", (12 : Int)) ∈ [("discord", (123 : Int)), ("slack", 7)]), none) ∧
    ((fileStorage newFileStorage).IsStoryPosted
        (saveAll (fileStorage newFileStorage) emptyFiles [("discord", 123), ("slack", 7)])
        "discord" (Itoa 12)).1 = (false, none) ∧
    ((fileStorage newFileStorage).IsStoryPosted
        (saveAll (fileStorage newFileStorage) emptyFiles [("discord", 123), ("slack", 7)])
        "discord" (Itoa 7)).1 = (false, none) ∧
    ((fileStorage newFileStorage).IsStoryPosted
        (saveAll (fileStorage newFileStorage) emptyFiles [("discord", 123), ("slack", 7)])
        "slack" (Itoa 7)).1 = (true, none) :=
  ⟨fresh_not_posted [("discord", 123), ("slack", 7)] "discord" 12 (by decide) (by decide),
    by decide, by decide, by decide⟩

/-! ## Counting sends and waits -/

@[simp] theorem sends_nil : sends [] = 0 := rfl

@[simp] theorem sleeps_nil : sleeps [] = 0 := rfl

@[simp] theorem sends_send (u : String) (pl : Payload) (r : Res Nat) (t : List Event) :
    sends (Event.send u pl r :: t) = sends t + 1 := by
  simp [sends, isSend]

@[simp] theorem sends_sleep (t : List Event) : sends (Event.sleep :: t) = sends t := by
  simp [sends, isSend]

@[simp] theorem sleeps_send (u : String) (pl : Payload) (r : Res Nat) (t : List Event) :
    sleeps (Event.send u pl r :: t) = sleeps t := by
  simp [sleeps, isSleep]

@[simp] theorem sleeps_sleep (t : List Event) : sleeps (Event.sleep :: t) = sleeps t + 1 := by
  simp [sleeps, isSleep]

/-! ## postToWebhook -/

theorem postAttempts_rateLimited {ω : Type} (net : Net ω) (u : String) (pl : Payload) (n : Nat)
    (w : ω) (h : isRateLimited (net.httpPost w u pl).1) :
    postAttempts net u pl (n + 1) w
      = ⟨(postAttempts net u pl n (net.sleepMinute (net.httpPost w u pl).2)).err,
          (postAttempts net u pl n (net.sleepMinute (net.httpPost w u pl).2)).w,
          Event.send u pl (Res.ok StatusTooManyRequests) :: Event.sleep ::
            (postAttempts net u pl n (net.sleepMinute (net.httpPost w u pl).2)).trace⟩ := by
  unfold isRateLimited at h
  rcases hp : net.httpPost w u pl with ⟨r, w1⟩
  rw [hp] at h
  simp only at h
  subst h
  simp [postAttempts, hp]

theorem postAttempts_final {ω : Type} (net : Net ω) (u : String) (pl : Payload) (n : Nat)
    (w : ω) (h : ¬ isRateLimited (net.httpPost w u pl).1) :
    sends (postAttempts net u pl (n + 1) w).trace = 1 ∧
      sleeps (postAttempts net u pl (n + 1) w).trace = 0 ∧
      ((postAttempts net u pl (n + 1) w).err = none ↔ isSuccess (net.httpPost w u pl).1) := by
  unfold isRateLimited at h
  rcases hp : net.httpPost w u pl with ⟨r, w1⟩
  rw [hp] at h
  simp only at h
  cases r with
  | error e => simp [postAttempts, hp, isSuccess]
  | ok status =>
    have hs : ¬ status = StatusTooManyRequests := fun e => h (by rw [e])
    by_cases h2 : status ≠ StatusOK ∧ status ≠ StatusNoContent
    · simp [postAttempts, hp, isSuccess, hs, h2]
    · simp only [postAttempts, hp, hs, if_false, h2, sends_send, sends_nil, sleeps_send,
        sleeps_nil, isSuccess, Res.ok.injEq, true_and, true_iff]
      omega

/-- The retry loop with `n` attempts allowed: it stops at the first send that is not answered
with 429, after as many waits as there were sends before it, and succeeds exactly when that
answer is 200 or 204; when all `n` sends are answered with 429 it fails after `n` sends and
`n` waits. -/
theorem postAttempts_spec {ω : Type} (net : Net ω) (u : String) (pl : Payload) (n : Nat) :
    ∀ w : ω,
      (∀ i, i < n → (∀ j, j < i → isRateLimited (nthSend net u pl j w).1) →
        ¬ isRateLimited (nthSend net u pl i w).1 →
        sends (postAttempts net u pl n w).trace = i + 1 ∧
          sleeps (postAttempts net u pl n w).trace = i ∧
          ((postAttempts net u pl n w).err = none ↔ isSuccess (nthSend net u pl i w).1)) ∧
      ((∀ j, j < n → isRateLimited (nthSend net u pl j w).1) →
        (postAttempts net u pl n w).err ≠ none ∧
          sends (postAttempts net u pl n w).trace = n ∧
          sleeps (postAttempts net u pl n w).trace = n) := by
  induction n with
  | zero =>
    intro w
    refine ⟨fun i hi => absurd hi (Nat.not_lt_zero i), fun _ => ?_⟩
    simp [postAttempts]
  | succ n ih =>
    intro w
    by_cases h0 : isRateLimited (net.httpPost w u pl).1
    · have ih1 := ih (net.sleepMinute (net.httpPost w u pl).2)
      rw [postAttempts_rateLimited net u pl n w h0]
      simp only [sends_send, sends_sleep, sleeps_send, sleeps_sleep]
      constructor
      · intro i hi hbefore hnot
        cases i with
        | zero => exact absurd h0 hnot
        | succ k =>
          have := ih1.1 k (by omega) (fun j hj => hbefore (j + 1) (by omega)) hnot
          exact ⟨by omega, by omega, this.2.2⟩
      · intro hall
        have := ih1.2 (fun j hj => hall (j + 1) (by omega))
        exact ⟨this.1, by omega, by omega⟩
    · have hf := postAttempts_final net u pl n w h0
      constructor
      · intro i hi hbefore hnot
        cases i with
        | zero => exact ⟨hf.1, hf.2.1, hf.2.2⟩
        | succ k => exact absurd (hbefore 0 (by omega)) h0
      · intro hall
        exact absurd (hall 0 (by omega)) h0

theorem postAttempts_sends_le {ω : Type} (net : Net ω) (u : String) (pl : Payload) (n : Nat) :
    ∀ w : ω, sends (postAttempts net u pl n w).trace ≤ n := by
  induction n with
  | zero => intro w; simp [postAttempts]
  | succ n ih =>
    intro w
    by_cases h0 : isRateLimited (net.httpPost w u pl).1
    · rw [postAttempts_rateLimited net u pl n w h0]
      simp only [sends_send, sends_sleep]
      have := ih (net.sleepMinute (net.httpPost w u pl).2)
      omega
    · have := (postAttempts_final net u pl n w h0).1
      omega

theorem success_not_rateLimited (r : Res Nat) (h : isSuccess r) : ¬ isRateLimited r := by
  unfold isSuccess at h
  unfold isRateLimited
  rcases h with h | h <;> rw [h] <;> decide

/-- C6. Retry policy of `postToWebhook`, for every network, world, platform, URL and message,
with `o i` the outcome of send number `i + 1`: the call succeeds exactly when one of the first
three sends is answered with 200 or 204 after 429 answers only, and it has then made exactly
that many sends; three 429 answers give a failure after exactly 3 sends; the first answer that
is neither 429 nor 200 or 204, and the first transport error, give a failure with no further
send; and there are never more than 3 sends. -/
theorem postToWebhook_retry_policy {ω : Type} (net : Net ω) (platform webhookURL message : String)
    (w : ω) :
    ((postToWebhook net platform webhookURL message w).err = none ↔
      ∃ i, i < 3 ∧ isSuccess (nthSend net webhookURL (webhookPayload platform message) i w).1 ∧
        ∀ j, j < i →
          isRateLimited (nthSend net webhookURL (webhookPayload platform message) j w).1) ∧
    (∀ i, i < 3 → isSuccess (nthSend net webhookURL (webhookPayload platform message) i w).1 →
      (∀ j, j < i →
        isRateLimited (nthSend net webhookURL (webhookPayload platform message) j w).1) →
      sends (postToWebhook net platform webhookURL message w).trace = i + 1) ∧
    ((∀ j, j < 3 →
        isRateLimited (nthSend net webhookURL (webhookPayload platform message) j w).1) →
      (postToWebhook net platform webhookURL message w).err ≠ none ∧
        sends (postToWebhook net platform webhookURL message w).trace = 3) ∧
    (∀ i, i < 3 →
      (∀ j, j < i →
        isRateLimited (nthSend net webhookURL (webhookPayload platform message) j w).1) →
      ¬ isRateLimited (nthSend net webhookURL (webhookPayload platform message) i w).1 →
      ¬ isSuccess (nthSend net webhookURL (webhookPayload platform message) i w).1 →
      (postToWebhook net platform webhookURL message w).err ≠ none ∧
        sends (postToWebhook net platform webhookURL message w).trace = i + 1) ∧
    sends (postToWebhook net platform webhookURL message w).trace ≤ 3 := by
  have spec := postAttempts_spec net webhookURL (webhookPayload platform message) 3 w
  unfold postToWebhook
  refine ⟨⟨?_, ?_⟩, ?_, ?_, ?_, postAttempts_sends_le net webhookURL _ 3 w⟩
  · intro hok
    by_cases hall : ∀ j, j < 3 →
        isRateLimited (nthSend net webhookURL (webhookPayload platform message) j w).1
    · exact absurd hok (spec.2 hall).1
    · have hex : ∃ i, i < 3 ∧
          ¬ isRateLimited (nthSend net webhookURL (webhookPayload platform message) i w).1 := by
        by_contra hne
        exact hall (fun j hj => by_contra (fun hn => hne ⟨j, hj, hn⟩))
      classical
      have hi := Nat.find_spec hex
      have hmin : ∀ j, j < Nat.find hex →
          isRateLimited (nthSend net webhookURL (webhookPayload platform message) j w).1 := by
        intro j hj
        by_contra hn
        exact Nat.find_min hex hj ⟨by omega, hn⟩
      exact ⟨Nat.find hex, hi.1, (spec.1 _ hi.1 hmin hi.2).2.2.1 hok, hmin⟩
  · rintro ⟨i, hi, hs, hbefore⟩
    exact (spec.1 i hi hbefore (success_not_rateLimited _ hs)).2.2.2 hs
  · intro i hi hs hbefore
    exact (spec.1 i hi hbefore (success_not_rateLimited _ hs)).1
  · intro hall
    exact ⟨(spec.2 hall).1, (spec.2 hall).2.1⟩
  · intro i hi hbefore hnot hns
    have := spec.1 i hi hbefore hnot
    exact ⟨fun e => hns (this.2.2.1 e), this.1⟩

theorem postToWebhook_retry_policy_witness :
    (postToWebhook (scriptedNet (Res.ok []) scenarioDetails) "slack"
        "https://slack.example/hook" "m" [Res.ok 429, Res.ok 204]).err = none ∧
      sends (postToWebhook (scriptedNet (Res.ok []) scenarioDetails) "slack"
        "https://slack.example/hook" "m" [Res.ok 429, Res.ok 204]).trace = 1 + 1 ∧
      ((postToWebhook (scriptedNet (Res.ok []) scenarioDetails) "slack"
        "https://slack.example/hook" "m" [Res.ok 429, Res.ok 500, Res.ok 200]).err ≠ none ∧
        sends (postToWebhook (scriptedNet (Res.ok []) scenarioDetails) "slack"
          "https://slack.example/hook" "m" [Res.ok 429, Res.ok 500, Res.ok 200]).trace = 1 + 1) :=
  ⟨(postToWebhook_retry_policy (scriptedNet (Res.ok []) scenarioDetails) "slack"
      "https://slack.example/hook" "m" [Res.ok 429, Res.ok 204]).1.2
      ⟨1, by decide, by decide, by decide⟩,
    (postToWebhook_retry_policy (scriptedNet (Res.ok []) scenarioDetails) "slack"
      "https://slack.example/hook" "m" [Res.ok 429, Res.ok 204]).2.1 1
      (by decide) (by decide) (by decide),
    (postToWebhook_retry_policy (scriptedNet (Res.ok []) scenarioDetails) "slack"
      "https://slack.example/hook" "m" [Res.ok 429, Res.ok 500, Res.ok 200]).2.2.2.1 1
      (by decide) (by decide) (by decide) (by decide)⟩

/-! ## The loop body, case by case -/

/-- Case analysis of `processStory`: the six ways through the body of the loop. -/
theorem processStory_cases {ω σ : Type} (net : Net ω) (st : Storage σ) (p u : String) (id : Int)
    (w : ω) (s : σ) (P : StepResult ω σ → Prop)
    (checkErr : ∀ b e s1, st.IsStoryPosted s p (Itoa id) = ((b, some e), s1) →
      P ⟨Ctl.skipped, w, s1, [Event.isPosted p id b (some e)]⟩)
    (alreadyPosted : ∀ s1, st.IsStoryPosted s p (Itoa id) = ((true, none), s1) →
      P ⟨Ctl.skipped, w, s1, [Event.isPosted p id true none]⟩)
    (fetchErr : ∀ s1 e w1, st.IsStoryPosted s p (Itoa id) = ((false, none), s1) →
      net.fetchStoryDetails w id = (Res.error e, w1) →
      P ⟨Ctl.skipped, w1, s1, [Event.isPosted p id false none, Event.details id (Res.error e)]⟩)
    (noURL : ∀ s1 story w1, st.IsStoryPosted s p (Itoa id) = ((false, none), s1) →
      net.fetchStoryDetails w id = (Res.ok story, w1) → story.URL = "" →
      P ⟨Ctl.skipped, w1, s1, [Event.isPosted p id false none, Event.details id (Res.ok story)]⟩)
    (postFail : ∀ s1 story w1 e, st.IsStoryPosted s p (Itoa id) = ((false, none), s1) →
      net.fetchStoryDetails w id = (Res.ok story, w1) → story.URL ≠ "" →
      (postToWebhook net p u (formatMessage p story) w1).err = some e →
      P ⟨Ctl.abort e, (postToWebhook net p u (formatMessage p story) w1).w, s1,
        [Event.isPosted p id false none, Event.details id (Res.ok story)]
          ++ (postToWebhook net p u (formatMessage p story) w1).trace
          ++ [Event.post p id (some e)]⟩)
    (announced : ∀ s1 story w1, st.IsStoryPosted s p (Itoa id) = ((false, none), s1) →
      net.fetchStoryDetails w id = (Res.ok story, w1) → story.URL ≠ "" →
      (postToWebhook net p u (formatMessage p story) w1).err = none →
      P ⟨Ctl.announced, (postToWebhook net p u (formatMessage p story) w1).w,
        (st.SavePostedStory s1 p (Itoa id)).2,
        [Event.isPosted p id false none, Event.details id (Res.ok story)]
          ++ (postToWebhook net p u (formatMessage p story) w1).trace
          ++ [Event.post p id none, Event.save p id (st.SavePostedStory s1 p (Itoa id)).1]⟩) :
    P (processStory net st p u id w s) := by
  unfold processStory
  rcases hc : st.IsStoryPosted s p (Itoa id) with ⟨⟨b, oe⟩, s1⟩
  cases oe with
  | some e =>
    cases b with
    | true => exact checkErr true e s1 hc
    | false => exact checkErr false e s1 hc
  | none =>
    cases b with
    | true => exact alreadyPosted s1 hc
    | false =>
      simp only
      rcases hf : net.fetchStoryDetails w id with ⟨r, w1⟩
      cases r with
      | error e => exact fetchErr s1 e w1 hc hf
      | ok story =>
        simp only
        by_cases hu : story.URL = ""
        · rw [if_pos hu]; exact noURL s1 story w1 hc hf hu
        · rw [if_neg hu]
          cases hp : (postToWebhook net p u (formatMessage p story) w1).err with
          | some e =>
            simp only
            have := postFail s1 story w1 e hc hf hu hp
            exact this
          | none =>
            simp only
            have := announced s1 story w1 hc hf hu hp
            exact this

theorem storyLoop_quota {ω σ : Type} (net : Net ω) (st : Storage σ) (quota : Int) (p u : String)
    (ids : List Int) (found : Int) (w : ω) (s : σ) (h : found ≥ quota) :
    storyLoop net st quota p u ids found w s = ⟨none, w, s, []⟩ := by
  cases ids with
  | nil => rfl
  | cons id rest => simp [storyLoop, h]

theorem storyLoop_abort {ω σ : Type} (net : Net ω) (st : Storage σ) (quota : Int) (p u : String)
    (id : Int) (rest : List Int) (found : Int) (w : ω) (s : σ) (e : Err) (h : ¬ found ≥ quota)
    (hc : (processStory net st p u id w s).ctl = Ctl.abort e) :
    storyLoop net st quota p u (id :: rest) found w s
      = ⟨some e, (processStory net st p u id w s).w, (processStory net st p u id w s).s,
          (processStory net st p u id w s).trace⟩ := by
  simp only [storyLoop, h, if_false, hc]

theorem storyLoop_skipped {ω σ : Type} (net : Net ω) (st : Storage σ) (quota : Int)
    (p u : String) (id : Int) (rest : List Int) (found : Int) (w : ω) (s : σ)
    (h : ¬ found ≥ quota) (hc : (processStory net st p u id w s).ctl = Ctl.skipped) :
    storyLoop net st quota p u (id :: rest) found w s
      = ⟨(storyLoop net st quota p u rest found (processStory net st p u id w s).w
            (processStory net st p u id w s).s).err,
          (storyLoop net st quota p u rest found (processStory net st p u id w s).w
            (processStory net st p u id w s).s).w,
          (storyLoop net st quota p u rest found (processStory net st p u id w s).w
            (processStory net st p u id w s).s).s,
          (processStory net st p u id w s).trace ++
            (storyLoop net st quota p u rest found (processStory net st p u id w s).w
              (processStory net st p u id w s).s).trace⟩ := by
  simp only [storyLoop, h, if_false, hc]

theorem storyLoop_announced {ω σ : Type} (net : Net ω) (st : Storage σ) (quota : Int)
    (p u : String) (id : Int) (rest : List Int) (found : Int) (w : ω) (s : σ)
    (h : ¬ found ≥ quota) (hc : (processStory net st p u id w s).ctl = Ctl.announced) :
    storyLoop net st quota p u (id :: rest) found w s
      = ⟨(storyLoop net st quota p u rest (found + 1) (processStory net st p u id w s).w
            (processStory net st p u id w s).s).err,
          (storyLoop net st quota p u rest (found + 1) (processStory net st p u id w s).w
            (processStory net st p u id w s).s).w,
          (storyLoop net st quota p u rest (found + 1) (processStory net st p u id w s).w
            (processStory net st p u id w s).s).s,
          (processStory net st p u id w s).trace ++
            (storyLoop net st quota p u rest (found + 1) (processStory net st p u id w s).w
              (processStory net st p u id w s).s).trace⟩ := by
  simp only [storyLoop, h, if_false, hc]

/-! ## Shape of a trace -/

theorem postAttempts_chain {ω : Type} (net : Net ω) (u : String) (pl : Payload) (p : String)
    (id : Int) (n : Nat) :
    ∀ (w : ω) (x : Event), (∀ r, Follows x (Event.send u pl r)) →
      (n = 0 → ∀ e, Follows x (Event.post p id (some e))) →
      List.Chain' Follows
        (x :: ((postAttempts net u pl n w).trace ++ [Event.post p id (postAttempts net u pl n w).err])) := by
  induction n with
  | zero =>
    intro w x _ h0
    simp only [postAttempts, List.nil_append]
    exact List.chain'_cons.2 ⟨h0 rfl _, List.chain'_singleton _⟩
  | succ n ih =>
    intro w x hx _
    by_cases hr : isRateLimited (net.httpPost w u pl).1
    · rw [postAttempts_rateLimited net u pl n w hr]
      simp only [List.cons_append]
      refine List.chain'_cons.2 ⟨hx _, List.chain'_cons.2 ⟨?_, ?_⟩⟩
      · simp [Follows, isRateLimited]
      · exact ih _ Event.sleep (fun r => by simp [Follows])
          (fun _ e => by simp [Follows])
    · rcases hp : net.httpPost w u pl with ⟨r, w1⟩
      rw [hp] at hr
      simp only at hr
      cases r with
      | error e =>
        simp only [postAttempts, hp, List.singleton_append]
        refine List.chain'_cons.2 ⟨hx _, List.chain'_cons.2 ⟨?_, List.chain'_singleton _⟩⟩
        simp [Follows, isRateLimited]
      | ok status =>
        have hs : ¬ status = StatusTooManyRequests := fun e => hr (by rw [e]; rfl)
        by_cases h2 : status ≠ StatusOK ∧ status ≠ StatusNoContent
        · simp only [postAttempts, hp, hs, if_false]
          rw [if_pos h2]
          simp only [List.singleton_append]
          refine List.chain'_cons.2 ⟨hx _, List.chain'_cons.2 ⟨?_, List.chain'_singleton _⟩⟩
          simpa [Follows] using hr
        · simp only [postAttempts, hp, hs, if_false]
          rw [if_neg h2]
          simp only [List.singleton_append]
          refine List.chain'_cons.2 ⟨hx _, List.chain'_cons.2 ⟨?_, List.chain'_singleton _⟩⟩
          simpa [Follows] using hr

theorem follows_check_of_checkErr (p : String) (id : Int) (b : Bool) (e : Err) (y : Event)
    (hy : isCheck y) : Follows (Event.isPosted p id b (some e)) y := by
  cases y <;> simp [isCheck] at hy
  cases b <;> simp [Follows]

theorem follows_check_of_posted (p : String) (id : Int) (y : Event) (hy : isCheck y) :
    Follows (Event.isPosted p id true none) y := by
  cases y <;> simp [isCheck] at hy
  simp [Follows]

theorem follows_check_of_fetchErr (id : Int) (e : Err) (y : Event) (hy : isCheck y) :
    Follows (Event.details id (Res.error e)) y := by
  cases y <;> simp [isCheck] at hy
  simp [Follows]

theorem follows_check_of_noURL (id : Int) (story : Story) (h : story.URL = "") (y : Event)
    (hy : isCheck y) : Follows (Event.details id (Res.ok story)) y := by
  cases y <;> simp [isCheck] at hy
  simp [Follows, h]

theorem follows_check_of_save (p : String) (id : Int) (oe : Option Err) (y : Event)
    (hy : isCheck y) : Follows (Event.save p id oe) y := by
  cases y <;> simp [isCheck] at hy
  simp [Follows]

theorem shape_single (x : Event) (hx : isCheck x) (hopen : ∀ y, isCheck y → Follows x y) :
    Shape [x] none := by
  refine ⟨List.chain'_singleton x, ?_, ?_, ?_⟩
  · intro y hy
    simp only [List.head?_cons, Option.mem_def, Option.some.injEq] at hy
    exact hy ▸ hx
  · intro _ z hz y hy
    simp only [List.getLast?_singleton, Option.mem_def, Option.some.injEq] at hz
    exact hz ▸ hopen y hy
  · intro e he; cases he

theorem shape_pair (x z : Event) (hx : isCheck x) (hxz : Follows x z)
    (hopen : ∀ y, isCheck y → Follows z y) : Shape [x, z] none := by
  refine ⟨List.chain'_cons.2 ⟨hxz, List.chain'_singleton z⟩, ?_, ?_, ?_⟩
  · intro y hy
    simp only [List.head?_cons, Option.mem_def, Option.some.injEq] at hy
    exact hy ▸ hx
  · intro _ a ha y hy
    simp only [List.getLast?_cons_cons, List.getLast?_singleton, Option.mem_def,
      Option.some.injEq] at ha
    exact ha ▸ hopen y hy
  · intro e he; cases he

/-- The trace of one iteration of the loop has the shape of a loop that ended the same
way. -/
theorem processStory_shape {ω σ : Type} (net : Net ω) (st : Storage σ) (p u : String) (id : Int)
    (w : ω) (s : σ) :
    Shape (processStory net st p u id w s).trace (ctlErr (processStory net st p u id w s).ctl) := by
  apply processStory_cases net st p u id w s
    (fun r => Shape r.trace (ctlErr r.ctl))
  · intro b e s1 _
    exact shape_single _ trivial (follows_check_of_checkErr p id b e)
  · intro s1 _
    exact shape_single _ trivial (follows_check_of_posted p id)
  · intro s1 e w1 _ _
    exact shape_pair _ _ trivial (by simp [Follows]) (follows_check_of_fetchErr id e)
  · intro s1 story w1 _ _ hu
    exact shape_pair _ _ trivial (by simp [Follows]) (follows_check_of_noURL id story hu)
  · intro s1 story w1 e _ _ hu hp
    have hch := postAttempts_chain net u (webhookPayload p (formatMessage p story)) p id 3 w1
      (Event.details id (Res.ok story)) (fun r => by simp [Follows, hu]) (fun h => by omega)
    have herr : (postAttempts net u (webhookPayload p (formatMessage p story)) 3 w1).err
        = some e := hp
    rw [herr] at hch
    refine ⟨?_, ?_, ?_, ?_⟩
    · simp only [List.cons_append, List.nil_append, List.append_assoc]
      exact List.chain'_cons.2 ⟨by simp [Follows], hch⟩
    · intro y hy
      simp only [List.cons_append, List.head?_cons, Option.mem_def, Option.some.injEq] at hy
      exact hy ▸ trivial
    · intro h; simp [ctlErr] at h
    · intro e1 he1
      simp only [ctlErr, Option.some.injEq] at he1
      subst he1
      exact ⟨p, id, _, rfl⟩
  · intro s1 story w1 _ _ hu hp
    have hch := postAttempts_chain net u (webhookPayload p (formatMessage p story)) p id 3 w1
      (Event.details id (Res.ok story)) (fun r => by simp [Follows, hu]) (fun h => by omega)
    have herr : (postAttempts net u (webhookPayload p (formatMessage p story)) 3 w1).err
        = none := hp
    rw [herr] at hch
    have hall : List.Chain' Follows
        ((Event.isPosted p id false none :: Event.details id (Res.ok story) ::
            ((postToWebhook net p u (formatMessage p story) w1).trace
              ++ [Event.post p id none]))
          ++ [Event.save p id (st.SavePostedStory s1 p (Itoa id)).1]) := by
      refine List.Chain'.append (List.chain'_cons.2 ⟨by simp [Follows], hch⟩)
        (List.chain'_singleton _) ?_
      intro x hx y hy
      simp only [List.head?_cons, Option.mem_def, Option.some.injEq] at hy
      subst hy
      have hl : (Event.isPosted p id false none :: Event.details id (Res.ok story) ::
            ((postToWebhook net p u (formatMessage p story) w1).trace
              ++ [Event.post p id none])).getLast? = some (Event.post p id none) := by
        rw [← List.cons_append, ← List.cons_append, List.getLast?_append]
        simp
      rw [hl] at hx
      simp only [Option.mem_def, Option.some.injEq] at hx
      subst hx
      simp [Follows]
    refine ⟨?_, ?_, ?_, ?_⟩
    · simpa using hall
    · intro y hy
      simp only [List.cons_append, List.head?_cons, Option.mem_def, Option.some.injEq] at hy
      exact hy ▸ trivial
    · intro _ x hx y hy
      have hl : ([Event.isPosted p id false none, Event.details id (Res.ok story)]
            ++ (postToWebhook net p u (formatMessage p story) w1).trace
            ++ [Event.post p id none, Event.save p id (st.SavePostedStory s1 p (Itoa id)).1]).getLast?
          = some (Event.save p id (st.SavePostedStory s1 p (Itoa id)).1) := by
        rw [List.getLast?_append]
        simp
      rw [hl] at hx
      simp only [Option.mem_def, Option.some.injEq] at hx
      subst hx
      exact follows_check_of_save p id _ y hy
    · intro e he; simp [ctlErr] at he

theorem shape_nil : Shape [] none := by
  refine ⟨List.chain'_nil, ?_, ?_, ?_⟩
  · intro y hy; simp at hy
  · intro _ x hx; simp at hx
  · intro e he; cases he

theorem shape_append (t1 t2 : List Event) (err : Option Err) (h1 : Shape t1 none)
    (h2 : Shape t2 err) : Shape (t1 ++ t2) err := by
  refine ⟨?_, ?_, ?_, ?_⟩
  · exact List.Chain'.append h1.1 h2.1
      (fun x hx y hy => h1.2.2.1 rfl x hx y (h2.2.1 y hy))
  · cases t1 with
    | nil => exact h2.2.1
    | cons a t => exact h1.2.1
  · intro he x hx y hy
    rw [List.getLast?_append] at hx
    cases hl : t2.getLast? with
    | none =>
      rw [hl] at hx
      exact h1.2.2.1 rfl x (by simpa using hx) y hy
    | some z =>
      rw [hl] at hx
      simp only [Option.or, Option.mem_def, Option.some.injEq] at hx
      subst hx
      exact h2.2.2.1 he z hl y hy
  · intro e he
    obtain ⟨p, id, pre, hpre⟩ := h2.2.2.2 e he
    exact ⟨p, id, t1 ++ pre, by rw [hpre, List.append_assoc]⟩

/-- The trace of the loop over the story IDs has the shape of a loop. -/
theorem storyLoop_shape {ω σ : Type} (net : Net ω) (st : Storage σ) (quota : Int) (p u : String)
    (ids : List Int) : ∀ (found : Int) (w : ω) (s : σ),
    Shape (storyLoop net st quota p u ids found w s).trace
      (storyLoop net st quota p u ids found w s).err := by
  induction ids with
  | nil => intro found w s; exact shape_nil
  | cons id rest ih =>
    intro found w s
    by_cases hq : found ≥ quota
    · rw [storyLoop_quota net st quota p u _ found w s hq]; exact shape_nil
    · have hstep := processStory_shape net st p u id w s
      cases hc : (processStory net st p u id w s).ctl with
      | abort e =>
        rw [storyLoop_abort net st quota p u id rest found w s e hq hc]
        rw [hc] at hstep
        exact hstep
      | skipped =>
        rw [storyLoop_skipped net st quota p u id rest found w s hq hc]
        rw [hc] at hstep
        exact shape_append _ _ _ hstep (ih _ _ _)
      | announced =>
        rw [storyLoop_announced net st quota p u id rest found w s hq hc]
        rw [hc] at hstep
        exact shape_append _ _ _ hstep (ih _ _ _)

theorem platformLoop_skip {ω σ : Type} (net : Net ω) (st : Storage σ) (quota : Int)
    (ids : List Int) (p : String) (rest : List (String × String)) (w : ω) (s : σ) :
    platformLoop net st quota ids ((p, "") :: rest) w s
      = platformLoop net st quota ids rest w s := by
  simp [platformLoop]

theorem platformLoop_abort {ω σ : Type} (net : Net ω) (st : Storage σ) (quota : Int)
    (ids : List Int) (p u : String) (rest : List (String × String)) (w : ω) (s : σ) (e : Err)
    (hu : u ≠ "") (he : (storyLoop net st quota p u ids 0 w s).err = some e) :
    platformLoop net st quota ids ((p, u) :: rest) w s
      = ⟨some e, (storyLoop net st quota p u ids 0 w s).w,
          (storyLoop net st quota p u ids 0 w s).s,
          (storyLoop net st quota p u ids 0 w s).trace⟩ := by
  simp only [platformLoop, hu, if_false, he]

theorem platformLoop_next {ω σ : Type} (net : Net ω) (st : Storage σ) (quota : Int)
    (ids : List Int) (p u : String) (rest : List (String × String)) (w : ω) (s : σ)
    (hu : u ≠ "") (he : (storyLoop net st quota p u ids 0 w s).err = none) :
    platformLoop net st quota ids ((p, u) :: rest) w s
      = ⟨(platformLoop net st quota ids rest (storyLoop net st quota p u ids 0 w s).w
            (storyLoop net st quota p u ids 0 w s).s).err,
          (platformLoop net st quota ids rest (storyLoop net st quota p u ids 0 w s).w
            (storyLoop net st quota p u ids 0 w s).s).w,
          (platformLoop net st quota ids rest (storyLoop net st quota p u ids 0 w s).w
            (storyLoop net st quota p u ids 0 w s).s).s,
          (storyLoop net st quota p u ids 0 w s).trace ++
            (platformLoop net st quota ids rest (storyLoop net st quota p u ids 0 w s).w
              (storyLoop net st quota p u ids 0 w s).s).trace⟩ := by
  simp only [platformLoop, hu, if_false, he]

/-- The trace of the loop over the platforms has the shape of a loop. -/
theorem platformLoop_shape {ω σ : Type} (net : Net ω) (st : Storage σ) (quota : Int)
    (ids : List Int) (plats : List (String × String)) : ∀ (w : ω) (s : σ),
    Shape (platformLoop net st quota ids plats w s).trace
      (platformLoop net st quota ids plats w s).err := by
  induction plats with
  | nil => intro w s; exact shape_nil
  | cons x rest ih =>
    intro w s
    obtain ⟨p, u⟩ := x
    by_cases hu : u = ""
    · subst hu
      rw [platformLoop_skip]
      exact ih w s
    · have hs := storyLoop_shape net st quota p u ids 0 w s
      cases he : (storyLoop net st quota p u ids 0 w s).err with
      | some e =>
        rw [platformLoop_abort net st quota ids p u rest w s e hu he]
        rw [he] at hs
        exact hs
      | none =>
        rw [platformLoop_next net st quota ids p u rest w s hu he]
        rw [he] at hs
        exact shape_append _ _ _ hs (ih _ _)

theorem fetchAndPostNews_fetchErr {ω σ : Type} (net : Net ω) (st : Storage σ) (config : Config)
    (b : Bool) (w : ω) (s : σ) (e : Err) (w1 : ω)
    (h : net.fetchTopStories w = (Res.error e, w1)) :
    fetchAndPostNews net st config b w s
      = ⟨some ("failed to fetch top stories: " ++ e), w1, s, [Event.topStories (Res.error e)]⟩ := by
  simp only [fetchAndPostNews, h]

theorem fetchAndPostNews_ok {ω σ : Type} (net : Net ω) (st : Storage σ) (config : Config)
    (b : Bool) (w : ω) (s : σ) (ids : List Int) (w1 : ω)
    (h : net.fetchTopStories w = (Res.ok ids, w1)) :
    fetchAndPostNews net st config b w s
      = ⟨(platformLoop net st config.FetchTopStoriesAmount ids (platforms config b) w1 s).err,
          (platformLoop net st config.FetchTopStoriesAmount ids (platforms config b) w1 s).w,
          (platformLoop net st config.FetchTopStoriesAmount ids (platforms config b) w1 s).s,
          Event.topStories (Res.ok ids) ::
            (platformLoop net st config.FetchTopStoriesAmount ids (platforms config b) w1 s).trace⟩ := by
  simp only [fetchAndPostNews, h]

/-! ## Events of a trace -/

theorem postAttempts_events {ω : Type} (net : Net ω) (u : String) (pl : Payload) (n : Nat) :
    ∀ (w : ω), ∀ e ∈ (postAttempts net u pl n w).trace, isAttemptOf u pl e := by
  induction n with
  | zero => intro w e he; simp [postAttempts] at he
  | succ n ih =>
    intro w e he
    by_cases hr : isRateLimited (net.httpPost w u pl).1
    · rw [postAttempts_rateLimited net u pl n w hr] at he
      simp only [List.mem_cons] at he
      rcases he with rfl | rfl | he
      · exact ⟨rfl, rfl⟩
      · trivial
      · exact ih _ e he
    · rcases hp : net.httpPost w u pl with ⟨r, w1⟩
      rw [hp] at hr
      simp only at hr
      cases r with
      | error e1 =>
        simp only [postAttempts, hp, List.mem_singleton] at he
        subst he
        exact ⟨rfl, rfl⟩
      | ok status =>
        have hs : ¬ status = StatusTooManyRequests := fun e => hr (by rw [e]; rfl)
        simp only [postAttempts, hp, hs, if_false] at he
        split at he <;>
        · simp only [List.mem_singleton] at he
          subst he
          exact ⟨rfl, rfl⟩

theorem filterMap_attempts {α : Type} (f : Event → Option α) (u : String) (pl : Payload)
    (hf : ∀ e, isAttemptOf u pl e → f e = none) (t : List Event)
    (h : ∀ e ∈ t, isAttemptOf u pl e) : t.filterMap f = [] := by
  rw [List.filterMap_eq_nil_iff]
  intro e he
  exact hf e (h e he)

theorem deliveryOf_attempt (u : String) (pl : Payload) (e : Event) (h : isAttemptOf u pl e) :
    deliveryOf e = none := by
  cases e <;> simp only [isAttemptOf] at h <;> rfl

theorem recordOf_attempt (u : String) (pl : Payload) (e : Event) (h : isAttemptOf u pl e) :
    recordOf e = none := by
  cases e <;> simp only [isAttemptOf] at h <;> rfl

theorem eventKey_attempt (u : String) (pl : Payload) (e : Event) (h : isAttemptOf u pl e) :
    eventKey e = none := by
  cases e <;> simp only [isAttemptOf] at h <;> rfl

theorem postToWebhook_events {ω : Type} (net : Net ω) (p u m : String) (w : ω) :
    ∀ e ∈ (postToWebhook net p u m w).trace, isAttemptOf u (webhookPayload p m) e :=
  postAttempts_events net u (webhookPayload p m) 3 w

theorem Replays_append {ω σ : Type} (net : Net ω) (st : Storage σ) (a b : List Event) :
    ∀ (w : ω) (s : σ) (w1 : ω) (s1 : σ) (w2 : ω) (s2 : σ),
      Replays net st w s a w1 s1 → Replays net st w1 s1 b w2 s2 →
      Replays net st w s (a ++ b) w2 s2 := by
  induction a with
  | nil =>
    intro w s w1 s1 w2 s2 h1 h2
    simp only [Replays] at h1
    rw [h1.1, h1.2] at h2
    exact h2
  | cons x t ih =>
    intro w s w1 s1 w2 s2 h1 h2
    cases x <;> simp only [List.cons_append, Replays] at h1 ⊢
    · exact ⟨h1.1, ih _ _ _ _ _ _ h1.2 h2⟩
    · exact ⟨h1.1, ih _ _ _ _ _ _ h1.2 h2⟩
    · exact ⟨h1.1, ih _ _ _ _ _ _ h1.2 h2⟩
    · exact ⟨h1.1, ih _ _ _ _ _ _ h1.2 h2⟩
    · exact ih _ _ _ _ _ _ h1 h2
    · exact ih _ _ _ _ _ _ h1 h2
    · exact ⟨h1.1, ih _ _ _ _ _ _ h1.2 h2⟩

theorem Replays_of_append_post {ω σ : Type} (net : Net ω) (st : Storage σ) (p : String)
    (id : Int) (oe : Option Err) (a : List Event) :
    ∀ (w : ω) (s : σ) (w2 : ω) (s2 : σ),
      Replays net st w s (a ++ [Event.post p id oe]) w2 s2 → Replays net st w s a w2 s2 := by
  induction a with
  | nil =>
    intro w s w2 s2 h
    simpa [Replays] using h
  | cons x t ih =>
    intro w s w2 s2 h
    cases x <;> simp only [List.cons_append, Replays] at h ⊢
    · exact ⟨h.1, ih _ _ _ _ h.2⟩
    · exact ⟨h.1, ih _ _ _ _ h.2⟩
    · exact ⟨h.1, ih _ _ _ _ h.2⟩
    · exact ⟨h.1, ih _ _ _ _ h.2⟩
    · exact ih _ _ _ _ h
    · exact ih _ _ _ _ h
    · exact ⟨h.1, ih _ _ _ _ h.2⟩

theorem postAttempts_replays {ω σ : Type} (net : Net ω) (st : Storage σ) (u : String)
    (pl : Payload) (n : Nat) : ∀ (w : ω) (s : σ),
    Replays net st w s (postAttempts net u pl n w).trace (postAttempts net u pl n w).w s := by
  induction n with
  | zero => intro w s; simp [postAttempts, Replays]
  | succ n ih =>
    intro w s
    by_cases hr : isRateLimited (net.httpPost w u pl).1
    · rw [postAttempts_rateLimited net u pl n w hr]
      simp only [Replays]
      exact ⟨hr, ih _ _⟩
    · rcases hp : net.httpPost w u pl with ⟨r, w1⟩
      rw [hp] at hr
      simp only at hr
      cases r with
      | error e => simp [postAttempts, hp, Replays]
      | ok status =>
        have hs : ¬ status = StatusTooManyRequests := fun e => hr (by rw [e]; rfl)
        simp only [postAttempts, hp, hs, if_false]
        split <;> simp [Replays, hp]

/-- The trace of one iteration of the loop is what the iteration did: its calls, made in
order, return the recorded results and leave the world and the storage of the iteration. -/
theorem processStory_replays {ω σ : Type} (net : Net ω) (st : Storage σ) (p u : String)
    (id : Int) (w : ω) (s : σ) :
    Replays net st w s (processStory net st p u id w s).trace
      (processStory net st p u id w s).w (processStory net st p u id w s).s := by
  apply processStory_cases net st p u id w s (fun r => Replays net st w s r.trace r.w r.s)
  · intro b e s1 hc; simp [Replays, hc]
  · intro s1 hc; simp [Replays, hc]
  · intro s1 e w1 hc hf; simp [Replays, hc, hf]
  · intro s1 story w1 hc hf _; simp [Replays, hc, hf]
  · intro s1 story w1 e hc hf _ _
    simp only [List.cons_append, List.nil_append, Replays, hc, hf, true_and]
    refine Replays_append net st _ _ _ _ _ _ _ _
      (postAttempts_replays net st u _ 3 w1 s1) ?_
    simp [Replays, postToWebhook]
  · intro s1 story w1 hc hf _ _
    simp only [List.cons_append, List.nil_append, Replays, hc, hf, true_and]
    refine Replays_append net st _ _ _ _ _ _ _ _
      (postAttempts_replays net st u _ 3 w1 s1) ?_
    simp [Replays, postToWebhook]

theorem storyLoop_replays {ω σ : Type} (net : Net ω) (st : Storage σ) (quota : Int)
    (p u : String) (ids : List Int) : ∀ (found : Int) (w : ω) (s : σ),
    Replays net st w s (storyLoop net st quota p u ids found w s).trace
      (storyLoop net st quota p u ids found w s).w
      (storyLoop net st quota p u ids found w s).s := by
  induction ids with
  | nil => intro found w s; simp [storyLoop, Replays]
  | cons id rest ih =>
    intro found w s
    by_cases hq : found ≥ quota
    · rw [storyLoop_quota net st quota p u _ found w s hq]; simp [Replays]
    · have hstep := processStory_replays net st p u id w s
      cases hc : (processStory net st p u id w s).ctl with
      | abort e =>
        rw [storyLoop_abort net st quota p u id rest found w s e hq hc]
        exact hstep
      | skipped =>
        rw [storyLoop_skipped net st quota p u id rest found w s hq hc]
        exact Replays_append net st _ _ _ _ _ _ _ _ hstep (ih _ _ _)
      | announced =>
        rw [storyLoop_announced net st quota p u id rest found w s hq hc]
        exact Replays_append net st _ _ _ _ _ _ _ _ hstep (ih _ _ _)

theorem platformLoop_replays {ω σ : Type} (net : Net ω) (st : Storage σ) (quota : Int)
    (ids : List Int) (plats : List (String × String)) : ∀ (w : ω) (s : σ),
    Replays net st w s (platformLoop net st quota ids plats w s).trace
      (platformLoop net st quota ids plats w s).w
      (platformLoop net st quota ids plats w s).s := by
  induction plats with
  | nil => intro w s; simp [platformLoop, Replays]
  | cons x rest ih =>
    intro w s
    obtain ⟨p, u⟩ := x
    by_cases hu : u = ""
    · subst hu
      rw [platformLoop_skip]
      exact ih w s
    · have hs := storyLoop_replays net st quota p u ids 0 w s
      cases he : (storyLoop net st quota p u ids 0 w s).err with
      | some e =>
        rw [platformLoop_abort net st quota ids p u rest w s e hu he]
        exact hs
      | none =>
        rw [platformLoop_next net st quota ids p u rest w s hu he]
        exact Replays_append net st _ _ _ _ _ _ _ _ hs (ih _ _)

/-- The trace of a run is what the run did: the calls of the trace, made in order from the
world and the storage at the start of the run, return the results that the trace records and
leave the world and the storage that the run leaves. The run does nothing else to them. -/
theorem fetchAndPostNews_replays {ω σ : Type} (net : Net ω) (st : Storage σ) (config : Config)
    (b : Bool) (w : ω) (s : σ) :
    Replays net st w s (fetchAndPostNews net st config b w s).trace
      (fetchAndPostNews net st config b w s).w (fetchAndPostNews net st config b w s).s := by
  rcases h : net.fetchTopStories w with ⟨r, w1⟩
  cases r with
  | error e =>
    rw [fetchAndPostNews_fetchErr net st config b w s e w1 h]
    simp [Replays, h]
  | ok ids =>
    rw [fetchAndPostNews_ok net st config b w s ids w1 h]
    simp only [Replays, h, true_and]
    exact platformLoop_replays net st _ ids _ w1 s

/-- Every event of the loop over the story IDs is an event of one of its iterations. -/
theorem storyLoop_forall {ω σ : Type} (net : Net ω) (st : Storage σ) (quota : Int) (p u : String)
    (P : Event → Prop) (ids : List Int)
    (h : ∀ id ∈ ids, ∀ (w : ω) (s : σ), ∀ e ∈ (processStory net st p u id w s).trace, P e) :
    ∀ (found : Int) (w : ω) (s : σ),
      ∀ e ∈ (storyLoop net st quota p u ids found w s).trace, P e := by
  induction ids with
  | nil => intro found w s e he; simp [storyLoop] at he
  | cons id rest ih =>
    intro found w s e he
    have ih1 := ih (fun i hi => h i (List.mem_cons_of_mem id hi))
    have hstep := h id (List.mem_cons_self id rest) w s
    by_cases hq : found ≥ quota
    · rw [storyLoop_quota net st quota p u _ found w s hq] at he
      simp at he
    · cases hc : (processStory net st p u id w s).ctl with
      | abort e1 =>
        rw [storyLoop_abort net st quota p u id rest found w s e1 hq hc] at he
        exact hstep e he
      | skipped =>
        rw [storyLoop_skipped net st quota p u id rest found w s hq hc] at he
        rcases List.mem_append.1 he with h1 | h1
        · exact hstep e h1
        · exact ih1 _ _ _ e h1
      | announced =>
        rw [storyLoop_announced net st quota p u id rest found w s hq hc] at he
        rcases List.mem_append.1 he with h1 | h1
        · exact hstep e h1
        · exact ih1 _ _ _ e h1

/-- Every event of the loop over the platforms is an event of an iteration for an enabled
platform. -/
theorem platformLoop_forall {ω σ : Type} (net : Net ω) (st : Storage σ) (quota : Int)
    (ids : List Int) (P : Event → Prop) (plats : List (String × String))
    (h : ∀ x ∈ plats, x.2 ≠ "" → ∀ id ∈ ids, ∀ (w : ω) (s : σ),
      ∀ e ∈ (processStory net st x.1 x.2 id w s).trace, P e) :
    ∀ (w : ω) (s : σ), ∀ e ∈ (platformLoop net st quota ids plats w s).trace, P e := by
  induction plats with
  | nil => intro w s e he; simp [platformLoop] at he
  | cons x rest ih =>
    intro w s e he
    obtain ⟨p, u⟩ := x
    have ih1 := ih (fun y hy => h y (List.mem_cons_of_mem _ hy))
    by_cases hu : u = ""
    · subst hu
      rw [platformLoop_skip] at he
      exact ih1 w s e he
    · have hs := storyLoop_forall net st quota p u P ids
        (h (p, u) (List.mem_cons_self _ _) hu) 0 w s
      cases herr : (storyLoop net st quota p u ids 0 w s).err with
      | some e1 =>
        rw [platformLoop_abort net st quota ids p u rest w s e1 hu herr] at he
        exact hs e he
      | none =>
        rw [platformLoop_next net st quota ids p u rest w s hu herr] at he
        rcases List.mem_append.1 he with h1 | h1
        · exact hs e h1
        · exact ih1 _ _ e h1

/-! ## Deliveries and records of a trace -/

theorem delivered_append (a b : List Event) : delivered (a ++ b) = delivered a ++ delivered b := by
  simp [delivered, List.filterMap_append]

theorem recorded_append (a b : List Event) : recorded (a ++ b) = recorded a ++ recorded b := by
  simp [recorded, List.filterMap_append]

theorem delivered_attempts {ω : Type} (net : Net ω) (p u m : String) (w : ω) :
    delivered (postToWebhook net p u m w).trace = [] :=
  filterMap_attempts deliveryOf u _ (deliveryOf_attempt u _) _ (postToWebhook_events net p u m w)

theorem recorded_attempts {ω : Type} (net : Net ω) (p u m : String) (w : ω) :
    recorded (postToWebhook net p u m w).trace = [] :=
  filterMap_attempts recordOf u _ (recordOf_attempt u _) _ (postToWebhook_events net p u m w)

/-- An iteration makes one delivery when it ends with `announced`, and none otherwise. -/
theorem processStory_delivered {ω σ : Type} (net : Net ω) (st : Storage σ) (p u : String)
    (id : Int) (w : ω) (s : σ) :
    delivered (processStory net st p u id w s).trace
      = if (processStory net st p u id w s).ctl = Ctl.announced then [(p, id)] else [] := by
  apply processStory_cases net st p u id w s
    (fun r => delivered r.trace = if r.ctl = Ctl.announced then [(p, id)] else [])
  · intro b e s1 _; simp [delivered, deliveryOf]
  · intro s1 _; simp [delivered, deliveryOf]
  · intro s1 e w1 _ _; simp [delivered, deliveryOf]
  · intro s1 story w1 _ _ _; simp [delivered, deliveryOf]
  · intro s1 story w1 e _ _ _ _
    rw [delivered_append, delivered_append, delivered_attempts]
    simp [delivered, deliveryOf]
  · intro s1 story w1 _ _ _ _
    rw [delivered_append, delivered_append, delivered_attempts]
    simp [delivered, deliveryOf]

theorem deliveredTo_append (p : String) (a b : List Event) :
    deliveredTo p (a ++ b) = deliveredTo p a ++ deliveredTo p b := by
  simp [deliveredTo, delivered_append]

theorem recordedFor_append (p : String) (a b : List Event) :
    recordedFor p (a ++ b) = recordedFor p a ++ recordedFor p b := by
  simp [recordedFor, recorded_append]

/-! ## The end of a run that a delivery failure aborts -/

theorem not_follows_failed_post (p : String) (id : Int) (e : Err) (y : Event) :
    ¬ Follows (Event.post p id (some e)) y := by
  cases y <;> simp [Follows]

theorem chain_failed_last (t : List Event) (p : String) (id : Int) (e : Err)
    (hch : List.Chain' Follows t) (h : Event.post p id (some e) ∈ t) :
    ∃ pre, t = pre ++ [Event.post p id (some e)] := by
  obtain ⟨pre, post, rfl⟩ := List.append_of_mem h
  cases post with
  | nil => exact ⟨pre, rfl⟩
  | cons y rest =>
    have h2 := (List.chain'_split.1 hch).2
    exact absurd (List.chain'_cons.1 h2).1 (not_follows_failed_post p id e y)

theorem shape_failed_post (t : List Event) (err : Option Err) (p : String) (id : Int) (e : Err)
    (hs : Shape t err) (h : Event.post p id (some e) ∈ t) : err = some e := by
  obtain ⟨pre, hpre⟩ := chain_failed_last t p id e hs.1 h
  have hlast : t.getLast? = some (Event.post p id (some e)) := by
    rw [hpre, List.getLast?_append]; rfl
  cases herr : err with
  | none =>
    have := hs.2.2.1 herr _ hlast (Event.isPosted "" 0 false none) trivial
    exact absurd this (not_follows_failed_post p id e _)
  | some e1 =>
    obtain ⟨p2, id2, pre2, hpre2⟩ := hs.2.2.2 e1 herr
    have hlast2 : t.getLast? = some (Event.post p2 id2 (some e1)) := by
      rw [hpre2, List.getLast?_append]; rfl
    rw [hlast] at hlast2
    injection hlast2 with h3
    injection h3 with _ _ h4
    injection h4 with h5
    rw [h5]

theorem follows_topStories (ids : List Int) (y : Event) (hy : isCheck y) :
    Follows (Event.topStories (Res.ok ids)) y := by
  cases y <;> simp [isCheck] at hy
  simp [Follows]

/-- In the trace of a run every event is followed by an event that `Follows` allows. -/
theorem fetchAndPostNews_chain {ω σ : Type} (net : Net ω) (st : Storage σ) (config : Config)
    (b : Bool) (w : ω) (s : σ) :
    List.Chain' Follows (fetchAndPostNews net st config b w s).trace := by
  rcases h : net.fetchTopStories w with ⟨r, w1⟩
  cases r with
  | error e =>
    rw [fetchAndPostNews_fetchErr net st config b w s e w1 h]
    exact List.chain'_singleton _
  | ok ids =>
    rw [fetchAndPostNews_ok net st config b w s ids w1 h]
    have hs := platformLoop_shape net st config.FetchTopStoriesAmount ids
      (platforms config b) w1 s
    exact List.chain'_cons'.2 ⟨fun y hy => follows_topStories ids y (hs.2.1 y hy), hs.1⟩

/-! ## C9: payload shape -/

theorem processStory_sends {ω σ : Type} (net : Net ω) (st : Storage σ) (p u : String) (id : Int)
    (w : ω) (s : σ) (u1 : String) (pl : Payload) (r : Res Nat)
    (h : Event.send u1 pl r ∈ (processStory net st p u id w s).trace) :
    ∃ (story : Story), (net.fetchStoryDetails w id).1 = Res.ok story ∧ story.URL ≠ "" ∧
      u1 = u ∧ pl = webhookPayload p (formatMessage p story) := by
  revert h
  apply processStory_cases net st p u id w s
    (fun x => Event.send u1 pl r ∈ x.trace →
      ∃ (story : Story), (net.fetchStoryDetails w id).1 = Res.ok story ∧ story.URL ≠ "" ∧
        u1 = u ∧ pl = webhookPayload p (formatMessage p story))
  · intro b e s1 _ h; simp at h
  · intro s1 _ h; simp at h
  · intro s1 e w1 _ _ h; simp at h
  · intro s1 story w1 _ _ _ h; simp at h
  · intro s1 story w1 e _ hf hu _ h
    simp only [List.cons_append, List.nil_append, List.mem_cons, List.mem_append,
      List.mem_singleton, List.not_mem_nil, or_false, false_or] at h
    rcases h with h | h | h | h
    · cases h
    · cases h
    · have := postToWebhook_events net p u _ w1 _ h
      exact ⟨story, by rw [hf], hu, this.1, this.2⟩
    · cases h
  · intro s1 story w1 _ hf hu _ h
    simp only [List.cons_append, List.nil_append, List.mem_cons, List.mem_append,
      List.mem_singleton, List.not_mem_nil, or_false, false_or] at h
    rcases h with h | h | h | h | h
    · cases h
    · cases h
    · have := postToWebhook_events net p u _ w1 _ h
      exact ⟨story, by rw [hf], hu, this.1, this.2⟩
    · cases h
    · cases h

/-- The last send of a `postToWebhook` call that returns `nil` was answered with 200 or 204,
and everything before it is a send of the same payload to the same URL or a cooldown wait. -/
theorem postAttempts_success {ω : Type} (net : Net ω) (u : String) (pl : Payload) (n : Nat) :
    ∀ (w : ω), (postAttempts net u pl n w).err = none →
      ∃ (attempts : List Event) (r : Res Nat),
        (postAttempts net u pl n w).trace = attempts ++ [Event.send u pl r] ∧ isSuccess r ∧
        ∀ e ∈ attempts, isAttemptOf u pl e := by
  induction n with
  | zero => intro w h; simp [postAttempts] at h
  | succ n ih =>
    intro w h
    by_cases hr : isRateLimited (net.httpPost w u pl).1
    · rw [postAttempts_rateLimited net u pl n w hr] at h ⊢
      obtain ⟨attempts, r, h1, h2, h3⟩ := ih _ h
      refine ⟨Event.send u pl (Res.ok StatusTooManyRequests) :: Event.sleep :: attempts, r,
        ?_, h2, ?_⟩
      · simp only [h1, List.cons_append]
      · intro e he
        simp only [List.mem_cons] at he
        rcases he with rfl | rfl | he
        · exact ⟨rfl, rfl⟩
        · trivial
        · exact h3 e he
    · rcases hp : net.httpPost w u pl with ⟨r, w1⟩
      rw [hp] at hr
      simp only at hr
      cases r with
      | error e => simp [postAttempts, hp] at h
      | ok status =>
        have hs : ¬ status = StatusTooManyRequests := fun e => hr (by rw [e]; rfl)
        by_cases h2 : status ≠ StatusOK ∧ status ≠ StatusNoContent
        · simp [postAttempts, hp, hs, h2] at h
        · refine ⟨[], Res.ok status, ?_, ?_, ?_⟩
          · simp [postAttempts, hp, hs, h2]
          · unfold isSuccess
            simp only [Res.ok.injEq]
            omega
          · intro e he; cases he

theorem append_cons_unique {α : Type} (y : α) (A : List α) :
    ∀ (before B after : List α) (x : α), y ∉ A → y ∉ B →
      A ++ x :: B = before ++ y :: after → before = A ∧ x = y ∧ B = after := by
  induction A with
  | nil =>
    intro before B after x _ hB h
    cases before with
    | nil =>
      simp only [List.nil_append, List.cons.injEq] at h
      exact ⟨rfl, h.1, h.2⟩
    | cons z before1 =>
      simp only [List.nil_append, List.cons_append, List.cons.injEq] at h
      exact absurd (by rw [h.2]; simp) hB
  | cons a A1 ih =>
    intro before B after x hA hB h
    cases before with
    | nil =>
      simp only [List.nil_append, List.cons_append, List.cons.injEq] at h
      exact absurd (by rw [h.1]; simp) hA
    | cons z before1 =>
      simp only [List.cons_append, List.cons.injEq] at h
      obtain ⟨h1, h2, h3⟩ :=
        ih before1 B after x (fun hm => hA (List.mem_cons_of_mem _ hm)) hB h.2
      exact ⟨by rw [h.1, h1], h2, h3⟩

/-- What holds before every occurrence of an event in two traces holds before every
occurrence of it in the two traces joined. -/
theorem before_append (Q : List Event → Prop) (x : Event) (a c : List Event)
    (ha : ∀ before after, a = before ++ x :: after → Q before)
    (hc : ∀ before after, c = before ++ x :: after → Q (a ++ before)) :
    ∀ before after, a ++ c = before ++ x :: after → Q before := by
  intro before after h
  rcases List.append_eq_append_iff.1 h with ⟨a1, h1, h2⟩ | ⟨c1, h1, h2⟩
  · rw [h1]; exact hc a1 after h2
  · cases c1 with
    | nil =>
      simp only [List.append_nil, List.nil_append] at h1 h2
      have := hc [] after h2.symm
      rw [List.append_nil, h1] at this
      exact this
    | cons z c2 =>
      simp only [List.cons_append, List.cons.injEq] at h2
      rw [← h2.1] at h1
      exact ha before c2 h1

theorem SentBefore_prefix (p u : String) (id : Int) (a t : List Event)
    (h : SentBefore p u id t) : SentBefore p u id (a ++ t) := by
  obtain ⟨story, pre, attempts, r, h1, h2, h3, h4⟩ := h
  exact ⟨story, a ++ pre, attempts, r, by rw [h1, List.append_assoc], h2, h3, h4⟩

/-- In an iteration, the return of a delivery is the return of the delivery of the story of
the iteration to the platform of the iteration, and it comes right after the fetch of the
details of that story and the sends of its payload, the last of which succeeded. -/
theorem processStory_before_post {ω σ : Type} (net : Net ω) (st : Storage σ) (p u : String)
    (id : Int) (w : ω) (s : σ) (p1 : String) (id1 : Int) :
    ∀ before after,
      (processStory net st p u id w s).trace = before ++ Event.post p1 id1 none :: after →
      p1 = p ∧ id1 = id ∧ SentBefore p u id before := by
  apply processStory_cases net st p u id w s
    (fun r => ∀ before after, r.trace = before ++ Event.post p1 id1 none :: after →
      p1 = p ∧ id1 = id ∧ SentBefore p u id before)
  · intro b e s1 _ before after h
    dsimp only at h
    have hm : Event.post p1 id1 none ∈ [Event.isPosted p id b (some e)] := by
      rw [h]; simp
    simp at hm
  · intro s1 _ before after h
    dsimp only at h
    have hm : Event.post p1 id1 none ∈ [Event.isPosted p id true none] := by
      rw [h]; simp
    simp at hm
  · intro s1 e w1 _ _ before after h
    dsimp only at h
    have hm : Event.post p1 id1 none
        ∈ [Event.isPosted p id false none, Event.details id (Res.error e)] := by
      rw [h]; simp
    simp at hm
  · intro s1 story w1 _ _ _ before after h
    dsimp only at h
    have hm : Event.post p1 id1 none
        ∈ [Event.isPosted p id false none, Event.details id (Res.ok story)] := by
      rw [h]; simp
    simp at hm
  · intro s1 story w1 e _ _ _ _ before after h
    dsimp only at h
    have hm : Event.post p1 id1 none
        ∈ [Event.isPosted p id false none, Event.details id (Res.ok story)]
          ++ (postToWebhook net p u (formatMessage p story) w1).trace
          ++ [Event.post p id (some e)] := by
      rw [h]; simp
    simp only [List.cons_append, List.nil_append, List.mem_cons, List.mem_append,
      List.mem_singleton, List.not_mem_nil, or_false, false_or] at hm
    rcases hm with hm | hm | hm | hm
    · cases hm
    · cases hm
    · have := postToWebhook_events net p u _ w1 _ hm
      simp [isAttemptOf] at this
    · cases hm
  · intro s1 story w1 _ _ hu hperr before after h
    dsimp only at h
    obtain ⟨attempts, r, h1, h2, h3⟩ :=
      postAttempts_success net u (webhookPayload p (formatMessage p story)) 3 w1 hperr
    have h1a : (postToWebhook net p u (formatMessage p story) w1).trace
        = attempts ++ [Event.send u (webhookPayload p (formatMessage p story)) r] := h1
    rw [h1a] at h
    have hA : Event.post p1 id1 none ∉
        Event.isPosted p id false none :: Event.details id (Res.ok story) ::
          (attempts ++ [Event.send u (webhookPayload p (formatMessage p story)) r]) := by
      intro hm
      simp only [List.mem_cons, List.mem_append, List.mem_singleton, List.not_mem_nil,
        or_false, false_or] at hm
      rcases hm with hm | hm | hm | hm
      · cases hm
      · cases hm
      · have := h3 _ hm
        simp [isAttemptOf] at this
      · cases hm
    have hB : Event.post p1 id1 none ∉ [Event.save p id (st.SavePostedStory s1 p (Itoa id)).1] := by
      simp
    obtain ⟨e1, e2, _⟩ := append_cons_unique (Event.post p1 id1 none) _ before _ after
      (Event.post p id none) hA hB (by simpa using h)
    simp only [Event.post.injEq, and_true] at e2
    refine ⟨e2.1.symm, e2.2.symm, story, [Event.isPosted p id false none], attempts, r, ?_,
      hu, h2, h3⟩
    rw [e1]
    rfl

/-- In the loop over the story IDs of a platform, every return of a delivery is the return
of a delivery to that platform and comes right after the fetch of the details of the
delivered story and the sends of its payload, the last of which succeeded. -/
theorem storyLoop_before_post {ω σ : Type} (net : Net ω) (st : Storage σ) (quota : Int)
    (p u : String) (p1 : String) (id1 : Int) (ids : List Int) :
    ∀ (found : Int) (w : ω) (s : σ) (before after : List Event),
      (storyLoop net st quota p u ids found w s).trace
        = before ++ Event.post p1 id1 none :: after →
      p1 = p ∧ SentBefore p u id1 before := by
  induction ids with
  | nil => intro found w s before after h; simp [storyLoop] at h
  | cons id rest ih =>
    intro found w s before after h
    by_cases hq : found ≥ quota
    · rw [storyLoop_quota net st quota p u _ found w s hq] at h
      simp at h
    · have hstep : ∀ before after,
          (processStory net st p u id w s).trace = before ++ Event.post p1 id1 none :: after →
          p1 = p ∧ SentBefore p u id1 before := by
        intro b a hb
        obtain ⟨e1, e2, e3⟩ := processStory_before_post net st p u id w s p1 id1 b a hb
        rw [e2]
        exact ⟨e1, e3⟩
      cases hc : (processStory net st p u id w s).ctl with
      | abort e =>
        rw [storyLoop_abort net st quota p u id rest found w s e hq hc] at h
        exact hstep _ _ h
      | skipped =>
        rw [storyLoop_skipped net st quota p u id rest found w s hq hc] at h
        refine before_append (fun t => p1 = p ∧ SentBefore p u id1 t) _ _ _ hstep ?_
          before after h
        intro b a hb
        obtain ⟨e1, e2⟩ := ih _ _ _ b a hb
        exact ⟨e1, SentBefore_prefix p u id1 _ b e2⟩
      | announced =>
        rw [storyLoop_announced net st quota p u id rest found w s hq hc] at h
        refine before_append (fun t => p1 = p ∧ SentBefore p u id1 t) _ _ _ hstep ?_
          before after h
        intro b a hb
        obtain ⟨e1, e2⟩ := ih _ _ _ b a hb
        exact ⟨e1, SentBefore_prefix p u id1 _ b e2⟩

/-- In the loop over the platforms, every return of a delivery comes right after the fetch of
the details of the delivered story and the sends of its payload to the webhook URL of the
platform, the last of which succeeded. -/
theorem platformLoop_before_post {ω σ : Type} (net : Net ω) (st : Storage σ) (quota : Int)
    (ids : List Int) (p1 : String) (id1 : Int) (plats : List (String × String)) :
    ∀ (w : ω) (s : σ) (before after : List Event),
      (platformLoop net st quota ids plats w s).trace
        = before ++ Event.post p1 id1 none :: after →
      ∃ u, (p1, u) ∈ plats ∧ SentBefore p1 u id1 before := by
  induction plats with
  | nil => intro w s before after h; simp [platformLoop] at h
  | cons x rest ih =>
    intro w s before after h
    obtain ⟨p, u⟩ := x
    by_cases hu : u = ""
    · subst hu
      rw [platformLoop_skip] at h
      obtain ⟨u1, h1, h2⟩ := ih w s before after h
      exact ⟨u1, List.mem_cons_of_mem _ h1, h2⟩
    · have hs : ∀ before after,
          (storyLoop net st quota p u ids 0 w s).trace
            = before ++ Event.post p1 id1 none :: after →
          ∃ u1, (p1, u1) ∈ (p, u) :: rest ∧ SentBefore p1 u1 id1 before := by
        intro b a hb
        obtain ⟨e1, e2⟩ := storyLoop_before_post net st quota p u p1 id1 ids 0 w s b a hb
        subst e1
        exact ⟨u, List.mem_cons_self _ _, e2⟩
      cases herr : (storyLoop net st quota p u ids 0 w s).err with
      | some e1 =>
        rw [platformLoop_abort net st quota ids p u rest w s e1 hu herr] at h
        exact hs _ _ h
      | none =>
        rw [platformLoop_next net st quota ids p u rest w s hu herr] at h
        refine before_append
          (fun t => ∃ u1, (p1, u1) ∈ (p, u) :: rest ∧ SentBefore p1 u1 id1 t) _ _ _ hs ?_
          before after h
        intro b a hb
        obtain ⟨u1, h1, h2⟩ := ih _ _ b a hb
        exact ⟨u1, List.mem_cons_of_mem _ h1, SentBefore_prefix p1 u1 id1 _ b h2⟩

/-- A trace that replays can be cut anywhere: the first part replays to a world and a
storage from which the second part replays. -/
theorem Replays_split {ω σ : Type} (net : Net ω) (st : Storage σ) (a b : List Event) :
    ∀ (w : ω) (s : σ) (w2 : ω) (s2 : σ), Replays net st w s (a ++ b) w2 s2 →
      ∃ w1 s1, Replays net st w s a w1 s1 ∧ Replays net st w1 s1 b w2 s2 := by
  induction a with
  | nil =>
    intro w s w2 s2 h
    exact ⟨w, s, by simp [Replays], h⟩
  | cons x t ih =>
    intro w s w2 s2 h
    cases x <;> simp only [List.cons_append, Replays] at h ⊢
    · obtain ⟨w1, s1, h1, h2⟩ := ih _ _ _ _ h.2
      exact ⟨w1, s1, ⟨h.1, h1⟩, h2⟩
    · obtain ⟨w1, s1, h1, h2⟩ := ih _ _ _ _ h.2
      exact ⟨w1, s1, ⟨h.1, h1⟩, h2⟩
    · obtain ⟨w1, s1, h1, h2⟩ := ih _ _ _ _ h.2
      exact ⟨w1, s1, ⟨h.1, h1⟩, h2⟩
    · obtain ⟨w1, s1, h1, h2⟩ := ih _ _ _ _ h.2
      exact ⟨w1, s1, ⟨h.1, h1⟩, h2⟩
    · exact ih _ _ _ _ h
    · exact ih _ _ _ _ h
    · obtain ⟨w1, s1, h1, h2⟩ := ih _ _ _ _ h.2
      exact ⟨w1, s1, ⟨h.1, h1⟩, h2⟩

/-- In a run, every return of a delivery comes right after the fetch of the details of the
delivered story and the sends of its payload to the webhook URL of the platform, the last of
which succeeded. -/
theorem fetchAndPostNews_before_post {ω σ : Type} (net : Net ω) (st : Storage σ)
    (config : Config) (b : Bool) (w : ω) (s : σ) (p : String) (id : Int)
    (before after : List Event)
    (h : (fetchAndPostNews net st config b w s).trace = before ++ Event.post p id none :: after) :
    ∃ u, (p, u) ∈ platforms config b ∧ SentBefore p u id before := by
  rcases hf : net.fetchTopStories w with ⟨res, w1⟩
  cases res with
  | error e =>
    rw [fetchAndPostNews_fetchErr net st config b w s e w1 hf] at h
    dsimp only at h
    have hm : Event.post p id none ∈ [Event.topStories (Res.error e)] := by
      rw [h]; simp
    simp at hm
  | ok ids =>
    rw [fetchAndPostNews_ok net st config b w s ids w1 hf] at h
    refine before_append (fun t => ∃ u, (p, u) ∈ platforms config b ∧ SentBefore p u id t)
      (Event.post p id none) [Event.topStories (Res.ok ids)] _ ?_ ?_ before after h
    · intro b1 a1 h1
      have hm : Event.post p id none ∈ [Event.topStories (Res.ok ids)] := by
        rw [h1]; simp
      simp at hm
    · intro b1 a1 h1
      obtain ⟨u, h2, h3⟩ := platformLoop_before_post net st _ ids p id _ w1 s b1 a1 h1
      exact ⟨u, h2, SentBefore_prefix p u id _ b1 h3⟩

/-- C9. Payload shape per channel. In the trace of a run, the return of every successful
delivery of a story `id` to a platform `p` comes right after the fetch of the details of `id`,
which returned a story with a non-empty URL, followed by nothing but sends of one payload to
the webhook URL of `p` and cooldown waits, the last of them a send that was answered with 200
or 204: so every delivered story has a send, and that send carries the payload of this story.
The payload is, for `discord`, the two fields `content` (the markdown link to the story and
the link to the discussion of the story's ID) and `username`, and for every other platform
the one field `text`, title and URL with a line feed between them. The fetch and the
successful send are calls that the run made: the trace before each of them replays to the
world in which the call returns the recorded result. Besides, every send of a run goes to the
webhook of a channel of the configuration and carries the payload of that channel for a story
that `fetchStoryDetails` returned with a non-empty URL. -/
theorem payload_shape {ω σ : Type} (net : Net ω) (st : Storage σ) (config : Config) (b : Bool)
    (w : ω) (s : σ) :
    (∀ (p : String) (id : Int) (before after : List Event),
      (fetchAndPostNews net st config b w s).trace = before ++ Event.post p id none :: after →
      ∃ (u : String) (story : Story) (pl : Payload) (pre attempts : List Event) (r : Res Nat)
          (w1 w2 : ω) (s1 s2 : σ),
        (p, u) ∈ platforms config b ∧ story.URL ≠ "" ∧
        pl = (if p = "discord" then
            [("content", "[**" ++ story.Title ++ "**](" ++ story.URL
                ++ ")    [(comment)](https://news.ycombinator.com/item?id=" ++ Itoa story.ID
                ++ ")"),
              ("username", "Hacker News Bot")]
          else [("text", story.Title ++ "\n" ++ story.URL)]) ∧
        before = pre ++ Event.details id (Res.ok story) :: (attempts ++ [Event.send u pl r]) ∧
        Replays net st w s pre w1 s1 ∧ (net.fetchStoryDetails w1 id).1 = Res.ok story ∧
        Replays net st w s (pre ++ Event.details id (Res.ok story) :: attempts) w2 s2 ∧
        (net.httpPost w2 u pl).1 = r ∧ isSuccess r ∧
        ∀ e ∈ attempts, isAttemptOf u pl e) ∧
    (∀ (u : String) (pl : Payload) (r : Res Nat),
      Event.send u pl r ∈ (fetchAndPostNews net st config b w s).trace →
      ∃ (platform : String) (id : Int) (story : Story) (w1 : ω),
        (platform, u) ∈ platforms config b ∧
        (net.fetchStoryDetails w1 id).1 = Res.ok story ∧ story.URL ≠ "" ∧
        pl = webhookPayload platform (formatMessage platform story)) ∧
    (∀ story : Story,
      webhookPayload "discord" (formatMessage "discord" story)
        = [("content", "[**" ++ story.Title ++ "**](" ++ story.URL
              ++ ")    [(comment)](https://news.ycombinator.com/item?id=" ++ Itoa story.ID ++ ")"),
            ("username", "Hacker News Bot")]) ∧
    (∀ (platform : String) (story : Story), platform ≠ "discord" →
      webhookPayload platform (formatMessage platform story)
        = [("text", story.Title ++ "\n" ++ story.URL)]) := by
  have hdiscord : ∀ story : Story,
      webhookPayload "discord" (formatMessage "discord" story)
        = [("content", "[**" ++ story.Title ++ "**](" ++ story.URL
              ++ ")    [(comment)](https://news.ycombinator.com/item?id=" ++ Itoa story.ID ++ ")"),
            ("username", "Hacker News Bot")] := by
    intro story
    simp only [webhookPayload, formatMessage, if_true, String.append_assoc]
    rfl
  have hother : ∀ (platform : String) (story : Story), platform ≠ "discord" →
      webhookPayload platform (formatMessage platform story)
        = [("text", story.Title ++ "\n" ++ story.URL)] := by
    intro platform story hp
    simp only [webhookPayload, formatMessage, hp, if_false]
  refine ⟨?_, ?_, hdiscord, hother⟩
  · intro p id before after h
    obtain ⟨u, hmem, story, pre, attempts, r, h1, h2, h3, h4⟩ :=
      fetchAndPostNews_before_post net st config b w s p id before after h
    subst h1
    have hrep := fetchAndPostNews_replays net st config b w s
    rw [h] at hrep
    have e1 : (pre ++ Event.details id (Res.ok story) ::
          (attempts ++ [Event.send u (webhookPayload p (formatMessage p story)) r]))
          ++ Event.post p id none :: after
        = pre ++ (Event.details id (Res.ok story) ::
          (attempts ++ [Event.send u (webhookPayload p (formatMessage p story)) r]
            ++ Event.post p id none :: after)) := by simp
    have e2 : (pre ++ Event.details id (Res.ok story) ::
          (attempts ++ [Event.send u (webhookPayload p (formatMessage p story)) r]))
          ++ Event.post p id none :: after
        = (pre ++ Event.details id (Res.ok story) :: attempts)
          ++ (Event.send u (webhookPayload p (formatMessage p story)) r
            :: Event.post p id none :: after) := by simp
    have hrep1 := hrep
    rw [e1] at hrep1
    rw [e2] at hrep
    obtain ⟨w1, s1, r1, r2⟩ := Replays_split net st _ _ w s _ _ hrep1
    obtain ⟨w2, s2, r3, r4⟩ := Replays_split net st _ _ w s _ _ hrep
    simp only [Replays] at r2 r4
    refine ⟨u, story, webhookPayload p (formatMessage p story), pre, attempts, r, w1, w2, s1,
      s2, hmem, h2, ?_, rfl, r1, r2.1, r3, r4.1, h3, h4⟩
    by_cases hp : p = "discord"
    · subst hp
      rw [if_pos rfl]
      exact hdiscord story
    · rw [if_neg hp]
      exact hother p story hp
  · intro u pl r h
    rcases hf : net.fetchTopStories w with ⟨res, w1⟩
    cases res with
    | error e =>
      rw [fetchAndPostNews_fetchErr net st config b w s e w1 hf] at h
      simp at h
    | ok ids =>
      rw [fetchAndPostNews_ok net st config b w s ids w1 hf] at h
      simp only [List.mem_cons] at h
      rcases h with h | h
      · cases h
      · have := platformLoop_forall net st config.FetchTopStoriesAmount ids
          (fun e => ∀ (u : String) (pl : Payload) (r : Res Nat), e = Event.send u pl r →
            ∃ (platform : String) (id : Int) (story : Story) (w1 : ω),
              (platform, u) ∈ platforms config b ∧
              (net.fetchStoryDetails w1 id).1 = Res.ok story ∧ story.URL ≠ "" ∧
              pl = webhookPayload platform (formatMessage platform story))
          (platforms config b) ?_ w1 s _ h u pl r rfl
        · exact this
        · intro x hx _ id _ w2 s2 e he u2 pl2 r2 heq
          subst heq
          obtain ⟨story, h1, h2, h3, h4⟩ :=
            processStory_sends net st x.1 x.2 id w2 s2 u2 pl2 r2 he
          subst h3
          exact ⟨x.1, id, story, w2, hx, h1, h2, h4⟩

theorem payload_shape_witness :
    (∃ (u : String) (story : Story) (pl : Payload) (pre attempts : List Event) (r : Res Nat)
        (w1 w2 : List (Res Nat)) (s1 s2 : Files),
      ("discord", u) ∈ platforms bothChannels true ∧ story.URL ≠ "" ∧
      pl = (if "discord" = "discord" then
          [("content", "[**" ++ story.Title ++ "**](" ++ story.URL
              ++ ")    [(comment)](https://news.ycombinator.com/item?id=" ++ Itoa story.ID
              ++ ")"),
            ("username", "Hacker News Bot")]
        else [("text", story.Title ++ "\n" ++ story.URL)]) ∧
      [Event.topStories (Res.ok [1, 2, 3]), Event.isPosted "discord" 1 false none,
        Event.details 1 (Res.ok ⟨1, "A", "http://a"⟩),
        Event.send "https://discord.example/hook"
          [("content", "[**A**](http://a)    [(comment)](https://news.ycombinator.com/item?id=1)"),
            ("username", "Hacker News Bot")] (Res.ok 429),
        Event.sleep,
        Event.send "https://discord.example/hook"
          [("content", "[**A**](http://a)    [(comment)](https://news.ycombinator.com/item?id=1)"),
            ("username", "Hacker News Bot")] (Res.ok 200)]
        = pre ++ Event.details 1 (Res.ok story) :: (attempts ++ [Event.send u pl r]) ∧
      Replays (scriptedNet (Res.ok [1, 2, 3]) scenarioDetails) (fileStorage newFileStorage)
        [Res.ok 429] emptyFiles pre w1 s1 ∧
      ((scriptedNet (Res.ok [1, 2, 3]) scenarioDetails).fetchStoryDetails w1 1).1
        = Res.ok story ∧
      Replays (scriptedNet (Res.ok [1, 2, 3]) scenarioDetails) (fileStorage newFileStorage)
        [Res.ok 429] emptyFiles (pre ++ Event.details 1 (Res.ok story) :: attempts) w2 s2 ∧
      ((scriptedNet (Res.ok [1, 2, 3]) scenarioDetails).httpPost w2 u pl).1 = r ∧
      isSuccess r ∧ ∀ e ∈ attempts, isAttemptOf u pl e) ∧
    (∃ (u : String) (story : Story) (pl : Payload) (pre attempts : List Event) (r : Res Nat)
        (w1 w2 : List (Res Nat)) (s1 s2 : Files),
      ("slack", u) ∈ platforms bothChannels true ∧ story.URL ≠ "" ∧
      pl = (if "slack" = "discord" then
          [("content", "[**" ++ story.Title ++ "**](" ++ story.URL
              ++ ")    [(comment)](https://news.ycombinator.com/item?id=" ++ Itoa story.ID
              ++ ")"),
            ("username", "Hacker News Bot")]
        else [("text", story.Title ++ "\n" ++ story.URL)]) ∧
      (fetchAndPostNews (scriptedNet (Res.ok [1, 2, 3]) scenarioDetails)
          (fileStorage newFileStorage) bothChannels true [Res.ok 429] emptyFiles).trace.take 18
        = pre ++ Event.details 1 (Res.ok story) :: (attempts ++ [Event.send u pl r]) ∧
      Replays (scriptedNet (Res.ok [1, 2, 3]) scenarioDetails) (fileStorage newFileStorage)
        [Res.ok 429] emptyFiles pre w1 s1 ∧
      ((scriptedNet (Res.ok [1, 2, 3]) scenarioDetails).fetchStoryDetails w1 1).1
        = Res.ok story ∧
      Replays (scriptedNet (Res.ok [1, 2, 3]) scenarioDetails) (fileStorage newFileStorage)
        [Res.ok 429] emptyFiles (pre ++ Event.details 1 (Res.ok story) :: attempts) w2 s2 ∧
      ((scriptedNet (Res.ok [1, 2, 3]) scenarioDetails).httpPost w2 u pl).1 = r ∧
      isSuccess r ∧ ∀ e ∈ attempts, isAttemptOf u pl e) :=
  ⟨(payload_shape (scriptedNet (Res.ok [1, 2, 3]) scenarioDetails) (fileStorage newFileStorage)
      bothChannels true [Res.ok 429] emptyFiles).1 "discord" 1 _
      ((fetchAndPostNews (scriptedNet (Res.ok [1, 2, 3]) scenarioDetails)
        (fileStorage newFileStorage) bothChannels true [Res.ok 429] emptyFiles).trace.drop 7)
      (by decide),
    (payload_shape (scriptedNet (Res.ok [1, 2, 3]) scenarioDetails) (fileStorage newFileStorage)
      bothChannels true [Res.ok 429] emptyFiles).1 "slack" 1 _
      ((fetchAndPostNews (scriptedNet (Res.ok [1, 2, 3]) scenarioDetails)
        (fileStorage newFileStorage) bothChannels true [Res.ok 429] emptyFiles).trace.drop 19)
      (by decide)⟩

/-! ## C5: stories without a URL -/

theorem deliveryOf_eq_some (e : Event) (p : String) (id : Int) :
    deliveryOf e = some (p, id) ↔ e = Event.post p id none := by
  cases e with
  | post p1 id1 oe =>
    cases oe with
    | none => simp [deliveryOf]
    | some e1 => simp [deliveryOf]
  | _ => simp [deliveryOf]

theorem recordOf_eq_some (e : Event) (p : String) (id : Int) :
    recordOf e = some (p, id) ↔ e = Event.save p id none := by
  cases e with
  | save p1 id1 oe =>
    cases oe with
    | none => simp [recordOf]
    | some e1 => simp [recordOf]
  | _ => simp [recordOf]

theorem mem_delivered (t : List Event) (p : String) (id : Int) :
    (p, id) ∈ delivered t ↔ Event.post p id none ∈ t := by
  simp only [delivered, List.mem_filterMap, deliveryOf_eq_some]
  constructor
  · rintro ⟨e, he, rfl⟩; exact he
  · intro h; exact ⟨_, h, rfl⟩

/-- The events of an iteration that are about a platform and a story are about the platform
and the story of the iteration. -/
theorem processStory_keys {ω σ : Type} (net : Net ω) (st : Storage σ) (p u : String) (id : Int)
    (w : ω) (s : σ) :
    ∀ e ∈ (processStory net st p u id w s).trace, ∀ k ∈ eventKey e, k = (p, id) := by
  apply processStory_cases net st p u id w s
    (fun r => ∀ e ∈ r.trace, ∀ k ∈ eventKey e, k = (p, id))
  · intro b e s1 _ x hx k hk
    simp only [List.mem_singleton] at hx
    subst hx
    simpa [eventKey, eq_comm] using hk
  · intro s1 _ x hx k hk
    simp only [List.mem_singleton] at hx
    subst hx
    simpa [eventKey, eq_comm] using hk
  · intro s1 e w1 _ _ x hx k hk
    simp only [List.mem_cons, List.mem_singleton, List.not_mem_nil, or_false] at hx
    rcases hx with rfl | rfl
    · simpa [eventKey, eq_comm] using hk
    · simp [eventKey] at hk
  · intro s1 story w1 _ _ _ x hx k hk
    simp only [List.mem_cons, List.mem_singleton, List.not_mem_nil, or_false] at hx
    rcases hx with rfl | rfl
    · simpa [eventKey, eq_comm] using hk
    · simp [eventKey] at hk
  · intro s1 story w1 e _ _ _ _ x hx k hk
    simp only [List.cons_append, List.nil_append, List.mem_cons, List.mem_append,
      List.mem_singleton, List.not_mem_nil, or_false] at hx
    rcases hx with rfl | rfl | hx | rfl
    · simpa [eventKey, eq_comm] using hk
    · simp [eventKey] at hk
    · rw [eventKey_attempt u _ x (postToWebhook_events net p u _ w1 x hx)] at hk
      simp at hk
    · simpa [eventKey, eq_comm] using hk
  · intro s1 story w1 _ _ _ _ x hx k hk
    simp only [List.cons_append, List.nil_append, List.mem_cons, List.mem_append,
      List.mem_singleton, List.not_mem_nil, or_false] at hx
    rcases hx with rfl | rfl | hx | rfl | rfl
    · simpa [eventKey, eq_comm] using hk
    · simp [eventKey] at hk
    · rw [eventKey_attempt u _ x (postToWebhook_events net p u _ w1 x hx)] at hk
      simp at hk
    · simpa [eventKey, eq_comm] using hk
    · simpa [eventKey, eq_comm] using hk

/-- An iteration delivers or records only on a fetch that returned a story with a URL. -/
theorem processStory_announces {ω σ : Type} (net : Net ω) (st : Storage σ) (p u : String)
    (id : Int) (w : ω) (s : σ) (e : Event)
    (he : e ∈ (processStory net st p u id w s).trace)
    (h : (∃ oe, e = Event.post p id oe) ∨ (∃ oe, e = Event.save p id oe)) :
    ∃ story, (net.fetchStoryDetails w id).1 = Res.ok story ∧ story.URL ≠ "" := by
  revert he
  apply processStory_cases net st p u id w s
    (fun r => e ∈ r.trace →
      ∃ story, (net.fetchStoryDetails w id).1 = Res.ok story ∧ story.URL ≠ "")
  · intro b e1 s1 _ he
    simp only [List.mem_singleton] at he
    subst he
    rcases h with ⟨oe, h⟩ | ⟨oe, h⟩ <;> cases h
  · intro s1 _ he
    simp only [List.mem_singleton] at he
    subst he
    rcases h with ⟨oe, h⟩ | ⟨oe, h⟩ <;> cases h
  · intro s1 e1 w1 _ _ he
    simp only [List.mem_cons, List.mem_singleton, List.not_mem_nil, or_false] at he
    rcases he with rfl | rfl <;> rcases h with ⟨oe, h⟩ | ⟨oe, h⟩ <;> cases h
  · intro s1 story w1 _ _ _ he
    simp only [List.mem_cons, List.mem_singleton, List.not_mem_nil, or_false] at he
    rcases he with rfl | rfl <;> rcases h with ⟨oe, h⟩ | ⟨oe, h⟩ <;> cases h
  · intro s1 story w1 e1 _ hf hu _ _
    exact ⟨story, by rw [hf], hu⟩
  · intro s1 story w1 _ hf hu _ _
    exact ⟨story, by rw [hf], hu⟩

theorem processStory_noURL {ω σ : Type} (net : Net ω) (st : Storage σ) (p u : String)
    (id : Int) (w : ω) (s s1 : σ) (story : Story) (w1 : ω)
    (hc : st.IsStoryPosted s p (Itoa id) = ((false, none), s1))
    (hf : net.fetchStoryDetails w id = (Res.ok story, w1)) (hu : story.URL = "") :
    processStory net st p u id w s
      = ⟨Ctl.skipped, w1, s1,
          [Event.isPosted p id false none, Event.details id (Res.ok story)]⟩ := by
  simp only [processStory, hc, hf, hu, if_true]

theorem run_never_announces {ω σ : Type} (net : Net ω) (st : Storage σ) (config : Config)
    (b : Bool) (w : ω) (s : σ) (id : Int)
    (h : ∀ (w1 : ω) (story : Story),
      (net.fetchStoryDetails w1 id).1 = Res.ok story → story.URL = "") :
    ∀ (p : String) (oe : Option Err),
      Event.post p id oe ∉ (fetchAndPostNews net st config b w s).trace ∧
        Event.save p id oe ∉ (fetchAndPostNews net st config b w s).trace := by
  have key : ∀ e ∈ (fetchAndPostNews net st config b w s).trace,
      ∀ (p : String) (oe : Option Err), e ≠ Event.post p id oe ∧ e ≠ Event.save p id oe := by
    intro e he
    rcases hf : net.fetchTopStories w with ⟨res, w1⟩
    cases res with
    | error e1 =>
      rw [fetchAndPostNews_fetchErr net st config b w s e1 w1 hf] at he
      simp only [List.mem_singleton] at he
      subst he
      intro p oe
      exact ⟨fun h => (by cases h), fun h => (by cases h)⟩
    | ok ids =>
      rw [fetchAndPostNews_ok net st config b w s ids w1 hf] at he
      simp only [List.mem_cons] at he
      rcases he with he | he
      · subst he
        intro p oe
        exact ⟨fun h => (by cases h), fun h => (by cases h)⟩
      · refine platformLoop_forall net st config.FetchTopStoriesAmount ids
          (fun e => ∀ (p : String) (oe : Option Err),
            e ≠ Event.post p id oe ∧ e ≠ Event.save p id oe)
          (platforms config b) ?_ w1 s e he
        intro x _ _ id1 _ w2 s2 e2 he2 p oe
        have hk := processStory_keys net st x.1 x.2 id1 w2 s2 e2 he2
        constructor
        · intro heq
          subst heq
          have h1 := hk (p, id) rfl
          injection h1 with hp hid
          subst hp; subst hid
          obtain ⟨story, hs1, hs2⟩ := processStory_announces net st x.1 x.2 id w2 s2 _ he2
            (Or.inl ⟨oe, rfl⟩)
          exact hs2 (h w2 story hs1)
        · intro heq
          subst heq
          have h1 := hk (p, id) rfl
          injection h1 with hp hid
          subst hp; subst hid
          obtain ⟨story, hs1, hs2⟩ := processStory_announces net st x.1 x.2 id w2 s2 _ he2
            (Or.inr ⟨oe, rfl⟩)
          exact hs2 (h w2 story hs1)
  intro p oe
  exact ⟨fun hm => (key _ hm p oe).1 rfl, fun hm => (key _ hm p oe).2 rfl⟩

/-- C5. Stories without a URL are never announced. For every network, storage, platform and
state: (1) an iteration whose fetched detail has an empty URL makes no send and no save and
goes on with the next ID with the same count of new stories; (2) in a run, a story whose
detail fetch never returns a URL is the subject of no `postToWebhook` call and of no
`SavePostedStory` call, for no platform; (3) in the scenario `[1,2,3]` with the URLs
`http://a`, none and `http://b`, quota 5 and fresh channels, exactly the stories 1 and 3 are
delivered and recorded, story 2 is not posted according to the storage afterwards, and the
next run tests story 2 again, fetches it again and skips it for its empty URL. -/
theorem no_url_never_announced {ω σ : Type} (net : Net ω) (st : Storage σ) :
    (∀ (quota : Int) (p u : String) (id : Int) (rest : List Int) (found : Int) (w : ω)
        (s s1 : σ) (story : Story) (w1 : ω),
      found < quota →
      st.IsStoryPosted s p (Itoa id) = ((false, none), s1) →
      net.fetchStoryDetails w id = (Res.ok story, w1) → story.URL = "" →
      storyLoop net st quota p u (id :: rest) found w s
        = ⟨(storyLoop net st quota p u rest found w1 s1).err,
            (storyLoop net st quota p u rest found w1 s1).w,
            (storyLoop net st quota p u rest found w1 s1).s,
            [Event.isPosted p id false none, Event.details id (Res.ok story)]
              ++ (storyLoop net st quota p u rest found w1 s1).trace⟩) ∧
    (∀ (config : Config) (b : Bool) (w : ω) (s : σ) (id : Int),
      (∀ (w1 : ω) (story : Story),
        (net.fetchStoryDetails w1 id).1 = Res.ok story → story.URL = "") →
      ∀ (p : String) (oe : Option Err),
        Event.post p id oe ∉ (fetchAndPostNews net st config b w s).trace ∧
          Event.save p id oe ∉ (fetchAndPostNews net st config b w s).trace) ∧
    (delivered (fetchAndPostNews (scriptedNet (Res.ok [1, 2, 3]) scenarioDetails)
        (fileStorage newFileStorage) bothChannels true [] emptyFiles).trace
        = [("discord", 1), ("discord", 3), ("slack", 1), ("slack", 3)] ∧
      recorded (fetchAndPostNews (scriptedNet (Res.ok [1, 2, 3]) scenarioDetails)
        (fileStorage newFileStorage) bothChannels true [] emptyFiles).trace
        = [("discord", 1), ("discord", 3), ("slack", 1), ("slack", 3)] ∧
      ((fileStorage newFileStorage).IsStoryPosted
        (fetchAndPostNews (scriptedNet (Res.ok [1, 2, 3]) scenarioDetails)
          (fileStorage newFileStorage) bothChannels true [] emptyFiles).s
        "discord" (Itoa 2)).1 = (false, none) ∧
      (fetchAndPostNews (scriptedNet (Res.ok [1, 2, 3]) scenarioDetails)
        (fileStorage newFileStorage) bothChannels true []
        (fetchAndPostNews (scriptedNet (Res.ok [1, 2, 3]) scenarioDetails)
          (fileStorage newFileStorage) bothChannels true [] emptyFiles).s).trace
        = [Event.topStories (Res.ok [1, 2, 3]),
            Event.isPosted "discord" 1 true none,
            Event.isPosted "discord" 2 false none,
            Event.details 2 (Res.ok ⟨2, "B", ""⟩),
            Event.isPosted "discord" 3 true none,
            Event.isPosted "slack" 1 true none,
            Event.isPosted "slack" 2 false none,
            Event.details 2 (Res.ok ⟨2, "B", ""⟩),
            Event.isPosted "slack" 3 true none]) := by
  refine ⟨?_, ?_, ?_⟩
  · intro quota p u id rest found w s s1 story w1 hq hc hf hu
    have hstep := processStory_noURL net st p u id w s s1 story w1 hc hf hu
    have hq1 : ¬ found ≥ quota := by omega
    rw [storyLoop_skipped net st quota p u id rest found w s hq1 (by rw [hstep]), hstep]
  · intro config b w s id h
    exact run_never_announces net st config b w s id h
  · decide

theorem no_url_never_announced_witness :
    ∀ (p : String) (oe : Option Err),
      Event.post p 2 oe ∉ (fetchAndPostNews (scriptedNet (Res.ok [1, 2, 3]) scenarioDetails)
          (fileStorage newFileStorage) bothChannels true [] emptyFiles).trace ∧
        Event.save p 2 oe ∉ (fetchAndPostNews (scriptedNet (Res.ok [1, 2, 3]) scenarioDetails)
          (fileStorage newFileStorage) bothChannels true [] emptyFiles).trace :=
  (no_url_never_announced (scriptedNet (Res.ok [1, 2, 3]) scenarioDetails)
    (fileStorage newFileStorage)).2.1 bothChannels true [] emptyFiles 2
    (by
      intro w1 story h
      have h2 : Res.ok (⟨2, "B", ""⟩ : Story) = Res.ok story := h
      injection h2 with h3
      rw [← h3])

/-! ## C8: persistence errors -/

theorem storyLoop_keys {ω σ : Type} (net : Net ω) (st : Storage σ) (quota : Int) (p u : String)
    (ids : List Int) (found : Int) (w : ω) (s : σ) :
    ∀ e ∈ (storyLoop net st quota p u ids found w s).trace, ∀ k ∈ eventKey e,
      k.1 = p ∧ k.2 ∈ ids := by
  refine storyLoop_forall net st quota p u (fun e => ∀ k ∈ eventKey e, k.1 = p ∧ k.2 ∈ ids)
    ids ?_ found w s
  intro id hid w1 s1 e he k hk
  rw [processStory_keys net st p u id w1 s1 e he k hk]
  exact ⟨rfl, hid⟩

/-- An iteration whose membership test fails ends without a `postToWebhook` call. -/
theorem processStory_checkErr_no_post {ω σ : Type} (net : Net ω) (st : Storage σ) (p u : String)
    (id : Int) (w : ω) (s : σ) (p0 : String) (id0 : Int) (b : Bool) (e : Err)
    (h : Event.isPosted p0 id0 b (some e) ∈ (processStory net st p u id w s).trace) :
    ∀ (p1 : String) (id1 : Int) (oe : Option Err),
      Event.post p1 id1 oe ∉ (processStory net st p u id w s).trace := by
  revert h
  apply processStory_cases net st p u id w s
    (fun r => Event.isPosted p0 id0 b (some e) ∈ r.trace →
      ∀ (p1 : String) (id1 : Int) (oe : Option Err), Event.post p1 id1 oe ∉ r.trace)
  · intro b1 e1 s1 _ _ p1 id1 oe hm
    simp at hm
  · intro s1 _ h; simp at h
  · intro s1 e1 w1 _ _ h; simp at h
  · intro s1 story w1 _ _ _ h; simp at h
  · intro s1 story w1 e1 _ _ _ _ h
    simp only [List.cons_append, List.nil_append, List.mem_cons, List.mem_append,
      List.mem_singleton, List.not_mem_nil, or_false] at h
    rcases h with h | h | h | h
    · cases h
    · cases h
    · exact absurd (postToWebhook_events net p u _ w1 _ h) (by simp [isAttemptOf])
    · cases h
  · intro s1 story w1 _ _ _ _ h
    simp only [List.cons_append, List.nil_append, List.mem_cons, List.mem_append,
      List.mem_singleton, List.not_mem_nil, or_false] at h
    rcases h with h | h | h | h | h
    · cases h
    · cases h
    · exact absurd (postToWebhook_events net p u _ w1 _ h) (by simp [isAttemptOf])
    · cases h
    · cases h

/-- In the loop over the story IDs, a story that is listed once and whose membership test
fails is not delivered. -/
theorem storyLoop_once {ω σ : Type} (net : Net ω) (st : Storage σ) (quota : Int) (p u : String)
    (p0 : String) (id0 : Int) (b : Bool) (e : Err) (ids : List Int) :
    ∀ (found : Int) (w : ω) (s : σ), ids.count id0 ≤ 1 →
      Event.isPosted p0 id0 b (some e) ∈ (storyLoop net st quota p u ids found w s).trace →
      Event.post p0 id0 none ∉ (storyLoop net st quota p u ids found w s).trace := by
  induction ids with
  | nil => intro found w s _ h; simp [storyLoop] at h
  | cons id rest ih =>
    intro found w s hcount hchk hpost
    by_cases hq : found ≥ quota
    · rw [storyLoop_quota net st quota p u _ found w s hq] at hchk
      simp at hchk
    · have hkeys := processStory_keys net st p u id w s
      have hno := processStory_checkErr_no_post net st p u id w s p0 id0 b e
      by_cases hid : id0 = id
      · subst hid
        have hrest : id0 ∉ rest := by
          intro hm
          have := List.count_pos_iff.2 hm
          rw [List.count_cons_self] at hcount
          omega
        have inStep : ∀ (found1 : Int) (w1 : ω) (s1 : σ) (x : Event),
            x ∈ (storyLoop net st quota p u rest found1 w1 s1).trace →
            eventKey x = some (p0, id0) → False := by
          intro found1 w1 s1 x hm hx
          exact hrest (storyLoop_keys net st quota p u rest found1 w1 s1 x hm (p0, id0) hx).2
        cases hc : (processStory net st p u id0 w s).ctl with
        | abort e1 =>
          rw [storyLoop_abort net st quota p u id0 rest found w s e1 hq hc] at hchk hpost
          exact hno hchk _ _ _ hpost
        | skipped =>
          rw [storyLoop_skipped net st quota p u id0 rest found w s hq hc] at hchk hpost
          rcases List.mem_append.1 hchk with h1 | h1
          · rcases List.mem_append.1 hpost with h2 | h2
            · exact hno h1 _ _ _ h2
            · exact inStep _ _ _ _ h2 rfl
          · exact inStep _ _ _ _ h1 rfl
        | announced =>
          rw [storyLoop_announced net st quota p u id0 rest found w s hq hc] at hchk hpost
          rcases List.mem_append.1 hchk with h1 | h1
          · rcases List.mem_append.1 hpost with h2 | h2
            · exact hno h1 _ _ _ h2
            · exact inStep _ _ _ _ h2 rfl
          · exact inStep _ _ _ _ h1 rfl
      · have hcount1 : rest.count id0 ≤ 1 := by
          rw [List.count_cons_of_ne hid] at hcount
          exact hcount
        have notStep : ∀ x : Event, x ∈ (processStory net st p u id w s).trace →
            eventKey x = some (p0, id0) → False := by
          intro x hm hx
          have := hkeys x hm (p0, id0) hx
          injection this with _ h2
          exact hid h2
        cases hc : (processStory net st p u id w s).ctl with
        | abort e1 =>
          rw [storyLoop_abort net st quota p u id rest found w s e1 hq hc] at hchk
          exact notStep _ hchk rfl
        | skipped =>
          rw [storyLoop_skipped net st quota p u id rest found w s hq hc] at hchk hpost
          rcases List.mem_append.1 hchk with h1 | h1
          · exact notStep _ h1 rfl
          · rcases List.mem_append.1 hpost with h2 | h2
            · exact notStep _ h2 rfl
            · exact ih _ _ _ hcount1 h1 h2
        | announced =>
          rw [storyLoop_announced net st quota p u id rest found w s hq hc] at hchk hpost
          rcases List.mem_append.1 hchk with h1 | h1
          · exact notStep _ h1 rfl
          · rcases List.mem_append.1 hpost with h2 | h2
            · exact notStep _ h2 rfl
            · exact ih _ _ _ hcount1 h1 h2

theorem platformLoop_keys {ω σ : Type} (net : Net ω) (st : Storage σ) (quota : Int)
    (ids : List Int) (plats : List (String × String)) (w : ω) (s : σ) :
    ∀ e ∈ (platformLoop net st quota ids plats w s).trace, ∀ k ∈ eventKey e,
      k.1 ∈ plats.map Prod.fst ∧ k.2 ∈ ids := by
  refine platformLoop_forall net st quota ids
    (fun e => ∀ k ∈ eventKey e, k.1 ∈ plats.map Prod.fst ∧ k.2 ∈ ids) plats ?_ w s
  intro x hx _ id hid w1 s1 e he k hk
  rw [processStory_keys net st x.1 x.2 id w1 s1 e he k hk]
  exact ⟨List.mem_map_of_mem Prod.fst hx, hid⟩

/-- In the loop over the platforms, a story that is listed once and whose membership test for
a platform fails is not delivered to that platform. -/
theorem platformLoop_once {ω σ : Type} (net : Net ω) (st : Storage σ) (quota : Int)
    (ids : List Int) (p0 : String) (id0 : Int) (b : Bool) (e : Err)
    (hcount : ids.count id0 ≤ 1) (plats : List (String × String)) :
    ∀ (w : ω) (s : σ), (plats.map Prod.fst).Nodup →
      Event.isPosted p0 id0 b (some e) ∈ (platformLoop net st quota ids plats w s).trace →
      Event.post p0 id0 none ∉ (platformLoop net st quota ids plats w s).trace := by
  induction plats with
  | nil => intro w s _ h; simp [platformLoop] at h
  | cons x rest ih =>
    intro w s hnd hchk hpost
    obtain ⟨p, u⟩ := x
    simp only [List.map_cons, List.nodup_cons] at hnd
    by_cases hu : u = ""
    · subst hu
      rw [platformLoop_skip] at hchk hpost
      exact ih w s hnd.2 hchk hpost
    · have hk1 := storyLoop_keys net st quota p u ids 0 w s
      have honce := storyLoop_once net st quota p u p0 id0 b e ids 0 w s hcount
      cases herr : (storyLoop net st quota p u ids 0 w s).err with
      | some e1 =>
        rw [platformLoop_abort net st quota ids p u rest w s e1 hu herr] at hchk hpost
        exact honce hchk hpost
      | none =>
        rw [platformLoop_next net st quota ids p u rest w s hu herr] at hchk hpost
        have hk2 := platformLoop_keys net st quota ids rest
          (storyLoop net st quota p u ids 0 w s).w (storyLoop net st quota p u ids 0 w s).s
        by_cases hp : p0 = p
        · subst hp
          have notRest : ∀ x : Event,
              x ∈ (platformLoop net st quota ids rest
                (storyLoop net st quota p0 u ids 0 w s).w
                (storyLoop net st quota p0 u ids 0 w s).s).trace →
              eventKey x = some (p0, id0) → False := by
            intro x hm hx
            exact hnd.1 (hk2 x hm (p0, id0) hx).1
          rcases List.mem_append.1 hchk with h1 | h1
          · rcases List.mem_append.1 hpost with h2 | h2
            · exact honce h1 h2
            · exact notRest _ h2 rfl
          · exact notRest _ h1 rfl
        · have notHere : ∀ x : Event,
              x ∈ (storyLoop net st quota p u ids 0 w s).trace →
              eventKey x = some (p0, id0) → False := by
            intro x hm hx
            exact hp (hk1 x hm (p0, id0) hx).1
          rcases List.mem_append.1 hchk with h1 | h1
          · exact notHere _ h1 rfl
          · rcases List.mem_append.1 hpost with h2 | h2
            · exact notHere _ h2 rfl
            · exact ih _ _ hnd.2 h1 h2

theorem platforms_nodup (config : Config) (b : Bool) :
    ((platforms config b).map Prod.fst).Nodup := by
  cases b <;> simp [platforms]

theorem processStory_checkErr {ω σ : Type} (net : Net ω) (st : Storage σ) (p u : String)
    (id : Int) (w : ω) (s s1 : σ) (b : Bool) (e : Err)
    (hc : st.IsStoryPosted s p (Itoa id) = ((b, some e), s1)) :
    processStory net st p u id w s
      = ⟨Ctl.skipped, w, s1, [Event.isPosted p id b (some e)]⟩ := by
  cases b <;> simp only [processStory, hc]

theorem processStory_announced {ω σ : Type} (net : Net ω) (st : Storage σ) (p u : String)
    (id : Int) (w : ω) (s s1 : σ) (story : Story) (w1 : ω)
    (hc : st.IsStoryPosted s p (Itoa id) = ((false, none), s1))
    (hf : net.fetchStoryDetails w id = (Res.ok story, w1)) (hu : story.URL ≠ "")
    (hp : (postToWebhook net p u (formatMessage p story) w1).err = none) :
    processStory net st p u id w s
      = ⟨Ctl.announced, (postToWebhook net p u (formatMessage p story) w1).w,
          (st.SavePostedStory s1 p (Itoa id)).2,
          [Event.isPosted p id false none, Event.details id (Res.ok story)]
            ++ (postToWebhook net p u (formatMessage p story) w1).trace
            ++ [Event.post p id none, Event.save p id (st.SavePostedStory s1 p (Itoa id)).1]⟩ := by
  simp only [processStory, hc, hf, hu, if_false, hp]

/-- The loop over the story IDs makes at most `quota - found` deliveries, whatever the
storage and the network return. -/
theorem storyLoop_delivered_le {ω σ : Type} (net : Net ω) (st : Storage σ) (quota : Int)
    (p u : String) (ids : List Int) : ∀ (found : Int) (w : ω) (s : σ),
    (List.filterMap deliveryOf (storyLoop net st quota p u ids found w s).trace).length
      ≤ (quota - found).toNat := by
  induction ids with
  | nil => intro found w s; simp [storyLoop]
  | cons id rest ih =>
    intro found w s
    by_cases hq : found ≥ quota
    · rw [storyLoop_quota net st quota p u _ found w s hq]; simp
    · have hd := processStory_delivered net st p u id w s
      unfold delivered at hd
      cases hc : (processStory net st p u id w s).ctl with
      | abort e =>
        rw [storyLoop_abort net st quota p u id rest found w s e hq hc]
        rw [hc] at hd
        simp only [hd]
        simp
      | skipped =>
        rw [storyLoop_skipped net st quota p u id rest found w s hq hc]
        rw [hc] at hd
        simp only [List.filterMap_append, hd]
        simpa using ih found _ _
      | announced =>
        rw [storyLoop_announced net st quota p u id rest found w s hq hc]
        rw [hc] at hd
        simp only [List.filterMap_append, hd]
        have := ih (found + 1) (processStory net st p u id w s).w (processStory net st p u id w s).s
        simp only [if_true, List.length_append, List.length_singleton]
        omega

theorem deliveredTo_eq_nil (p0 : String) (t : List Event)
    (h : ∀ x ∈ delivered t, x.1 ≠ p0) : deliveredTo p0 t = [] := by
  unfold deliveredTo
  rw [List.map_eq_nil_iff, List.filter_eq_nil_iff]
  intro x hx
  simpa using h x hx

theorem deliveredTo_length_le (p0 : String) (t : List Event) :
    (deliveredTo p0 t).length ≤ (delivered t).length := by
  unfold deliveredTo
  rw [List.length_map]
  exact List.length_filter_le _ _

/-- The loop over the platforms makes at most `quota` deliveries to a platform, whatever the
storage and the network return. -/
theorem platformLoop_deliveredTo_le {ω σ : Type} (net : Net ω) (st : Storage σ) (quota : Int)
    (ids : List Int) (p0 : String) (plats : List (String × String)) :
    ∀ (w : ω) (s : σ), (plats.map Prod.fst).Nodup →
      (deliveredTo p0 (platformLoop net st quota ids plats w s).trace).length ≤ quota.toNat := by
  induction plats with
  | nil => intro w s _; simp [platformLoop, deliveredTo, delivered]
  | cons x rest ih =>
    intro w s hnd
    obtain ⟨p, u⟩ := x
    simp only [List.map_cons, List.nodup_cons] at hnd
    by_cases hu : u = ""
    · subst hu
      rw [platformLoop_skip]
      exact ih w s hnd.2
    · have hle := storyLoop_delivered_le net st quota p u ids 0 w s
      rw [Int.sub_zero] at hle
      have hhere : (deliveredTo p0 (storyLoop net st quota p u ids 0 w s).trace).length
          ≤ quota.toNat :=
        le_trans (deliveredTo_length_le p0 _) hle
      have hk1 := storyLoop_keys net st quota p u ids 0 w s
      cases herr : (storyLoop net st quota p u ids 0 w s).err with
      | some e =>
        rw [platformLoop_abort net st quota ids p u rest w s e hu herr]
        exact hhere
      | none =>
        rw [platformLoop_next net st quota ids p u rest w s hu herr]
        rw [deliveredTo_append, List.length_append]
        have hk2 := platformLoop_keys net st quota ids rest
          (storyLoop net st quota p u ids 0 w s).w (storyLoop net st quota p u ids 0 w s).s
        by_cases hp : p0 = p
        · subst hp
          have hnil : deliveredTo p0 (platformLoop net st quota ids rest
              (storyLoop net st quota p0 u ids 0 w s).w
              (storyLoop net st quota p0 u ids 0 w s).s).trace = [] := by
            apply deliveredTo_eq_nil
            intro x hx hx1
            obtain ⟨q, i⟩ := x
            rw [mem_delivered] at hx
            simp only at hx1
            subst hx1
            exact hnd.1 (hk2 _ hx (q, i) rfl).1
          rw [hnil]
          simpa using hhere
        · have hnil : deliveredTo p0 (storyLoop net st quota p u ids 0 w s).trace = [] := by
            apply deliveredTo_eq_nil
            intro x hx hx1
            obtain ⟨q, i⟩ := x
            rw [mem_delivered] at hx
            simp only at hx1
            subst hx1
            exact hp (hk1 _ hx (q, i) rfl).1
          rw [hnil]
          simpa using ih _ _ hnd.2

/-- The claim C8 as written fails on a top-stories list that repeats an ID: with the list
`[7, 7]` and a storage whose first membership test fails, the first entry is skipped and the
second entry delivers story 7 to the channel in the same run. -/
theorem persistence_error_counterexample :
    Event.isPosted "discord" 7 false (some "database is locked") ∈
        (fetchAndPostNews (scriptedNet (Res.ok [7, 7]) scenarioDetails) flakyStorage
          discordOnly true [] 0).trace ∧
      ("discord", 7) ∈ delivered
        (fetchAndPostNews (scriptedNet (Res.ok [7, 7]) scenarioDetails) flakyStorage
          discordOnly true [] 0).trace := by
  decide

/-- C8, amended. Persistence errors never abort a run and never cause a delivery, whatever
the storage calls return: (1) an iteration whose `IsStoryPosted` call returns an error makes no
detail fetch, no send and no save, and the loop goes on with the next ID and the same count;
(2) a story that the top-stories list names once and whose `IsStoryPosted` call for a channel
returns an error is not delivered to that channel in that run; (3) after a successful
delivery the loop goes on with the next ID and the count increased by one, whatever
`SavePostedStory` returns, and the iteration made no send besides those of the one
`postToWebhook` call; (4) a run makes at most `N` deliveries to a channel, whatever the storage
returns; (5) `fetchAndPostNews` returns `nil` whenever the top-stories fetch succeeds and no
delivery fails. -/
theorem persistence_errors_amended {ω σ : Type} (net : Net ω) (st : Storage σ) :
    (∀ (quota : Int) (p u : String) (id : Int) (rest : List Int) (found : Int) (w : ω)
        (s s1 : σ) (b : Bool) (e : Err),
      found < quota → st.IsStoryPosted s p (Itoa id) = ((b, some e), s1) →
      storyLoop net st quota p u (id :: rest) found w s
        = ⟨(storyLoop net st quota p u rest found w s1).err,
            (storyLoop net st quota p u rest found w s1).w,
            (storyLoop net st quota p u rest found w s1).s,
            [Event.isPosted p id b (some e)]
              ++ (storyLoop net st quota p u rest found w s1).trace⟩) ∧
    (∀ (config : Config) (d : Bool) (w : ω) (s : σ) (ids : List Int) (w1 : ω)
        (p : String) (id : Int) (b : Bool) (e : Err),
      net.fetchTopStories w = (Res.ok ids, w1) → ids.count id ≤ 1 →
      Event.isPosted p id b (some e) ∈ (fetchAndPostNews net st config d w s).trace →
      (p, id) ∉ delivered (fetchAndPostNews net st config d w s).trace) ∧
    (∀ (quota : Int) (p u : String) (id : Int) (rest : List Int) (found : Int) (w : ω)
        (s s1 : σ) (story : Story) (w1 : ω),
      found < quota → st.IsStoryPosted s p (Itoa id) = ((false, none), s1) →
      net.fetchStoryDetails w id = (Res.ok story, w1) → story.URL ≠ "" →
      (postToWebhook net p u (formatMessage p story) w1).err = none →
      storyLoop net st quota p u (id :: rest) found w s
        = ⟨(storyLoop net st quota p u rest (found + 1)
              (postToWebhook net p u (formatMessage p story) w1).w
              (st.SavePostedStory s1 p (Itoa id)).2).err,
            (storyLoop net st quota p u rest (found + 1)
              (postToWebhook net p u (formatMessage p story) w1).w
              (st.SavePostedStory s1 p (Itoa id)).2).w,
            (storyLoop net st quota p u rest (found + 1)
              (postToWebhook net p u (formatMessage p story) w1).w
              (st.SavePostedStory s1 p (Itoa id)).2).s,
            ([Event.isPosted p id false none, Event.details id (Res.ok story)]
              ++ (postToWebhook net p u (formatMessage p story) w1).trace
              ++ [Event.post p id none,
                  Event.save p id (st.SavePostedStory s1 p (Itoa id)).1])
              ++ (storyLoop net st quota p u rest (found + 1)
                (postToWebhook net p u (formatMessage p story) w1).w
                (st.SavePostedStory s1 p (Itoa id)).2).trace⟩) ∧
    (∀ (config : Config) (d : Bool) (w : ω) (s : σ) (p : String),
      (deliveredTo p (fetchAndPostNews net st config d w s).trace).length
        ≤ config.FetchTopStoriesAmount.toNat) ∧
    (∀ (config : Config) (d : Bool) (w : ω) (s : σ) (ids : List Int) (w1 : ω),
      net.fetchTopStories w = (Res.ok ids, w1) →
      (∀ (p : String) (id : Int) (e : Err),
        Event.post p id (some e) ∉ (fetchAndPostNews net st config d w s).trace) →
      (fetchAndPostNews net st config d w s).err = none) := by
  refine ⟨?_, ?_, ?_, ?_, ?_⟩
  · intro quota p u id rest found w s s1 b e hq hc
    have hstep := processStory_checkErr net st p u id w s s1 b e hc
    have hq1 : ¬ found ≥ quota := by omega
    rw [storyLoop_skipped net st quota p u id rest found w s hq1 (by rw [hstep]), hstep]
  · intro config d w s ids w1 p id b e hf hcount hchk hdel
    rw [mem_delivered] at hdel
    rw [fetchAndPostNews_ok net st config d w s ids w1 hf] at hchk hdel
    simp only [List.mem_cons] at hchk hdel
    rcases hchk with hchk | hchk
    · cases hchk
    · rcases hdel with hdel | hdel
      · cases hdel
      · exact platformLoop_once net st config.FetchTopStoriesAmount ids p id b e hcount
          (platforms config d) w1 s (platforms_nodup config d) hchk hdel
  · intro quota p u id rest found w s s1 story w1 hq hc hf hu hp
    have hstep := processStory_announced net st p u id w s s1 story w1 hc hf hu hp
    have hq1 : ¬ found ≥ quota := by omega
    rw [storyLoop_announced net st quota p u id rest found w s hq1 (by rw [hstep]), hstep]
  · intro config d w s p
    rcases hf : net.fetchTopStories w with ⟨r, w1⟩
    cases r with
    | error e =>
      rw [fetchAndPostNews_fetchErr net st config d w s e w1 hf]
      simp [deliveredTo, delivered, deliveryOf]
    | ok ids =>
      rw [fetchAndPostNews_ok net st config d w s ids w1 hf]
      have := platformLoop_deliveredTo_le net st config.FetchTopStoriesAmount ids p
        (platforms config d) w1 s (platforms_nodup config d)
      simpa [deliveredTo, delivered, deliveryOf] using this
  · intro config d w s ids w1 hf hno
    rw [fetchAndPostNews_ok net st config d w s ids w1 hf] at hno ⊢
    have hs := platformLoop_shape net st config.FetchTopStoriesAmount ids
      (platforms config d) w1 s
    cases herr : (platformLoop net st config.FetchTopStoriesAmount ids
        (platforms config d) w1 s).err with
    | none => rfl
    | some e =>
      exfalso
      obtain ⟨p, id, pre, hpre⟩ := hs.2.2.2 e herr
      refine hno p id e ?_
      simp only [List.mem_cons]
      right
      rw [hpre]
      simp

/-! ## C3: at most one post per story and channel -/

/-- One iteration keeps the deliveries pairwise different and recorded, when the storage
keeps its contract. -/
theorem processStory_good {ω σ : Type} (net : Net ω) (st : Storage σ) (Inv : σ → Prop)
    (posted : σ → String → Int → Bool) (law : Lawful st Inv posted) (p u : String) (id : Int)
    (hp : p ∈ channels) (hid : isInt id) (w : ω) (s : σ) (D : List (String × Int))
    (h : Good Inv posted s D) :
    Good Inv posted (processStory net st p u id w s).s
      (D ++ delivered (processStory net st p u id w s).trace) := by
  obtain ⟨hinv, hnd, hD⟩ := h
  have afterRead : ∀ s1, (st.IsStoryPosted s p (Itoa id)).2 = s1 → Good Inv posted s1 D := by
    intro s1 hs1
    subst hs1
    refine ⟨law.read_inv s p id hinv hp hid, hnd, ?_⟩
    intro x hx
    obtain ⟨h1, h2, h3⟩ := hD x hx
    exact ⟨h1, h2, by rw [law.read_posted s p id x.1 x.2 hinv hp hid h1 h2]; exact h3⟩
  rw [processStory_delivered]
  apply processStory_cases net st p u id w s
    (fun r => Good Inv posted r.s (D ++ if r.ctl = Ctl.announced then [(p, id)] else []))
  · intro b e s1 hc
    simpa using afterRead s1 (by rw [hc])
  · intro s1 hc
    simpa using afterRead s1 (by rw [hc])
  · intro s1 e w1 hc _
    simpa using afterRead s1 (by rw [hc])
  · intro s1 story w1 hc _ _
    simpa using afterRead s1 (by rw [hc])
  · intro s1 story w1 e hc _ _ _
    simpa using afterRead s1 (by rw [hc])
  · intro s1 story w1 hc _ _ _
    have hg := afterRead s1 (by rw [hc])
    have hs1 : (st.IsStoryPosted s p (Itoa id)).2 = s1 := by rw [hc]
    have hfalse : posted s p id = false := by
      have := law.read_sound s p id hinv hp hid (by rw [hc])
      rw [hc] at this
      exact this.symm
    have hnew : (p, id) ∉ D := by
      intro hm
      have := (hD (p, id) hm).2.2
      simp only at this
      rw [hfalse] at this
      cases this
    simp only [if_true]
    refine ⟨law.save_inv s1 p id hg.1 hp hid, ?_, ?_⟩
    · exact List.Nodup.append hnd (List.nodup_singleton _)
        (by
          intro x hx1 hx2
          rw [List.mem_singleton] at hx2
          exact hnew (hx2 ▸ hx1))
    · intro x hx
      rcases List.mem_append.1 hx with h1 | h1
      · obtain ⟨a1, a2, a3⟩ := hg.2.2 x h1
        refine ⟨a1, a2, ?_⟩
        rw [law.save_posted s1 p id x.1 x.2 hg.1 hp hid a1 a2, a3]
        rfl
      · rw [List.mem_singleton] at h1
        subst h1
        refine ⟨hp, hid, ?_⟩
        rw [law.save_posted s1 p id p id hg.1 hp hid hp hid]
        simp

theorem storyLoop_good {ω σ : Type} (net : Net ω) (st : Storage σ) (Inv : σ → Prop)
    (posted : σ → String → Int → Bool) (law : Lawful st Inv posted) (quota : Int)
    (p u : String) (hp : p ∈ channels) (ids : List Int) :
    ∀ (found : Int) (w : ω) (s : σ) (D : List (String × Int)), (∀ id ∈ ids, isInt id) →
      Good Inv posted s D →
      Good Inv posted (storyLoop net st quota p u ids found w s).s
        (D ++ delivered (storyLoop net st quota p u ids found w s).trace) := by
  induction ids with
  | nil => intro found w s D _ h; simpa [storyLoop, delivered] using h
  | cons id rest ih =>
    intro found w s D hids h
    by_cases hq : found ≥ quota
    · rw [storyLoop_quota net st quota p u _ found w s hq]
      simpa [delivered] using h
    · have hstep := processStory_good net st Inv posted law p u id hp
        (hids id (List.mem_cons_self id rest)) w s D h
      have hrest : ∀ i ∈ rest, isInt i := fun i hi => hids i (List.mem_cons_of_mem id hi)
      cases hc : (processStory net st p u id w s).ctl with
      | abort e =>
        rw [storyLoop_abort net st quota p u id rest found w s e hq hc]
        exact hstep
      | skipped =>
        rw [storyLoop_skipped net st quota p u id rest found w s hq hc]
        simp only [delivered_append, ← List.append_assoc]
        exact ih _ _ _ _ hrest hstep
      | announced =>
        rw [storyLoop_announced net st quota p u id rest found w s hq hc]
        simp only [delivered_append, ← List.append_assoc]
        exact ih _ _ _ _ hrest hstep

theorem platformLoop_good {ω σ : Type} (net : Net ω) (st : Storage σ) (Inv : σ → Prop)
    (posted : σ → String → Int → Bool) (law : Lawful st Inv posted) (quota : Int)
    (ids : List Int) (hids : ∀ id ∈ ids, isInt id) (plats : List (String × String)) :
    ∀ (w : ω) (s : σ) (D : List (String × Int)), (∀ x ∈ plats, x.1 ∈ channels) →
      Good Inv posted s D →
      Good Inv posted (platformLoop net st quota ids plats w s).s
        (D ++ delivered (platformLoop net st quota ids plats w s).trace) := by
  induction plats with
  | nil => intro w s D _ h; simpa [platformLoop, delivered] using h
  | cons x rest ih =>
    intro w s D hch h
    obtain ⟨p, u⟩ := x
    have hrest : ∀ y ∈ rest, y.1 ∈ channels := fun y hy => hch y (List.mem_cons_of_mem _ hy)
    by_cases hu : u = ""
    · subst hu
      rw [platformLoop_skip]
      exact ih w s D hrest h
    · have hs := storyLoop_good net st Inv posted law quota p u
        (hch (p, u) (List.mem_cons_self _ _)) ids 0 w s D hids h
      cases herr : (storyLoop net st quota p u ids 0 w s).err with
      | some e =>
        rw [platformLoop_abort net st quota ids p u rest w s e hu herr]
        exact hs
      | none =>
        rw [platformLoop_next net st quota ids p u rest w s hu herr]
        simp only [delivered_append, ← List.append_assoc]
        exact ih _ _ _ hrest hs

theorem platforms_channels (config : Config) (b : Bool) :
    ∀ x ∈ platforms config b, x.1 ∈ channels := by
  intro x hx
  cases b <;> simp [platforms] at hx <;> rcases hx with rfl | rfl <;> simp [channels]

theorem fetchAndPostNews_good {ω σ : Type} (net : Net ω) (st : Storage σ) (Inv : σ → Prop)
    (posted : σ → String → Int → Bool) (law : Lawful st Inv posted) (config : Config)
    (b : Bool) (w : ω) (s : σ) (D : List (String × Int))
    (hids : ∀ (w : ω) (ids : List Int) (w1 : ω),
      net.fetchTopStories w = (Res.ok ids, w1) → ∀ id ∈ ids, isInt id)
    (h : Good Inv posted s D) :
    Good Inv posted (fetchAndPostNews net st config b w s).s
      (D ++ delivered (fetchAndPostNews net st config b w s).trace) := by
  rcases hf : net.fetchTopStories w with ⟨r, w1⟩
  cases r with
  | error e =>
    rw [fetchAndPostNews_fetchErr net st config b w s e w1 hf]
    simpa [delivered, deliveryOf] using h
  | ok ids =>
    rw [fetchAndPostNews_ok net st config b w s ids w1 hf]
    have := platformLoop_good net st Inv posted law config.FetchTopStoriesAmount ids
      (hids w ids w1 hf) (platforms config b) w1 s D (platforms_channels config b) h
    simpa [delivered, deliveryOf] using this

/-- C3. At most one post per story per channel: over two consecutive runs that share a
storage which keeps its contract (saves succeed, membership tests that do not fail are
truthful), every `(channel, story ID)` pair is delivered at most once in total: the list of
all deliveries of the two runs has no repetition, whatever the top-stories lists hold
(repeated IDs included) and whatever else fails. -/
theorem at_most_one_post {ω σ : Type} (net : Net ω) (st : Storage σ) (Inv : σ → Prop)
    (posted : σ → String → Int → Bool) (law : Lawful st Inv posted) (config : Config)
    (b1 b2 : Bool) (w : ω) (s : σ) (hs : Inv s)
    (hids : ∀ (w : ω) (ids : List Int) (w1 : ω),
      net.fetchTopStories w = (Res.ok ids, w1) → ∀ id ∈ ids, isInt id) :
    (delivered ((fetchAndPostNews net st config b1 w s).trace ++
      (fetchAndPostNews net st config b2 (fetchAndPostNews net st config b1 w s).w
        (fetchAndPostNews net st config b1 w s).s).trace)).Nodup := by
  have h0 : Good Inv posted s [] := ⟨hs, List.nodup_nil, fun x hx => by simp at hx⟩
  have h1 := fetchAndPostNews_good net st Inv posted law config b1 w s [] hids h0
  have h2 := fetchAndPostNews_good net st Inv posted law config b2
    (fetchAndPostNews net st config b1 w s).w (fetchAndPostNews net st config b1 w s).s _ hids h1
  rw [delivered_append]
  simpa using h2.2.1

/-! ## C7: a delivery failure aborts the run -/

/-- Under a storage that keeps its contract, every delivery of an iteration is recorded. -/
theorem processStory_recorded {ω σ : Type} (net : Net ω) (st : Storage σ) (Inv : σ → Prop)
    (posted : σ → String → Int → Bool) (law : Lawful st Inv posted) (p u : String) (id : Int)
    (hp : p ∈ channels) (hid : isInt id) (w : ω) (s : σ) (hs : Inv s) :
    recorded (processStory net st p u id w s).trace
      = delivered (processStory net st p u id w s).trace := by
  apply processStory_cases net st p u id w s (fun r => recorded r.trace = delivered r.trace)
  · intro b e s1 _; simp [delivered, deliveryOf, recorded, recordOf]
  · intro s1 _; simp [delivered, deliveryOf, recorded, recordOf]
  · intro s1 e w1 _ _; simp [delivered, deliveryOf, recorded, recordOf]
  · intro s1 story w1 _ _ _; simp [delivered, deliveryOf, recorded, recordOf]
  · intro s1 story w1 e _ _ _ _
    rw [delivered_append, delivered_append, delivered_attempts, recorded_append,
      recorded_append, recorded_attempts]
    simp [delivered, deliveryOf, recorded, recordOf]
  · intro s1 story w1 hc _ _ _
    have hs1 : Inv s1 := by
      have := law.read_inv s p id hs hp hid
      rw [hc] at this
      exact this
    rw [delivered_append, delivered_append, delivered_attempts, recorded_append,
      recorded_append, recorded_attempts, law.save_ok s1 p id hs1 hp hid]
    simp [delivered, deliveryOf, recorded, recordOf]

/-- Under a storage that keeps its contract, an iteration that a delivery failure aborts is
about a story that was not delivered to the platform before, and it delivers nothing. -/
theorem processStory_abort_fresh {ω σ : Type} (net : Net ω) (st : Storage σ) (Inv : σ → Prop)
    (posted : σ → String → Int → Bool) (law : Lawful st Inv posted) (p u : String) (id : Int)
    (hp : p ∈ channels) (hid : isInt id) (w : ω) (s : σ) (D : List (String × Int))
    (h : Good Inv posted s D) (e : Err)
    (hc : (processStory net st p u id w s).ctl = Ctl.abort e) :
    (∃ pre, (processStory net st p u id w s).trace = pre ++ [Event.post p id (some e)]) ∧
      (p, id) ∉ D ∧ delivered (processStory net st p u id w s).trace = [] := by
  have hd := processStory_delivered net st p u id w s
  rw [hc] at hd
  simp only [reduceCtorEq, if_false] at hd
  refine ⟨?_, ?_, hd⟩
  · have hs := processStory_shape net st p u id w s
    rw [hc] at hs
    obtain ⟨p1, id1, pre, hpre⟩ := hs.2.2.2 e rfl
    have hk := processStory_keys net st p u id w s (Event.post p1 id1 (some e))
      (by rw [hpre]; simp) (p1, id1) rfl
    injection hk with h1 h2
    subst h1; subst h2
    exact ⟨pre, hpre⟩
  · revert hc
    apply processStory_cases net st p u id w s (fun r => r.ctl = Ctl.abort e → (p, id) ∉ D)
    · intro b e1 s1 _ hc; cases hc
    · intro s1 _ hc; cases hc
    · intro s1 e1 w1 _ _ hc; cases hc
    · intro s1 story w1 _ _ _ hc; cases hc
    · intro s1 story w1 e1 hchk _ _ _ _ hm
      have hsound := law.read_sound s p id h.1 hp hid (by rw [hchk])
      rw [hchk] at hsound
      have := (h.2.2 (p, id) hm).2.2
      simp only at this
      rw [← hsound] at this
      cases this
    · intro s1 story w1 _ _ _ _ hc; cases hc

/-- Under a storage that keeps its contract, the loop over the story IDs records every delivery,
and when a delivery failure aborts it, the failure is about a story that was not delivered to
the platform before. -/
theorem storyLoop_abort_fresh {ω σ : Type} (net : Net ω) (st : Storage σ) (Inv : σ → Prop)
    (posted : σ → String → Int → Bool) (law : Lawful st Inv posted) (quota : Int)
    (p u : String) (hp : p ∈ channels) (ids : List Int) :
    ∀ (found : Int) (w : ω) (s : σ) (D : List (String × Int)), (∀ id ∈ ids, isInt id) →
      Good Inv posted s D →
      recorded (storyLoop net st quota p u ids found w s).trace
        = delivered (storyLoop net st quota p u ids found w s).trace ∧
      ∀ e, (storyLoop net st quota p u ids found w s).err = some e →
        ∃ id pre, (storyLoop net st quota p u ids found w s).trace
            = pre ++ [Event.post p id (some e)] ∧
          (p, id) ∉ D ++ delivered (storyLoop net st quota p u ids found w s).trace := by
  induction ids with
  | nil =>
    intro found w s D _ _
    exact ⟨rfl, fun e he => by cases he⟩
  | cons id rest ih =>
    intro found w s D hids h
    by_cases hq : found ≥ quota
    · rw [storyLoop_quota net st quota p u _ found w s hq]
      exact ⟨rfl, fun e he => by cases he⟩
    · have hid : isInt id := hids id (List.mem_cons_self id rest)
      have hrest : ∀ i ∈ rest, isInt i := fun i hi => hids i (List.mem_cons_of_mem id hi)
      have hgood := processStory_good net st Inv posted law p u id hp hid w s D h
      have hrec := processStory_recorded net st Inv posted law p u id hp hid w s h.1
      cases hc : (processStory net st p u id w s).ctl with
      | abort e1 =>
        obtain ⟨⟨pre, hpre⟩, hnew, hdel⟩ :=
          processStory_abort_fresh net st Inv posted law p u id hp hid w s D h e1 hc
        rw [storyLoop_abort net st quota p u id rest found w s e1 hq hc]
        refine ⟨hrec, ?_⟩
        intro e he
        simp only [Option.some.injEq] at he
        subst he
        exact ⟨id, pre, hpre, by rw [hdel]; simpa using hnew⟩
      | skipped =>
        obtain ⟨i1, i2⟩ := ih found (processStory net st p u id w s).w
          (processStory net st p u id w s).s _ hrest hgood
        rw [storyLoop_skipped net st quota p u id rest found w s hq hc]
        refine ⟨by rw [recorded_append, delivered_append, hrec, i1], ?_⟩
        intro e he
        obtain ⟨id1, pre, hpre, hnew⟩ := i2 e he
        refine ⟨id1, (processStory net st p u id w s).trace ++ pre, ?_, ?_⟩
        · simp only [hpre, List.append_assoc]
        · simpa [delivered_append, List.append_assoc] using hnew
      | announced =>
        obtain ⟨i1, i2⟩ := ih (found + 1) (processStory net st p u id w s).w
          (processStory net st p u id w s).s _ hrest hgood
        rw [storyLoop_announced net st quota p u id rest found w s hq hc]
        refine ⟨by rw [recorded_append, delivered_append, hrec, i1], ?_⟩
        intro e he
        obtain ⟨id1, pre, hpre, hnew⟩ := i2 e he
        refine ⟨id1, (processStory net st p u id w s).trace ++ pre, ?_, ?_⟩
        · simp only [hpre, List.append_assoc]
        · simpa [delivered_append, List.append_assoc] using hnew

theorem platformLoop_abort_fresh {ω σ : Type} (net : Net ω) (st : Storage σ) (Inv : σ → Prop)
    (posted : σ → String → Int → Bool) (law : Lawful st Inv posted) (quota : Int)
    (ids : List Int) (hids : ∀ id ∈ ids, isInt id) (plats : List (String × String)) :
    ∀ (w : ω) (s : σ) (D : List (String × Int)), (∀ x ∈ plats, x.1 ∈ channels) →
      Good Inv posted s D →
      recorded (platformLoop net st quota ids plats w s).trace
        = delivered (platformLoop net st quota ids plats w s).trace ∧
      ∀ e, (platformLoop net st quota ids plats w s).err = some e →
        ∃ p id pre, (platformLoop net st quota ids plats w s).trace
            = pre ++ [Event.post p id (some e)] ∧
          (p, id) ∉ D ++ delivered (platformLoop net st quota ids plats w s).trace := by
  induction plats with
  | nil =>
    intro w s D _ _
    exact ⟨rfl, fun e he => by cases he⟩
  | cons x rest ih =>
    intro w s D hch h
    obtain ⟨p, u⟩ := x
    have hrest : ∀ y ∈ rest, y.1 ∈ channels := fun y hy => hch y (List.mem_cons_of_mem _ hy)
    have hp : p ∈ channels := hch (p, u) (List.mem_cons_self _ _)
    by_cases hu : u = ""
    · subst hu
      rw [platformLoop_skip]
      exact ih w s D hrest h
    · have hgood := storyLoop_good net st Inv posted law quota p u hp ids 0 w s D hids h
      obtain ⟨l1, l2⟩ := storyLoop_abort_fresh net st Inv posted law quota p u hp ids 0 w s D
        hids h
      cases herr : (storyLoop net st quota p u ids 0 w s).err with
      | some e1 =>
        rw [platformLoop_abort net st quota ids p u rest w s e1 hu herr]
        refine ⟨l1, ?_⟩
        intro e he
        simp only [Option.some.injEq] at he
        subst he
        obtain ⟨id1, pre, hpre, hnew⟩ := l2 e1 herr
        exact ⟨p, id1, pre, hpre, hnew⟩
      | none =>
        obtain ⟨i1, i2⟩ := ih (storyLoop net st quota p u ids 0 w s).w
          (storyLoop net st quota p u ids 0 w s).s _ hrest hgood
        rw [platformLoop_next net st quota ids p u rest w s hu herr]
        refine ⟨by rw [recorded_append, delivered_append, l1, i1], ?_⟩
        intro e he
        obtain ⟨p1, id1, pre, hpre, hnew⟩ := i2 e he
        refine ⟨p1, id1, (storyLoop net st quota p u ids 0 w s).trace ++ pre, ?_, ?_⟩
        · simp only [hpre, List.append_assoc]
        · simpa [delivered_append, List.append_assoc] using hnew

/-- C7. A delivery failure aborts the whole run: when `postToWebhook` fails for a story,
`fetchAndPostNews` returns that error and the failure is the last thing the run does: no
delivery, detail fetch, membership test or save follows it, for no story and no channel, so the
failure is not recorded; the world and the storage are left as the calls before the failure made
them, so the records saved before it are kept; and with a storage that keeps its contract the
story whose delivery failed is recorded for that channel nowhere in the run. -/
theorem delivery_failure_aborts {ω σ : Type} (net : Net ω) (st : Storage σ) (config : Config)
    (b : Bool) (w : ω) (s : σ) (p : String) (id : Int) (e : Err)
    (h : Event.post p id (some e) ∈ (fetchAndPostNews net st config b w s).trace) :
    (fetchAndPostNews net st config b w s).err = some e ∧
      (∃ pre, (fetchAndPostNews net st config b w s).trace = pre ++ [Event.post p id (some e)] ∧
        Replays net st w s pre (fetchAndPostNews net st config b w s).w
          (fetchAndPostNews net st config b w s).s) ∧
      ∀ (Inv : σ → Prop) (posted : σ → String → Int → Bool), Lawful st Inv posted → Inv s →
        (∀ (ids : List Int) (w1 : ω),
          net.fetchTopStories w = (Res.ok ids, w1) → ∀ i ∈ ids, isInt i) →
        (p, id) ∉ recorded (fetchAndPostNews net st config b w s).trace := by
  obtain ⟨pre, hpre⟩ := chain_failed_last _ p id e (fetchAndPostNews_chain net st config b w s) h
  have hrep := fetchAndPostNews_replays net st config b w s
  refine ⟨?_, ⟨pre, hpre, ?_⟩, ?_⟩
  · rcases hf : net.fetchTopStories w with ⟨r, w1⟩
    cases r with
    | error e1 =>
      rw [fetchAndPostNews_fetchErr net st config b w s e1 w1 hf] at h
      simp at h
    | ok ids =>
      rw [fetchAndPostNews_ok net st config b w s ids w1 hf] at h ⊢
      simp only [List.mem_cons] at h
      rcases h with h | h
      · cases h
      · exact shape_failed_post _ _ p id e (platformLoop_shape net st _ ids _ w1 s) h
  · rw [hpre] at hrep
    exact Replays_of_append_post net st p id (some e) pre w s _ _ hrep
  · intro Inv posted law hs hids
    rcases hf : net.fetchTopStories w with ⟨r, w1⟩
    cases r with
    | error e1 =>
      rw [fetchAndPostNews_fetchErr net st config b w s e1 w1 hf] at h
      simp at h
    | ok ids =>
      rw [fetchAndPostNews_ok net st config b w s ids w1 hf] at h ⊢
      simp only [List.mem_cons] at h
      rcases h with h | h
      · cases h
      · have hshape := platformLoop_shape net st config.FetchTopStoriesAmount ids
          (platforms config b) w1 s
        have herr := shape_failed_post _ _ p id e hshape h
        obtain ⟨pre0, hpre0⟩ := chain_failed_last _ p id e hshape.1 h
        have h0 : Good Inv posted s [] := ⟨hs, List.nodup_nil, fun x hx => by simp at hx⟩
        obtain ⟨hrec, hfresh⟩ := platformLoop_abort_fresh net st Inv posted law
          config.FetchTopStoriesAmount ids (hids ids w1 hf) (platforms config b) w1 s []
          (platforms_channels config b) h0
        obtain ⟨p1, id1, pre1, hpre1, hnew⟩ := hfresh e herr
        have hlast : (pre0 ++ [Event.post p id (some e)]).getLast?
            = (pre1 ++ [Event.post p1 id1 (some e)]).getLast? := by
          rw [← hpre0, ← hpre1]
        rw [List.getLast?_append, List.getLast?_append] at hlast
        simp only [List.getLast?_singleton, Option.or, Option.some.injEq, Event.post.injEq,
          and_true] at hlast
        obtain ⟨h1, h2⟩ := hlast
        subst h1; subst h2
        have hr : recorded (Event.topStories (Res.ok ids) ::
            (platformLoop net st config.FetchTopStoriesAmount ids (platforms config b)
              w1 s).trace)
            = recorded (platformLoop net st config.FetchTopStoriesAmount ids
                (platforms config b) w1 s).trace := by
          simp [recorded, recordOf]
        rw [hr, hrec]
        simpa using hnew

theorem delivery_failure_aborts_witness :
    Event.post "discord" 3 (some "webhook request failed with status: 500") ∈
        (fetchAndPostNews (scriptedNet (Res.ok [1, 3, 4]) scenarioDetails)
          (fileStorage newFileStorage) bothChannels true [Res.ok 200, Res.ok 500] emptyFiles).trace ∧
      (fetchAndPostNews (scriptedNet (Res.ok [1, 3, 4]) scenarioDetails)
          (fileStorage newFileStorage) bothChannels true [Res.ok 200, Res.ok 500] emptyFiles).err
          = some "webhook request failed with status: 500" ∧
      ("discord", 3) ∉ recorded
        (fetchAndPostNews (scriptedNet (Res.ok [1, 3, 4]) scenarioDetails)
          (fileStorage newFileStorage) bothChannels true [Res.ok 200, Res.ok 500]
          emptyFiles).trace ∧
      recorded
        (fetchAndPostNews (scriptedNet (Res.ok [1, 3, 4]) scenarioDetails)
          (fileStorage newFileStorage) bothChannels true [Res.ok 200, Res.ok 500]
          emptyFiles).trace = [("discord", 1)] :=
  ⟨by decide,
    (delivery_failure_aborts (scriptedNet (Res.ok [1, 3, 4]) scenarioDetails)
      (fileStorage newFileStorage) bothChannels true [Res.ok 200, Res.ok 500] emptyFiles
      "discord" 3 "webhook request failed with status: 500" (by decide)).1,
    (delivery_failure_aborts (scriptedNet (Res.ok [1, 3, 4]) scenarioDetails)
      (fileStorage newFileStorage) bothChannels true [Res.ok 200, Res.ok 500] emptyFiles
      "discord" 3 "webhook request failed with status: 500" (by decide)).2.2
      FileInv filePosted fileStorage_lawful FileInv_empty
      (by
        intro ids w1 h i hi
        simp only [scriptedNet, Prod.mk.injEq, Res.ok.injEq] at h
        rw [← h.1] at hi
        simp only [List.mem_cons, List.mem_singleton, List.not_mem_nil, or_false] at hi
        rcases hi with rfl | rfl | rfl <;> decide),
    by decide⟩

/-! ## C4: per-run quota, in source order -/

/-- A storage that keeps the contract and whose saves do not fail can be trusted. -/
theorem truthful_of_lawful {σ : Type} (st : Storage σ) (Inv : σ → Prop)
    (posted : σ → String → Int → Bool) (law : Lawful st Inv posted) :
    Truthful st Inv posted where
  read_inv := law.read_inv
  read_sound := law.read_sound
  read_posted := law.read_posted
  save_inv := fun s p id hs hp hid _ => law.save_inv s p id hs hp hid
  save_posted := fun s p id p1 id1 hs hp hid hp1 hid1 _ =>
    law.save_posted s p id p1 id1 hs hp hid hp1 hid1

/-- The storage `flakyDB` can be trusted, although its first membership test fails. -/
theorem flakyDB_truthful : Truthful flakyDB (fun _ => True) flakyPosted where
  read_inv := fun _ _ _ _ _ _ => trivial
  read_sound := by
    intro s p id _ _ _ h
    by_cases h0 : s.1 = 0
    · simp [flakyDB, h0] at h
    · simp only [flakyDB, h0, if_false]
      rfl
  read_posted := by
    intro s p id p1 id1 _ _ _ _ _
    by_cases h0 : s.1 = 0
    · simp only [flakyDB, h0, if_true, flakyPosted]
    · simp only [flakyDB, h0, if_false, flakyPosted]
      rfl
  save_inv := fun _ _ _ _ _ _ _ => trivial
  save_posted := by
    intro s p id p1 id1 _ hp hid hp1 hid1 _
    exact dbStorage_lawful.save_posted s.2 p id p1 id1 trivial hp hid hp1 hid1

theorem fetchOf_append (p : String) (e : Event) (a b : List Event) (x : Int × Res Story)
    (h : fetchOf p e a = some x) : fetchOf p e (a ++ b) = some x := by
  cases e <;> cases a with
  | nil => simp [fetchOf] at h
  | cons y t => cases y <;> simp_all [fetchOf]

theorem fetchesFor_append_left (p : String) (a b : List Event) (x : Int × Res Story)
    (h : x ∈ fetchesFor p a) : x ∈ fetchesFor p (a ++ b) := by
  induction a with
  | nil => simp [fetchesFor] at h
  | cons e t ih =>
    simp only [fetchesFor, List.cons_append, List.mem_append, Option.mem_toList,
      Option.mem_def] at h ⊢
    rcases h with h | h
    · exact Or.inl (fetchOf_append p e t b x h)
    · exact Or.inr (ih h)

theorem fetchesFor_append_right (p : String) (a b : List Event) (x : Int × Res Story)
    (h : x ∈ fetchesFor p b) : x ∈ fetchesFor p (a ++ b) := by
  induction a with
  | nil => exact h
  | cons e t ih =>
    simp only [fetchesFor, List.cons_append, List.mem_append]
    exact Or.inr ih

theorem Clean_left (p : String) (det : Int → Res Story) (a b : List Event)
    (h : Clean p det (a ++ b)) : Clean p det a :=
  ⟨fun e he => h.1 e (List.mem_append_left _ he),
    fun e he => h.2.1 e (List.mem_append_left _ he),
    fun e he => h.2.2.1 e (List.mem_append_left _ he),
    fun x hx => h.2.2.2 x (fetchesFor_append_left p a b x hx)⟩

theorem Clean_right (p : String) (det : Int → Res Story) (a b : List Event)
    (h : Clean p det (a ++ b)) : Clean p det b :=
  ⟨fun e he => h.1 e (List.mem_append_right _ he),
    fun e he => h.2.1 e (List.mem_append_right _ he),
    fun e he => h.2.2.1 e (List.mem_append_right _ he),
    fun x hx => h.2.2.2 x (fetchesFor_append_right p a b x hx)⟩

/-- An iteration none of whose saves fails, on a storage that can be trusted: afterwards a
story is recorded for a platform exactly if it was before or the iteration recorded it. -/
theorem processStory_posted {ω σ : Type} (net : Net ω) (st : Storage σ) (Inv : σ → Prop)
    (posted : σ → String → Int → Bool) (law : Truthful st Inv posted) (p u : String) (id : Int)
    (hp : p ∈ channels) (hid : isInt id) (w : ω) (s : σ) (hs : Inv s)
    (hsaves : ∀ e ∈ (processStory net st p u id w s).trace, isFailedSave e = false) :
    Inv (processStory net st p u id w s).s ∧
      ∀ p1 id1, p1 ∈ channels → isInt id1 →
        posted (processStory net st p u id w s).s p1 id1
          = (posted s p1 id1
              || decide ((p1, id1) ∈ recorded (processStory net st p u id w s).trace)) := by
  have afterRead : ∀ s1, (st.IsStoryPosted s p (Itoa id)).2 = s1 →
      Inv s1 ∧ ∀ p1 id1, p1 ∈ channels → isInt id1 → posted s1 p1 id1 = posted s p1 id1 := by
    intro s1 hs1
    subst hs1
    exact ⟨law.read_inv s p id hs hp hid,
      fun p1 id1 h1 h2 => law.read_posted s p id p1 id1 hs hp hid h1 h2⟩
  revert hsaves
  apply processStory_cases net st p u id w s
    (fun r => (∀ e ∈ r.trace, isFailedSave e = false) → Inv r.s ∧
      ∀ p1 id1, p1 ∈ channels → isInt id1 →
        posted r.s p1 id1 = (posted s p1 id1 || decide ((p1, id1) ∈ recorded r.trace)))
  · intro b e s1 hc _
    obtain ⟨h1, h2⟩ := afterRead s1 (by rw [hc])
    refine ⟨h1, fun p1 id1 hp1 hid1 => ?_⟩
    simp [h2 p1 id1 hp1 hid1, recorded, recordOf]
  · intro s1 hc _
    obtain ⟨h1, h2⟩ := afterRead s1 (by rw [hc])
    refine ⟨h1, fun p1 id1 hp1 hid1 => ?_⟩
    simp [h2 p1 id1 hp1 hid1, recorded, recordOf]
  · intro s1 e w1 hc _ _
    obtain ⟨h1, h2⟩ := afterRead s1 (by rw [hc])
    refine ⟨h1, fun p1 id1 hp1 hid1 => ?_⟩
    simp [h2 p1 id1 hp1 hid1, recorded, recordOf]
  · intro s1 story w1 hc _ _ _
    obtain ⟨h1, h2⟩ := afterRead s1 (by rw [hc])
    refine ⟨h1, fun p1 id1 hp1 hid1 => ?_⟩
    simp [h2 p1 id1 hp1 hid1, recorded, recordOf]
  · intro s1 story w1 e hc _ _ _ _
    obtain ⟨h1, h2⟩ := afterRead s1 (by rw [hc])
    refine ⟨h1, fun p1 id1 hp1 hid1 => ?_⟩
    dsimp only
    rw [recorded_append, recorded_append, recorded_attempts]
    simp [h2 p1 id1 hp1 hid1, recorded, recordOf]
  · intro s1 story w1 hc _ _ _ hsaves
    obtain ⟨h1, h2⟩ := afterRead s1 (by rw [hc])
    have hsave : (st.SavePostedStory s1 p (Itoa id)).1 = none := by
      have := hsaves (Event.save p id (st.SavePostedStory s1 p (Itoa id)).1) (by simp)
      cases hx : (st.SavePostedStory s1 p (Itoa id)).1 with
      | none => rfl
      | some e1 => rw [hx] at this; simp [isFailedSave] at this
    refine ⟨law.save_inv s1 p id h1 hp hid hsave, fun p1 id1 hp1 hid1 => ?_⟩
    dsimp only
    rw [recorded_append, recorded_append, recorded_attempts, hsave,
      law.save_posted s1 p id p1 id1 h1 hp hid hp1 hid1 hsave, h2 p1 id1 hp1 hid1]
    simp [recorded, recordOf]

/-- The loop over the story IDs of a platform, when none of its saves fails and the storage
can be trusted: afterwards a story is recorded for a platform exactly if it was before or the
loop recorded it. -/
theorem storyLoop_posted {ω σ : Type} (net : Net ω) (st : Storage σ) (Inv : σ → Prop)
    (posted : σ → String → Int → Bool) (law : Truthful st Inv posted) (quota : Int)
    (p u : String) (hp : p ∈ channels) (ids : List Int) :
    ∀ (found : Int) (w : ω) (s : σ), Inv s → (∀ id ∈ ids, isInt id) →
      (∀ e ∈ (storyLoop net st quota p u ids found w s).trace, isFailedSave e = false) →
      Inv (storyLoop net st quota p u ids found w s).s ∧
      ∀ p1 id1, p1 ∈ channels → isInt id1 →
        posted (storyLoop net st quota p u ids found w s).s p1 id1
          = (posted s p1 id1
              || decide ((p1, id1) ∈ recorded (storyLoop net st quota p u ids found w s).trace)) := by
  induction ids with
  | nil =>
    intro found w s hs _ _
    simp [storyLoop, hs, recorded]
  | cons id rest ih =>
    intro found w s hs hids hsaves
    by_cases hq : found ≥ quota
    · rw [storyLoop_quota net st quota p u _ found w s hq]
      simp [hs, recorded]
    · have hid : isInt id := hids id (List.mem_cons_self id rest)
      have hrest : ∀ i ∈ rest, isInt i := fun i hi => hids i (List.mem_cons_of_mem id hi)
      cases hc : (processStory net st p u id w s).ctl with
      | abort e =>
        rw [storyLoop_abort net st quota p u id rest found w s e hq hc] at hsaves ⊢
        exact processStory_posted net st Inv posted law p u id hp hid w s hs hsaves
      | skipped =>
        rw [storyLoop_skipped net st quota p u id rest found w s hq hc] at hsaves ⊢
        obtain ⟨a1, a2⟩ := processStory_posted net st Inv posted law p u id hp hid w s hs
          (fun e he => hsaves e (List.mem_append_left _ he))
        obtain ⟨c1, c2⟩ := ih found _ _ a1 hrest
          (fun e he => hsaves e (List.mem_append_right _ he))
        refine ⟨c1, fun p1 id1 hp1 hid1 => ?_⟩
        dsimp only
        rw [c2 p1 id1 hp1 hid1, a2 p1 id1 hp1 hid1, recorded_append]
        simp [Bool.or_assoc]
      | announced =>
        rw [storyLoop_announced net st quota p u id rest found w s hq hc] at hsaves ⊢
        obtain ⟨a1, a2⟩ := processStory_posted net st Inv posted law p u id hp hid w s hs
          (fun e he => hsaves e (List.mem_append_left _ he))
        obtain ⟨c1, c2⟩ := ih (found + 1) _ _ a1 hrest
          (fun e he => hsaves e (List.mem_append_right _ he))
        refine ⟨c1, fun p1 id1 hp1 hid1 => ?_⟩
        dsimp only
        rw [c2 p1 id1 hp1 hid1, a2 p1 id1 hp1 hid1, recorded_append]
        simp [Bool.or_assoc]

/-- The loop over the platforms, when none of its saves fails and the storage can be
trusted: afterwards a story is recorded for a platform exactly if it was before or the loop
recorded it. -/
theorem platformLoop_posted {ω σ : Type} (net : Net ω) (st : Storage σ) (Inv : σ → Prop)
    (posted : σ → String → Int → Bool) (law : Truthful st Inv posted) (quota : Int)
    (ids : List Int) (hids : ∀ id ∈ ids, isInt id) (plats : List (String × String)) :
    ∀ (w : ω) (s : σ), Inv s → (∀ x ∈ plats, x.1 ∈ channels) →
      (∀ e ∈ (platformLoop net st quota ids plats w s).trace, isFailedSave e = false) →
      Inv (platformLoop net st quota ids plats w s).s ∧
      ∀ p1 id1, p1 ∈ channels → isInt id1 →
        posted (platformLoop net st quota ids plats w s).s p1 id1
          = (posted s p1 id1
              || decide ((p1, id1) ∈ recorded (platformLoop net st quota ids plats w s).trace)) := by
  induction plats with
  | nil =>
    intro w s hs _ _
    simp [platformLoop, hs, recorded]
  | cons x rest ih =>
    intro w s hs hch hsaves
    obtain ⟨p, u⟩ := x
    have hrestch : ∀ y ∈ rest, y.1 ∈ channels := fun y hy => hch y (List.mem_cons_of_mem _ hy)
    have hp : p ∈ channels := hch (p, u) (List.mem_cons_self _ _)
    by_cases hu : u = ""
    · subst hu
      rw [platformLoop_skip] at hsaves ⊢
      exact ih w s hs hrestch hsaves
    · cases herr : (storyLoop net st quota p u ids 0 w s).err with
      | some e1 =>
        rw [platformLoop_abort net st quota ids p u rest w s e1 hu herr] at hsaves ⊢
        exact storyLoop_posted net st Inv posted law quota p u hp ids 0 w s hs hids hsaves
      | none =>
        rw [platformLoop_next net st quota ids p u rest w s hu herr] at hsaves ⊢
        obtain ⟨a1, a2⟩ := storyLoop_posted net st Inv posted law quota p u hp ids 0 w s hs
          hids (fun e he => hsaves e (List.mem_append_left _ he))
        obtain ⟨c1, c2⟩ := ih _ _ a1 hrestch
          (fun e he => hsaves e (List.mem_append_right _ he))
        refine ⟨c1, fun p1 id1 hp1 hid1 => ?_⟩
        dsimp only
        rw [c2 p1 id1 hp1 hid1, a2 p1 id1 hp1 hid1, recorded_append]
        simp [Bool.or_assoc]

/-- One iteration with a clean trace on a storage that can be trusted: a postable new story
is delivered and recorded, every other story is skipped. -/
theorem processStory_run {ω σ : Type} (net : Net ω) (st : Storage σ) (Inv : σ → Prop)
    (posted : σ → String → Int → Bool) (law : Truthful st Inv posted) (det : Int → Res Story)
    (p u : String) (id : Int) (hp : p ∈ channels) (hid : isInt id) (w : ω) (s : σ)
    (hs : Inv s) (hclean : Clean p det (processStory net st p u id w s).trace) :
    (processStory net st p u id w s).ctl
        = (if postable posted det s p id then Ctl.announced else Ctl.skipped) ∧
      delivered (processStory net st p u id w s).trace
        = (if postable posted det s p id then [(p, id)] else []) ∧
      recorded (processStory net st p u id w s).trace
        = (if postable posted det s p id then [(p, id)] else []) := by
  have hsound := law.read_sound s p id hs hp hid
  revert hclean
  apply processStory_cases net st p u id w s
    (fun r => Clean p det r.trace →
      r.ctl = (if postable posted det s p id then Ctl.announced else Ctl.skipped) ∧
      delivered r.trace = (if postable posted det s p id then [(p, id)] else []) ∧
      recorded r.trace = (if postable posted det s p id then [(p, id)] else []))
  · intro b e s1 _ hclean
    have := hclean.1 (Event.isPosted p id b (some e)) (by simp)
    simp [isFailedCheck] at this
  · intro s1 hc _
    rw [hc] at hsound
    have h : true = posted s p id := hsound rfl
    have hpb : postable posted det s p id = false := by
      simp only [postable, ← h]; rfl
    simp [hpb, delivered, deliveryOf, recorded, recordOf]
  · intro s1 e w1 _ _ hclean
    have hd : det id = Res.error e :=
      (hclean.2.2.2 (id, Res.error e) (by simp [fetchesFor, fetchOf])).symm
    have hpb : postable posted det s p id = false := by
      simp [postable, hasURL, hd]
    simp [hpb, delivered, deliveryOf, recorded, recordOf]
  · intro s1 story w1 _ _ hu hclean
    have hd : det id = Res.ok story :=
      (hclean.2.2.2 (id, Res.ok story) (by simp [fetchesFor, fetchOf])).symm
    have hpb : postable posted det s p id = false := by
      simp [postable, hasURL, hd, hu]
    simp [hpb, delivered, deliveryOf, recorded, recordOf]
  · intro s1 story w1 e _ _ _ _ hclean
    have := hclean.2.1 (Event.post p id (some e)) (by simp)
    simp [isFailedPost] at this
  · intro s1 story w1 hc _ hu _ hclean
    rw [hc] at hsound
    have h : false = posted s p id := hsound rfl
    have hd : det id = Res.ok story :=
      (hclean.2.2.2 (id, Res.ok story) (by simp [fetchesFor, fetchOf])).symm
    have hpb : postable posted det s p id = true := by
      simp [postable, hasURL, hd, hu, ← h]
    have hsave : (st.SavePostedStory s1 p (Itoa id)).1 = none := by
      have := hclean.2.2.1 (Event.save p id (st.SavePostedStory s1 p (Itoa id)).1) (by simp)
      cases hx : (st.SavePostedStory s1 p (Itoa id)).1 with
      | none => rfl
      | some e1 => rw [hx] at this; simp [isFailedSave] at this
    refine ⟨by simp [hpb], ?_, ?_⟩
    · dsimp only
      rw [delivered_append, delivered_append, delivered_attempts]
      simp [hpb, delivered, deliveryOf]
    · dsimp only
      rw [recorded_append, recorded_append, recorded_attempts, hsave]
      simp [hpb, recorded, recordOf]

/-- The loop over the story IDs of one platform with a clean trace on a storage that can be
trusted: it does not fail, and it delivers and records the first `quota - found` postable new
stories of the list, in the order of the list, and nothing else. -/
theorem storyLoop_run {ω σ : Type} (net : Net ω) (st : Storage σ) (Inv : σ → Prop)
    (posted : σ → String → Int → Bool) (law : Truthful st Inv posted) (det : Int → Res Story)
    (quota : Int) (p u : String) (hp : p ∈ channels) (ids : List Int) :
    ∀ (found : Int) (w : ω) (s : σ), Inv s → ids.Nodup → (∀ id ∈ ids, isInt id) →
      Clean p det (storyLoop net st quota p u ids found w s).trace →
      (storyLoop net st quota p u ids found w s).err = none ∧
      delivered (storyLoop net st quota p u ids found w s).trace
        = ((ids.filter (postable posted det s p)).take (quota - found).toNat).map (Prod.mk p) ∧
      recorded (storyLoop net st quota p u ids found w s).trace
        = ((ids.filter (postable posted det s p)).take (quota - found).toNat).map
            (Prod.mk p) := by
  induction ids with
  | nil =>
    intro found w s _ _ _ _
    simp [storyLoop, delivered, recorded]
  | cons id rest ih =>
    intro found w s hs hnd hids hclean
    by_cases hq : found ≥ quota
    · rw [storyLoop_quota net st quota p u _ found w s hq]
      have h0 : (quota - found).toNat = 0 := by omega
      simp [h0, delivered, recorded]
    · have hid : isInt id := hids id (List.mem_cons_self id rest)
      have hrest : ∀ i ∈ rest, isInt i := fun i hi => hids i (List.mem_cons_of_mem id hi)
      have hndrest : rest.Nodup := (List.nodup_cons.1 hnd).2
      have hnotin : id ∉ rest := (List.nodup_cons.1 hnd).1
      cases hc : (processStory net st p u id w s).ctl with
      | abort e =>
        rw [storyLoop_abort net st quota p u id rest found w s e hq hc] at hclean
        obtain ⟨hctl, _, _⟩ :=
          processStory_run net st Inv posted law det p u id hp hid w s hs hclean
        rw [hc] at hctl
        split at hctl <;> cases hctl
      | skipped =>
        rw [storyLoop_skipped net st quota p u id rest found w s hq hc] at hclean ⊢
        have hca := Clean_left _ _ _ _ hclean
        have hcc := Clean_right _ _ _ _ hclean
        obtain ⟨hctl, hdel, hrec⟩ :=
          processStory_run net st Inv posted law det p u id hp hid w s hs hca
        obtain ⟨hinv1, hposted1⟩ :=
          processStory_posted net st Inv posted law p u id hp hid w s hs hca.2.2.1
        have hpb : postable posted det s p id = false := by
          rw [hc] at hctl
          cases h : postable posted det s p id
          · rfl
          · rw [h] at hctl; simp at hctl
        rw [hpb] at hdel hrec
        simp only [Bool.false_eq_true, if_false] at hdel hrec
        have hcongr : rest.filter (postable posted det (processStory net st p u id w s).s p)
            = rest.filter (postable posted det s p) := by
          apply List.filter_congr
          intro x hx
          have hx1 := hposted1 p x hp (hrest x hx)
          rw [hrec] at hx1
          simp only [List.not_mem_nil, decide_False, Bool.or_false] at hx1
          simp only [postable, hx1]
        obtain ⟨e1, e3, e4⟩ := ih found _ _ hinv1 hndrest hrest hcc
        rw [hcongr] at e3 e4
        have hL : (id :: rest).filter (postable posted det s p)
            = rest.filter (postable posted det s p) := by
          rw [List.filter_cons_of_neg (by rw [hpb]; simp)]
        refine ⟨e1, ?_, ?_⟩
        · dsimp only
          rw [delivered_append, hdel, e3, hL]; rfl
        · dsimp only
          rw [recorded_append, hrec, e4, hL]; rfl
      | announced =>
        rw [storyLoop_announced net st quota p u id rest found w s hq hc] at hclean ⊢
        have hca := Clean_left _ _ _ _ hclean
        have hcc := Clean_right _ _ _ _ hclean
        obtain ⟨hctl, hdel, hrec⟩ :=
          processStory_run net st Inv posted law det p u id hp hid w s hs hca
        obtain ⟨hinv1, hposted1⟩ :=
          processStory_posted net st Inv posted law p u id hp hid w s hs hca.2.2.1
        have hpb : postable posted det s p id = true := by
          rw [hc] at hctl
          cases h : postable posted det s p id
          · rw [h] at hctl; simp at hctl
          · rfl
        rw [hpb] at hdel hrec
        simp only [if_true] at hdel hrec
        have hk : (quota - found).toNat = (quota - (found + 1)).toNat + 1 := by omega
        have hcongr : rest.filter (postable posted det (processStory net st p u id w s).s p)
            = rest.filter (postable posted det s p) := by
          apply List.filter_congr
          intro x hx
          have hne : x ≠ id := fun e => hnotin (e ▸ hx)
          have hx1 := hposted1 p x hp (hrest x hx)
          rw [hrec] at hx1
          simp only [List.mem_singleton, Prod.mk.injEq, true_and, hne, decide_False,
            Bool.or_false] at hx1
          simp only [postable, hx1]
        obtain ⟨e1, e3, e4⟩ := ih (found + 1) _ _ hinv1 hndrest hrest hcc
        rw [hcongr] at e3 e4
        have hL : ((id :: rest).filter (postable posted det s p)).take (quota - found).toNat
            = id :: (rest.filter (postable posted det s p)).take (quota - (found + 1)).toNat := by
          rw [List.filter_cons_of_pos hpb, hk, List.take_succ_cons]
        refine ⟨e1, ?_, ?_⟩
        · dsimp only
          rw [delivered_append, hdel, e3, hL]; rfl
        · dsimp only
          rw [recorded_append, hrec, e4, hL]; rfl

theorem filter_platform (p p1 : String) (L : List Int) :
    ((L.map (Prod.mk p)).filter (fun x => decide (x.1 = p1))).map Prod.snd
      = if p = p1 then L else [] := by
  induction L with
  | nil => simp
  | cons a t ih =>
    by_cases h : p = p1
    · simp only [h, if_true] at ih ⊢
      simp [List.filter_cons, ih]
    · simp only [h, if_false] at ih ⊢
      simp [List.filter_cons, h, ih]

theorem isEnabled_cons (p u : String) (rest : List (String × String)) (p1 : String) :
    isEnabled ((p, u) :: rest) p1
      = ((decide (p = p1) && decide (u ≠ "")) || isEnabled rest p1) := by
  simp [isEnabled, List.any_cons]

theorem isEnabled_not_mem (rest : List (String × String)) (p : String)
    (h : p ∉ rest.map Prod.fst) : isEnabled rest p = false := by
  induction rest with
  | nil => rfl
  | cons x t ih =>
    obtain ⟨q, u⟩ := x
    simp only [List.map_cons, List.mem_cons, not_or] at h
    rw [isEnabled_cons, ih h.2]
    have : ¬ q = p := fun e => h.1 e.symm
    simp [this]

theorem firstPostable_congr {σ : Type} (posted : σ → String → Int → Bool)
    (det : Int → Res Story) (quota : Int) (ids : List Int) (s s1 : σ) (p : String)
    (h : ∀ id ∈ ids, posted s1 p id = posted s p id) :
    firstPostable posted det quota ids s1 p = firstPostable posted det quota ids s p := by
  unfold firstPostable
  congr 1
  apply List.filter_congr
  intro x hx
  simp only [postable, h x hx]

/-- Events about one platform deliver nothing to another platform and record nothing for
it. -/
theorem no_key_for (q p : String) (t : List Event) (hne : q ≠ p)
    (h : ∀ e ∈ t, ∀ k ∈ eventKey e, k.1 = q) :
    deliveredTo p t = [] ∧ recordedFor p t = [] ∧ ∀ id, (p, id) ∉ recorded t := by
  have hrec : ∀ x ∈ recorded t, x.1 ≠ p := by
    intro x hx hxp
    simp only [recorded, List.mem_filterMap] at hx
    obtain ⟨e, he, hr⟩ := hx
    have he2 : e = Event.save x.1 x.2 none := (recordOf_eq_some e x.1 x.2).1 hr
    subst he2
    have := h _ he (x.1, x.2) rfl
    exact hne (this.symm.trans hxp)
  refine ⟨deliveredTo_eq_nil p t ?_, ?_, fun id hm => hrec (p, id) hm rfl⟩
  · intro x hx hxp
    have hm : Event.post x.1 x.2 none ∈ t := (mem_delivered t x.1 x.2).1 hx
    have := h _ hm (x.1, x.2) rfl
    exact hne (this.symm.trans hxp)
  · unfold recordedFor
    rw [List.map_eq_nil_iff, List.filter_eq_nil_iff]
    intro x hx
    simpa using hrec x hx

/-- The loop over the platforms with a clean trace on a storage that can be trusted: it does
not fail, and for the platform `p` it delivers and records the first `quota` postable new
stories of the list, in the order of the list, and nothing else. -/
theorem platformLoop_run {ω σ : Type} (net : Net ω) (st : Storage σ) (Inv : σ → Prop)
    (posted : σ → String → Int → Bool) (law : Truthful st Inv posted) (det : Int → Res Story)
    (quota : Int) (ids : List Int) (hnd : ids.Nodup) (hids : ∀ id ∈ ids, isInt id)
    (p : String) (hp : p ∈ channels) (plats : List (String × String)) :
    ∀ (w : ω) (s : σ), Inv s → (plats.map Prod.fst).Nodup → (∀ x ∈ plats, x.1 ∈ channels) →
      Clean p det (platformLoop net st quota ids plats w s).trace →
      (platformLoop net st quota ids plats w s).err = none ∧
      deliveredTo p (platformLoop net st quota ids plats w s).trace
        = (if isEnabled plats p then firstPostable posted det quota ids s p else []) ∧
      recordedFor p (platformLoop net st quota ids plats w s).trace
        = (if isEnabled plats p then firstPostable posted det quota ids s p else []) := by
  induction plats with
  | nil =>
    intro w s _ _ _ _
    simp [platformLoop, deliveredTo, recordedFor, delivered, recorded, isEnabled]
  | cons x rest ih =>
    intro w s hs hnames hch hclean
    obtain ⟨q, u⟩ := x
    simp only [List.map_cons, List.nodup_cons] at hnames
    have hrestch : ∀ y ∈ rest, y.1 ∈ channels := fun y hy => hch y (List.mem_cons_of_mem _ hy)
    have hq : q ∈ channels := hch (q, u) (List.mem_cons_self _ _)
    by_cases hu : u = ""
    · subst hu
      rw [platformLoop_skip] at hclean ⊢
      have hen : isEnabled ((q, "") :: rest) p = isEnabled rest p := by
        rw [isEnabled_cons]; simp
      rw [hen]
      exact ih w s hs hnames.2 hrestch hclean
    · cases herr : (storyLoop net st quota q u ids 0 w s).err with
      | some e1 =>
        rw [platformLoop_abort net st quota ids q u rest w s e1 hu herr] at hclean
        obtain ⟨_, _, _, hlast⟩ := storyLoop_shape net st quota q u ids 0 w s
        obtain ⟨p2, id2, pre, hpre⟩ := hlast e1 herr
        dsimp only at hclean
        rw [hpre] at hclean
        have := hclean.2.1 (Event.post p2 id2 (some e1)) (by simp)
        simp [isFailedPost] at this
      | none =>
        rw [platformLoop_next net st quota ids q u rest w s hu herr] at hclean ⊢
        have hca := Clean_left _ _ _ _ hclean
        have hcc := Clean_right _ _ _ _ hclean
        obtain ⟨a1, a2⟩ := storyLoop_posted net st Inv posted law quota q u hq ids 0 w s hs
          hids hca.2.2.1
        have hen : isEnabled ((q, u) :: rest) p = (decide (q = p) || isEnabled rest p) := by
          rw [isEnabled_cons]; simp [hu]
        obtain ⟨e1, e3, e4⟩ := ih _ _ a1 hnames.2 hrestch hcc
        by_cases hqp : q = p
        · subst hqp
          obtain ⟨_, l3, l4⟩ := storyLoop_run net st Inv posted law det quota q u hq ids 0 w s
            hs hnd hids hca
          rw [Int.sub_zero] at l3 l4
          have hoff : isEnabled rest q = false := isEnabled_not_mem rest q hnames.1
          rw [hoff] at e3 e4
          simp only [Bool.false_eq_true, if_false] at e3 e4
          refine ⟨e1, ?_, ?_⟩
          · dsimp only
            rw [deliveredTo_append, e3, hen]
            unfold deliveredTo
            rw [l3, filter_platform]
            simp [firstPostable]
          · dsimp only
            rw [recordedFor_append, e4, hen]
            unfold recordedFor
            rw [l4, filter_platform]
            simp [firstPostable]
        · obtain ⟨n1, n2, n3⟩ := no_key_for q p _ hqp
            (fun e he k hk => (storyLoop_keys net st quota q u ids 0 w s e he k hk).1)
          have hsame : firstPostable posted det quota ids
                (storyLoop net st quota q u ids 0 w s).s p
              = firstPostable posted det quota ids s p := by
            apply firstPostable_congr
            intro id hid
            rw [a2 p id hp (hids id hid)]
            simp [n3 id]
          rw [hsame] at e3 e4
          refine ⟨e1, ?_, ?_⟩
          · dsimp only
            rw [deliveredTo_append, n1, e3, hen]
            simp [hqp]
          · dsimp only
            rw [recordedFor_append, n2, e4, hen]
            simp [hqp]

theorem isEnabled_platforms (config : Config) (b : Bool) (p u : String)
    (h : (p, u) ∈ platforms config b) (hu : u ≠ "") : isEnabled (platforms config b) p = true := by
  unfold isEnabled
  rw [List.any_eq_true]
  exact ⟨(p, u), h, by simp [hu]⟩

theorem fetchOf_of_not_check (p : String) (e : Event) (rest : List Event) (h : ¬ isCheck e) :
    fetchOf p e rest = none := by
  cases e <;> first | rfl | exact absurd trivial h

theorem fetchOf_before_check (p : String) (e : Event) (b : List Event)
    (hb : ∀ y ∈ b.head?, isCheck y) : fetchOf p e b = none := by
  cases b with
  | nil => cases e <;> rfl
  | cons y t =>
    have hy : isCheck y := hb y (by simp)
    cases y with
    | isPosted _ _ _ _ => cases e <;> rfl
    | _ => exact hy.elim

/-- The detail fetches of two traces joined are those of the first and those of the second,
when the second does not start with a detail fetch. -/
theorem fetchesFor_append (p : String) (a b : List Event) (hb : ∀ y ∈ b.head?, isCheck y) :
    fetchesFor p (a ++ b) = fetchesFor p a ++ fetchesFor p b := by
  induction a with
  | nil => rfl
  | cons e t ih =>
    simp only [List.cons_append, fetchesFor, ih, List.append_assoc]
    congr 2
    cases t with
    | nil =>
      change fetchOf p e b = fetchOf p e []
      rw [fetchOf_before_check p e b hb]
      cases e <;> rfl
    | cons y t2 => cases e <;> cases y <;> rfl

theorem fetchesFor_no_check (p : String) (t : List Event) (h : ∀ e ∈ t, ¬ isCheck e) :
    fetchesFor p t = [] := by
  induction t with
  | nil => rfl
  | cons e t ih =>
    simp only [fetchesFor, fetchOf_of_not_check p e t (h e (List.mem_cons_self _ _)),
      Option.toList_none, List.nil_append]
    exact ih (fun x hx => h x (List.mem_cons_of_mem _ hx))

theorem not_check_of_attempt (u : String) (pl : Payload) (e : Event) (h : isAttemptOf u pl e) :
    ¬ isCheck e := by
  cases e <;> simp only [isAttemptOf] at h <;> simp [isCheck]

/-- An iteration makes at most one detail fetch, for its own story. -/
theorem processStory_fetches {ω σ : Type} (net : Net ω) (st : Storage σ) (p u : String)
    (id : Int) (w : ω) (s : σ) (p1 : String) :
    ((fetchesFor p1 (processStory net st p u id w s).trace).map Prod.fst).Sublist [id] := by
  have tail : ∀ (r : Res Story) (X : List Event), (∀ e ∈ X, ¬ isCheck e) →
      ((fetchesFor p1 (Event.isPosted p id false none :: Event.details id r :: X)).map
        Prod.fst).Sublist [id] := by
    intro r X hX
    have h0 : fetchesFor p1 (Event.details id r :: X) = [] := by
      apply fetchesFor_no_check
      intro e he
      rcases List.mem_cons.1 he with rfl | he
      · simp [isCheck]
      · exact hX e he
    have e0 : fetchesFor p1 (Event.isPosted p id false none :: Event.details id r :: X)
        = (fetchOf p1 (Event.isPosted p id false none) (Event.details id r :: X)).toList
          ++ fetchesFor p1 (Event.details id r :: X) := rfl
    rw [e0, h0]
    by_cases hp : p = p1
    · simp [fetchOf, hp]
    · simp [fetchOf, hp]
  apply processStory_cases net st p u id w s
    (fun r => ((fetchesFor p1 r.trace).map Prod.fst).Sublist [id])
  · intro b e s1 _; simp [fetchesFor, fetchOf]
  · intro s1 _; simp [fetchesFor, fetchOf]
  · intro s1 e w1 _ _
    exact tail _ [] (by simp)
  · intro s1 story w1 _ _ _
    exact tail _ [] (by simp)
  · intro s1 story w1 e _ _ _ _
    refine tail _ _ ?_
    intro x hx
    rcases List.mem_append.1 hx with hx | hx
    · exact not_check_of_attempt u _ x (postToWebhook_events net p u _ w1 x hx)
    · simp only [List.mem_singleton] at hx
      subst hx
      simp [isCheck]
  · intro s1 story w1 _ _ _ _
    refine tail _ _ ?_
    intro x hx
    rcases List.mem_append.1 hx with hx | hx
    · exact not_check_of_attempt u _ x (postToWebhook_events net p u _ w1 x hx)
    · simp only [List.mem_cons, List.mem_singleton, List.not_mem_nil, or_false] at hx
      rcases hx with rfl | rfl <;> simp [isCheck]

/-- An iteration for one platform makes no detail fetch for another platform. -/
theorem processStory_fetches_other {ω σ : Type} (net : Net ω) (st : Storage σ) (p u : String)
    (id : Int) (w : ω) (s : σ) (p1 : String) (hne : p ≠ p1) :
    fetchesFor p1 (processStory net st p u id w s).trace = [] := by
  have tail : ∀ (r : Res Story) (X : List Event), (∀ e ∈ X, ¬ isCheck e) →
      fetchesFor p1 (Event.isPosted p id false none :: Event.details id r :: X) = [] := by
    intro r X hX
    have h0 : fetchesFor p1 (Event.details id r :: X) = [] := by
      apply fetchesFor_no_check
      intro e he
      rcases List.mem_cons.1 he with rfl | he
      · simp [isCheck]
      · exact hX e he
    have e0 : fetchesFor p1 (Event.isPosted p id false none :: Event.details id r :: X)
        = (fetchOf p1 (Event.isPosted p id false none) (Event.details id r :: X)).toList
          ++ fetchesFor p1 (Event.details id r :: X) := rfl
    rw [e0, h0]
    simp [fetchOf, hne]
  apply processStory_cases net st p u id w s (fun r => fetchesFor p1 r.trace = [])
  · intro b e s1 _; simp [fetchesFor, fetchOf]
  · intro s1 _; simp [fetchesFor, fetchOf]
  · intro s1 e w1 _ _
    exact tail _ [] (by simp)
  · intro s1 story w1 _ _ _
    exact tail _ [] (by simp)
  · intro s1 story w1 e _ _ _ _
    refine tail _ _ ?_
    intro x hx
    rcases List.mem_append.1 hx with hx | hx
    · exact not_check_of_attempt u _ x (postToWebhook_events net p u _ w1 x hx)
    · simp only [List.mem_singleton] at hx
      subst hx
      simp [isCheck]
  · intro s1 story w1 _ _ _ _
    refine tail _ _ ?_
    intro x hx
    rcases List.mem_append.1 hx with hx | hx
    · exact not_check_of_attempt u _ x (postToWebhook_events net p u _ w1 x hx)
    · simp only [List.mem_cons, List.mem_singleton, List.not_mem_nil, or_false] at hx
      rcases hx with rfl | rfl <;> simp [isCheck]

/-- The loop over the story IDs of a platform fetches the details of listed stories, in the
order of the list and once for each entry at most; it fetches nothing for another platform. -/
theorem storyLoop_fetches {ω σ : Type} (net : Net ω) (st : Storage σ) (quota : Int)
    (p u : String) (p1 : String) (ids : List Int) :
    ∀ (found : Int) (w : ω) (s : σ),
      ((fetchesFor p1 (storyLoop net st quota p u ids found w s).trace).map Prod.fst).Sublist
          ids ∧
        (p ≠ p1 → fetchesFor p1 (storyLoop net st quota p u ids found w s).trace = []) := by
  induction ids with
  | nil => intro found w s; simp [storyLoop, fetchesFor]
  | cons id rest ih =>
    intro found w s
    by_cases hq : found ≥ quota
    · rw [storyLoop_quota net st quota p u _ found w s hq]
      simp [fetchesFor]
    · have a1 := processStory_fetches net st p u id w s p1
      have a2 := processStory_fetches_other net st p u id w s p1
      have join : ∀ (found1 : Int),
          ((fetchesFor p1 ((processStory net st p u id w s).trace ++
              (storyLoop net st quota p u rest found1 (processStory net st p u id w s).w
                (processStory net st p u id w s).s).trace)).map Prod.fst).Sublist (id :: rest) ∧
            (p ≠ p1 → fetchesFor p1 ((processStory net st p u id w s).trace ++
              (storyLoop net st quota p u rest found1 (processStory net st p u id w s).w
                (processStory net st p u id w s).s).trace) = []) := by
        intro found1
        obtain ⟨c1, c2⟩ := ih found1 (processStory net st p u id w s).w
          (processStory net st p u id w s).s
        rw [fetchesFor_append p1 _ _ (storyLoop_shape net st quota p u rest found1 _ _).2.1]
        refine ⟨?_, fun hne => by rw [a2 hne, c2 hne]; rfl⟩
        rw [List.map_append]
        exact List.Sublist.append a1 c1
      cases hc : (processStory net st p u id w s).ctl with
      | abort e =>
        rw [storyLoop_abort net st quota p u id rest found w s e hq hc]
        exact ⟨a1.trans (by simp), a2⟩
      | skipped =>
        rw [storyLoop_skipped net st quota p u id rest found w s hq hc]
        exact join found
      | announced =>
        rw [storyLoop_announced net st quota p u id rest found w s hq hc]
        exact join (found + 1)

/-- The loop over the platforms fetches for a platform the details of listed stories, in the
order of the list and once for each entry at most. -/
theorem platformLoop_fetches {ω σ : Type} (net : Net ω) (st : Storage σ) (quota : Int)
    (ids : List Int) (p1 : String) (plats : List (String × String)) :
    ∀ (w : ω) (s : σ), (plats.map Prod.fst).Nodup →
      ((fetchesFor p1 (platformLoop net st quota ids plats w s).trace).map Prod.fst).Sublist
          ids ∧
        (p1 ∉ plats.map Prod.fst →
          fetchesFor p1 (platformLoop net st quota ids plats w s).trace = []) := by
  induction plats with
  | nil => intro w s _; simp [platformLoop, fetchesFor]
  | cons x rest ih =>
    intro w s hnames
    obtain ⟨p, u⟩ := x
    simp only [List.map_cons, List.nodup_cons] at hnames
    by_cases hu : u = ""
    · subst hu
      rw [platformLoop_skip]
      obtain ⟨c1, c2⟩ := ih w s hnames.2
      exact ⟨c1, fun h => c2 (fun hm => h (List.mem_cons_of_mem _ hm))⟩
    · obtain ⟨a1, a2⟩ := storyLoop_fetches net st quota p u p1 ids 0 w s
      cases herr : (storyLoop net st quota p u ids 0 w s).err with
      | some e1 =>
        rw [platformLoop_abort net st quota ids p u rest w s e1 hu herr]
        exact ⟨a1, fun h => a2 (fun e => h (by rw [e]; simp))⟩
      | none =>
        rw [platformLoop_next net st quota ids p u rest w s hu herr]
        obtain ⟨c1, c2⟩ := ih (storyLoop net st quota p u ids 0 w s).w
          (storyLoop net st quota p u ids 0 w s).s hnames.2
        dsimp only
        rw [fetchesFor_append p1 _ _ (platformLoop_shape net st quota ids rest _ _).2.1]
        constructor
        · by_cases hpp : p = p1
          · subst hpp
            rw [c2 hnames.1, List.append_nil]
            exact a1
          · rw [a2 hpp, List.nil_append]
            exact c1
        · intro h
          simp only [List.map_cons, List.mem_cons, not_or] at h
          rw [a2 (fun e => h.1 e.symm), c2 h.2]
          rfl

theorem find_of_nodup_keys (L : List (Int × Res Story)) (h : (L.map Prod.fst).Nodup) :
    ∀ x ∈ L, L.find? (fun y => decide (y.1 = x.1)) = some x := by
  induction L with
  | nil => intro x hx; cases hx
  | cons y t ih =>
    intro x hx
    simp only [List.map_cons, List.nodup_cons] at h
    rcases List.mem_cons.1 hx with rfl | hx
    · simp
    · have hne : ¬ y.1 = x.1 := by
        intro e
        exact h.1 (by rw [e]; exact List.mem_map_of_mem Prod.fst hx)
      rw [List.find?_cons_of_neg _ (by simpa using hne)]
      exact ih h.2 x hx

/-- The condition on `det` excludes no run: when the top-stories list has no repeated ID, a
run fetches the details of a story once at most for a platform, so that some `det` gives the
results of all the detail fetches that the run made for the platform. -/
theorem fetches_have_det {ω σ : Type} (net : Net ω) (st : Storage σ) (config : Config)
    (b : Bool) (w : ω) (s : σ) (ids : List Int) (w1 : ω)
    (htop : net.fetchTopStories w = (Res.ok ids, w1)) (hnd : ids.Nodup) (p : String) :
    ∃ det : Int → Res Story,
      ∀ x ∈ fetchesFor p (fetchAndPostNews net st config b w s).trace, x.2 = det x.1 := by
  have hkeys : ((fetchesFor p (fetchAndPostNews net st config b w s).trace).map
      Prod.fst).Nodup := by
    rw [fetchAndPostNews_ok net st config b w s ids w1 htop]
    have h1 := (platformLoop_fetches net st config.FetchTopStoriesAmount ids p
      (platforms config b) w1 s (platforms_nodup config b)).1
    have h2 : fetchesFor p (Event.topStories (Res.ok ids) ::
        (platformLoop net st config.FetchTopStoriesAmount ids (platforms config b) w1 s).trace)
        = fetchesFor p
          (platformLoop net st config.FetchTopStoriesAmount ids (platforms config b) w1 s).trace := by
      simp [fetchesFor, fetchOf]
    dsimp only
    rw [h2]
    exact h1.nodup hnd
  refine ⟨fun id => match (fetchesFor p (fetchAndPostNews net st config b w s).trace).find?
      (fun y => decide (y.1 = id)) with
    | some y => y.2
    | none => Res.error "not fetched", ?_⟩
  intro x hx
  simp only [find_of_nodup_keys _ hkeys x hx]

theorem mem_recorded_iff (t : List Event) (p : String) (id : Int) :
    (p, id) ∈ recorded t ↔ id ∈ recordedFor p t := by
  simp [recordedFor]

/-- C4, the claim as stated, fails when a membership test fails. The run on the list
`[7, 8, 9]` with the quota 2 and a storage that can be trusted but whose first membership test
returns an error: the list has no repeated ID, the channel `discord` is enabled, every
delivery and every save of the run succeeds, and every detail fetch returns a story with a
URL, so that the first two postable new stories of the list are 7 and 8; the run skips story 7,
whose membership test failed, and delivers to `discord` and records the stories 8 and 9. -/
theorem quota_failed_check_counterexample :
    [(7 : Int), 8, 9].Nodup ∧ 0 ≤ quotaTwo.FetchTopStoriesAmount ∧
    ("discord", "https://discord.example/hook") ∈ platforms quotaTwo true ∧
    Truthful flakyDB (fun _ => True) flakyPosted ∧
    Event.isPosted "discord" 7 false (some "database is locked")
      ∈ (fetchAndPostNews (reliableNet (Res.ok [7, 8, 9]) scenarioDetails) flakyDB quotaTwo true
          () (0, [])).trace ∧
    (∀ e ∈ (fetchAndPostNews (reliableNet (Res.ok [7, 8, 9]) scenarioDetails) flakyDB quotaTwo
        true () (0, [])).trace, isFailedPost e = false) ∧
    (∀ e ∈ (fetchAndPostNews (reliableNet (Res.ok [7, 8, 9]) scenarioDetails) flakyDB quotaTwo
        true () (0, [])).trace, isFailedSave e = false) ∧
    (∀ x ∈ fetchesFor "discord" (fetchAndPostNews (reliableNet (Res.ok [7, 8, 9])
        scenarioDetails) flakyDB quotaTwo true () (0, [])).trace, x.2 = scenarioDetails x.1) ∧
    ([(7 : Int), 8, 9].filter (postable flakyPosted scenarioDetails (0, []) "discord")).take
        quotaTwo.FetchTopStoriesAmount.toNat = [7, 8] ∧
    deliveredTo "discord" (fetchAndPostNews (reliableNet (Res.ok [7, 8, 9]) scenarioDetails)
      flakyDB quotaTwo true () (0, [])).trace = [8, 9] ∧
    recordedFor "discord" (fetchAndPostNews (reliableNet (Res.ok [7, 8, 9]) scenarioDetails)
      flakyDB quotaTwo true () (0, [])).trace = [8, 9] ∧
    deliveredTo "discord" (fetchAndPostNews (reliableNet (Res.ok [7, 8, 9]) scenarioDetails)
      flakyDB quotaTwo true () (0, [])).trace
      ≠ ([(7 : Int), 8, 9].filter (postable flakyPosted scenarioDetails (0, []) "discord")).take
        quotaTwo.FetchTopStoriesAmount.toNat ∧
    (fetchAndPostNews (reliableNet (Res.ok [7, 8, 9]) scenarioDetails) flakyDB quotaTwo true
      () (0, [])).err = none :=
  ⟨by decide, by decide, by decide, flakyDB_truthful, by decide, by decide, by decide,
    by decide, by decide, by decide, by decide, by decide, by decide⟩

/-- C4, amended. Per-run quota, in source order. On a storage that can be trusted, for every
enabled channel `p`, every quota `N` (a negative one counts as 0) and every top-stories list
without repeated IDs: when in the run no membership test for `p`, no delivery and no save
fails, the run does not fail and it delivers to `p` and records for `p` exactly the first
`min N k` postable new stories, in the order of the list, where `k` is the number of listed
IDs that are not posted to `p` before the run, whose detail fetch succeeds and whose URL is
not empty. Here `det` tells for every story whether its detail fetch succeeds and with which
URL, and it is any function that gives the results of the detail fetches that the run made
for `p`. After the run a story is posted to `p` exactly if it was before or is one of these
`min N k` stories; in particular the other `k - N` postable new stories are neither delivered
nor recorded, and stay not posted. -/
theorem quota_in_source_order_amended {ω σ : Type} (net : Net ω) (st : Storage σ)
    (Inv : σ → Prop) (posted : σ → String → Int → Bool) (law : Truthful st Inv posted)
    (config : Config) (b : Bool) (w : ω) (s : σ) (hs : Inv s) (ids : List Int) (w1 : ω)
    (htop : net.fetchTopStories w = (Res.ok ids, w1)) (hnd : ids.Nodup)
    (hids : ∀ id ∈ ids, isInt id) (p u : String) (hmem : (p, u) ∈ platforms config b)
    (hu : u ≠ "") (det : Int → Res Story)
    (hchecks : ∀ e ∈ (fetchAndPostNews net st config b w s).trace, isFailedCheck p e = false)
    (hposts : ∀ e ∈ (fetchAndPostNews net st config b w s).trace, isFailedPost e = false)
    (hsaves : ∀ e ∈ (fetchAndPostNews net st config b w s).trace, isFailedSave e = false)
    (hdet : ∀ x ∈ fetchesFor p (fetchAndPostNews net st config b w s).trace, x.2 = det x.1) :
    (fetchAndPostNews net st config b w s).err = none ∧
      deliveredTo p (fetchAndPostNews net st config b w s).trace
        = (ids.filter (postable posted det s p)).take config.FetchTopStoriesAmount.toNat ∧
      recordedFor p (fetchAndPostNews net st config b w s).trace
        = (ids.filter (postable posted det s p)).take config.FetchTopStoriesAmount.toNat ∧
      (deliveredTo p (fetchAndPostNews net st config b w s).trace).length
        = min config.FetchTopStoriesAmount.toNat (ids.filter (postable posted det s p)).length ∧
      (∀ id, isInt id →
        posted (fetchAndPostNews net st config b w s).s p id
          = (posted s p id || decide (id ∈
              (ids.filter (postable posted det s p)).take config.FetchTopStoriesAmount.toNat))) ∧
      ∀ id ∈ (ids.filter (postable posted det s p)).drop config.FetchTopStoriesAmount.toNat,
        id ∉ deliveredTo p (fetchAndPostNews net st config b w s).trace ∧
        id ∉ recordedFor p (fetchAndPostNews net st config b w s).trace ∧
        posted (fetchAndPostNews net st config b w s).s p id = false := by
  have hp : p ∈ channels := platforms_channels config b (p, u) hmem
  have hen := isEnabled_platforms config b p u hmem hu
  rw [fetchAndPostNews_ok net st config b w s ids w1 htop] at hchecks hposts hsaves hdet ⊢
  dsimp only at hchecks hposts hsaves hdet ⊢
  have hclean : Clean p det (platformLoop net st config.FetchTopStoriesAmount ids
      (platforms config b) w1 s).trace :=
    ⟨fun e he => hchecks e (List.mem_cons_of_mem _ he),
      fun e he => hposts e (List.mem_cons_of_mem _ he),
      fun e he => hsaves e (List.mem_cons_of_mem _ he),
      fun x hx => hdet x (fetchesFor_append_right p [Event.topStories (Res.ok ids)] _ x hx)⟩
  obtain ⟨e1, e3, e4⟩ := platformLoop_run net st Inv posted law det
    config.FetchTopStoriesAmount ids hnd hids p hp (platforms config b) w1 s hs
    (platforms_nodup config b) (platforms_channels config b) hclean
  obtain ⟨_, e5⟩ := platformLoop_posted net st Inv posted law config.FetchTopStoriesAmount ids
    hids (platforms config b) w1 s hs (platforms_channels config b) hclean.2.2.1
  rw [hen] at e3 e4
  simp only [if_true, firstPostable] at e3 e4
  have hdel : deliveredTo p (Event.topStories (Res.ok ids) ::
      (platformLoop net st config.FetchTopStoriesAmount ids (platforms config b) w1 s).trace)
      = (ids.filter (postable posted det s p)).take config.FetchTopStoriesAmount.toNat := by
    simpa [deliveredTo, delivered, deliveryOf] using e3
  have hrec : recordedFor p (Event.topStories (Res.ok ids) ::
      (platformLoop net st config.FetchTopStoriesAmount ids (platforms config b) w1 s).trace)
      = (ids.filter (postable posted det s p)).take config.FetchTopStoriesAmount.toNat := by
    simpa [recordedFor, recorded, recordOf] using e4
  have hpost : ∀ id, isInt id →
      posted (platformLoop net st config.FetchTopStoriesAmount ids (platforms config b) w1 s).s
          p id
        = (posted s p id || decide (id ∈
            (ids.filter (postable posted det s p)).take config.FetchTopStoriesAmount.toNat)) := by
    intro id hid
    rw [e5 p id hp hid]
    congr 1
    rw [decide_eq_decide, mem_recorded_iff, e4]
  refine ⟨e1, hdel, hrec, ?_, hpost, ?_⟩
  · rw [hdel, List.length_take]
  · intro id hid
    have hL : (ids.filter (postable posted det s p)).Nodup := hnd.filter _
    have hnot : id ∉ (ids.filter (postable posted det s p)).take
        config.FetchTopStoriesAmount.toNat :=
      fun hm => List.disjoint_take_drop hL (le_refl _) hm hid
    have hin : id ∈ ids.filter (postable posted det s p) := List.mem_of_mem_drop hid
    rw [List.mem_filter] at hin
    have hnp : posted s p id = false := by
      have := hin.2
      simp only [postable, Bool.and_eq_true, Bool.not_eq_true'] at this
      exact this.1
    refine ⟨by rw [hdel]; exact hnot, by rw [hrec]; exact hnot, ?_⟩
    rw [hpost id (hids id hin.1), hnp]
    simp [hnot]

theorem quota_in_source_order_amended_witness :
    deliveredTo "discord" (fetchAndPostNews (hiccupNet (Res.ok [1, 3, 4]) scenarioDetails)
        flakyDB quotaTwo true 0 (1, [])).trace = [1, 4] ∧
      deliveredTo "slack" (fetchAndPostNews (hiccupNet (Res.ok [1, 3, 4]) scenarioDetails)
        flakyDB quotaTwo true 0 (1, [])).trace = [1, 3] ∧
      recordedFor "slack" (fetchAndPostNews
        (scriptedNet (Res.ok [1, 2, 3, 4, 5]) scenarioDetails)
        (fileStorage newFileStorage) quotaTwo true [Res.ok 429] emptyFiles).trace = [1, 3] :=
  ⟨(quota_in_source_order_amended (hiccupNet (Res.ok [1, 3, 4]) scenarioDetails) flakyDB
      (fun _ => True) flakyPosted flakyDB_truthful quotaTwo true 0 (1, []) trivial [1, 3, 4] 0
      rfl (by decide) (by decide) "discord" "https://discord.example/hook" (by decide)
      (by decide) (fun id => if id = 3 then Res.error "timeout" else scenarioDetails id)
      (by decide) (by decide) (by decide) (by decide)).2.1.trans (by decide),
    (quota_in_source_order_amended (hiccupNet (Res.ok [1, 3, 4]) scenarioDetails) flakyDB
      (fun _ => True) flakyPosted flakyDB_truthful quotaTwo true 0 (1, []) trivial [1, 3, 4] 0
      rfl (by decide) (by decide) "slack" "https://slack.example/hook" (by decide)
      (by decide) scenarioDetails
      (by decide) (by decide) (by decide) (by decide)).2.1.trans (by decide),
    (quota_in_source_order_amended (scriptedNet (Res.ok [1, 2, 3, 4, 5]) scenarioDetails)
      (fileStorage newFileStorage) FileInv filePosted
      (truthful_of_lawful _ _ _ fileStorage_lawful) quotaTwo true [Res.ok 429] emptyFiles
      FileInv_empty [1, 2, 3, 4, 5] [Res.ok 429] rfl (by decide) (by decide) "slack"
      "https://slack.example/hook" (by decide) (by decide) scenarioDetails
      (by decide) (by decide) (by decide) (by decide)).2.2.1.trans (by decide)⟩

theorem at_most_one_post_witness :
    (delivered ((fetchAndPostNews (scriptedNet (Res.ok [1, 1, 3]) scenarioDetails)
        (fileStorage newFileStorage) bothChannels true [] emptyFiles).trace ++
      (fetchAndPostNews (scriptedNet (Res.ok [1, 1, 3]) scenarioDetails)
        (fileStorage newFileStorage) bothChannels false
        (fetchAndPostNews (scriptedNet (Res.ok [1, 1, 3]) scenarioDetails)
          (fileStorage newFileStorage) bothChannels true [] emptyFiles).w
        (fetchAndPostNews (scriptedNet (Res.ok [1, 1, 3]) scenarioDetails)
          (fileStorage newFileStorage) bothChannels true [] emptyFiles).s).trace)).Nodup ∧
    (delivered ((fetchAndPostNews (scriptedNet (Res.ok [1, 1, 3]) scenarioDetails)
        dbStorage bothChannels true [] []).trace ++
      (fetchAndPostNews (scriptedNet (Res.ok [1, 1, 3]) scenarioDetails)
        dbStorage bothChannels false
        (fetchAndPostNews (scriptedNet (Res.ok [1, 1, 3]) scenarioDetails)
          dbStorage bothChannels true [] []).w
        (fetchAndPostNews (scriptedNet (Res.ok [1, 1, 3]) scenarioDetails)
          dbStorage bothChannels true [] []).s).trace)).Nodup :=
  ⟨at_most_one_post (scriptedNet (Res.ok [1, 1, 3]) scenarioDetails)
      (fileStorage newFileStorage) FileInv filePosted fileStorage_lawful bothChannels true false
      [] emptyFiles FileInv_empty
      (by
        intro w ids w1 h id hid
        simp only [scriptedNet, Prod.mk.injEq, Res.ok.injEq] at h
        rw [← h.1] at hid
        simp only [List.mem_cons, List.mem_singleton, List.not_mem_nil, or_false] at hid
        rcases hid with rfl | rfl | rfl <;> decide),
    at_most_one_post (scriptedNet (Res.ok [1, 1, 3]) scenarioDetails)
      dbStorage (fun _ => True) dbPosted dbStorage_lawful bothChannels true false
      [] [] trivial
      (by
        intro w ids w1 h id hid
        simp only [scriptedNet, Prod.mk.injEq, Res.ok.injEq] at h
        rw [← h.1] at hid
        simp only [List.mem_cons, List.mem_singleton, List.not_mem_nil, or_false] at hid
        rcases hid with rfl | rfl | rfl <;> decide)⟩

/-! ## C10: cooldown waits -/

/-- C10 at the failing input: when the webhook answers the three sends with 429,
`postToWebhook` makes three sends and three cooldown waits (for every network that does so,
and on the scripted one), and the last thing it does before it returns the failure is a wait,
which no send follows. When the answers are 429, 429 and 200 it succeeds after three sends and
two waits. -/
theorem cooldown_after_last_attempt :
    (∀ (ω : Type) (net : Net ω) (w : ω) (platform webhookURL message : String),
      (∀ j, j < 3 →
        isRateLimited (nthSend net webhookURL (webhookPayload platform message) j w).1) →
      sends (postToWebhook net platform webhookURL message w).trace = 3 ∧
        sleeps (postToWebhook net platform webhookURL message w).trace = 3) ∧
    (sends (postToWebhook (scriptedNet (Res.ok []) scenarioDetails) "discord"
        "https://discord.example/hook" "m" [Res.ok 429, Res.ok 429, Res.ok 429]).trace = 3 ∧
      sleeps (postToWebhook (scriptedNet (Res.ok []) scenarioDetails) "discord"
        "https://discord.example/hook" "m" [Res.ok 429, Res.ok 429, Res.ok 429]).trace = 3 ∧
      (postToWebhook (scriptedNet (Res.ok []) scenarioDetails) "discord"
        "https://discord.example/hook" "m" [Res.ok 429, Res.ok 429, Res.ok 429]).trace.getLast?
        = some Event.sleep ∧
      (postToWebhook (scriptedNet (Res.ok []) scenarioDetails) "discord"
        "https://discord.example/hook" "m" [Res.ok 429, Res.ok 429, Res.ok 429]).err
        = some "failed to post to webhook after multiple attempts") ∧
    (sends (postToWebhook (scriptedNet (Res.ok []) scenarioDetails) "discord"
        "https://discord.example/hook" "m" [Res.ok 429, Res.ok 429, Res.ok 200]).trace = 3 ∧
      sleeps (postToWebhook (scriptedNet (Res.ok []) scenarioDetails) "discord"
        "https://discord.example/hook" "m" [Res.ok 429, Res.ok 429, Res.ok 200]).trace = 2 ∧
      (postToWebhook (scriptedNet (Res.ok []) scenarioDetails) "discord"
        "https://discord.example/hook" "m" [Res.ok 429, Res.ok 429, Res.ok 200]).err = none) := by
  refine ⟨?_, by decide, by decide⟩
  intro ω net w platform webhookURL message hall
  exact ((postAttempts_spec net webhookURL (webhookPayload platform message) 3 w).2 hall).2

theorem persistence_errors_amended_witness :
    (fetchAndPostNews (scriptedNet (Res.ok [7, 8]) scenarioDetails) flakyStorage
        discordOnly true [] 0).err = none :=
  (persistence_errors_amended (scriptedNet (Res.ok [7, 8]) scenarioDetails) flakyStorage).2.2.2.2
    discordOnly true [] 0 [7, 8] [] rfl
    (by
      intro p id e h
      have hall : ((fetchAndPostNews (scriptedNet (Res.ok [7, 8]) scenarioDetails) flakyStorage
          discordOnly true [] 0).trace.all (fun x => !isFailedPost x)) = true := by decide
      have := List.all_eq_true.1 hall _ h
      simp [isFailedPost] at this)

/-! # End -/

end HnBot
